import Mathlib

/-!
# shikanon/myapi : the speech protocol layer of `cloudsdk`

A shallow embedding of `src/cloudsdk/audio_asr.go` (recognition client) and
`src/cloudsdk/audio_tts.go` (synthesis client), followed by theorems about it.

Conventions of the embedding

* A Go `byte` is a natural number below 256 and a `[]byte` is a `List Nat`;
  byte arithmetic that can wrap is reduced `% 256` where the source computes it.
* A Go `int` is 64 bits wide; it is embedded as `Int`.  The only sums of the
  code are `offset + chunkSize` and `seq + 1`, which stay below `2 ^ 63` for
  every buffer that fits in memory; the products of configuration fields in
  `RecognizeStream` can exceed 64 bits and are wrapped (`mulInt`).
* A function that can stop with a run-time panic (slice bounds out of range)
  returns an `Option`, `none` being the panic.
* The library calls (`compress/gzip`, `encoding/json`) and the websocket peer
  are parameters: functions for the former, scripted results for the latter.
-/

namespace Myapi

/-- A Go `[]byte`, as the list of its `len` bytes. -/
abbrev Bytes := List Nat

/-- Every element of a byte list is below 256. -/
def WellFormed (b : Bytes) : Prop := ∀ x ∈ b, x < 256

/-- A Go byte slice as a callee receives it: its `len` bytes, and `spare`, the
bytes of the backing array between `len` and `cap`, which a reslice `s[:n]`
reaches (the upper bound of a slice expression on a slice is its capacity). -/
structure GoSlice where
  bytes : Bytes
  spare : Bytes
deriving DecidableEq, Repr

/-! ## Constants of `audio_asr.go` -/

def PROTOCOL_VERSION : Nat := 0x01
def DEFAULT_HEADER_SIZE : Nat := 0x01

def FULL_CLIENT_REQUEST : Nat := 0x01
def AUDIO_ONLY_REQUEST : Nat := 0x02
def FULL_SERVER_RESPONSE : Nat := 0x09
def SERVER_ACK : Nat := 0x0B
def SERVER_ERROR_RESPONSE : Nat := 0x0F

def NO_SEQUENCE : Nat := 0x00
def POS_SEQUENCE : Nat := 0x01
def NEG_SEQUENCE : Nat := 0x02
def NEG_WITH_SEQUENCE : Nat := 0x03

def NO_SERIALIZATION : Nat := 0x00
def JSON : Nat := 0x01

def NO_COMPRESSION : Nat := 0x00
def GZIP_COMPRESSION : Nat := 0x01

/-! ## `encoding/binary` big-endian helpers and integer conversions -/

/-- The conversion `uint32(x)` of a Go `int`. -/
def uint32 (x : Int) : Nat := (x % 2 ^ 32).toNat

/-- The conversion `int32(v)` of a `uint32`. -/
def int32 (v : Nat) : Int := if v % 2 ^ 32 < 2 ^ 31 then (v % 2 ^ 32 : Nat) else (v % 2 ^ 32 : Nat) - 2 ^ 32

/-- Go's `binary.BigEndian.PutUint32` into a fresh 4-byte buffer:
`b[0] = byte(v >> 24)`, `b[1] = byte(v >> 16)`, `b[2] = byte(v >> 8)`, `b[3] = byte(v)`. -/
def putUint32 (v : Nat) : Bytes :=
  [(v >>> 24) % 256, (v >>> 16) % 256, (v >>> 8) % 256, v % 256]

/-- Go's `binary.BigEndian.Uint32` on a slice of (at least) four bytes:
`uint32(b[3]) | uint32(b[2])<<8 | uint32(b[1])<<16 | uint32(b[0])<<24`. -/
def beUint32 (b : Bytes) : Nat :=
  b.getD 3 0 ||| (b.getD 2 0 <<< 8) ||| (b.getD 1 0 <<< 16) ||| (b.getD 0 0 <<< 24)

/-! ## Header codec (`generateHeader`, `generateBeforePayload`) -/

/-- The function `generateHeader` of `audio_asr.go`; the operands are bytes, so
the shifted values wrap at 256. -/
def generateHeader (messageType messageTypeSpecificFlags serialMethod compressionType
    reservedData : Nat) : Bytes :=
  [ ((PROTOCOL_VERSION <<< 4) % 256) ||| DEFAULT_HEADER_SIZE,
    ((messageType <<< 4) % 256) ||| messageTypeSpecificFlags,
    ((serialMethod <<< 4) % 256) ||| compressionType,
    reservedData ]

/-- The function `generateBeforePayload` of `audio_asr.go`. -/
def generateBeforePayload (sequence : Int) : Bytes :=
  putUint32 (uint32 sequence)

/-- The seven header fields as both parsers extract them from the first four
bytes of a frame (`audio_tts.go` lines 157-163, `audio_asr.go` lines 117-122). -/
structure Header where
  protoVersion : Nat
  headSize : Nat
  messageType : Nat
  messageTypeSpecificFlags : Nat
  serializationMethod : Nat
  messageCompression : Nat
  reserve : Nat
deriving DecidableEq, Repr

/-- The nibble extraction of the parsers; it is only used on `res` of length at least 4. -/
def decodeHeader (res : Bytes) : Header :=
  { protoVersion := res.getD 0 0 >>> 4
    headSize := res.getD 0 0 &&& 0x0f
    messageType := res.getD 1 0 >>> 4
    messageTypeSpecificFlags := res.getD 1 0 &&& 0x0f
    serializationMethod := res.getD 2 0 >>> 4
    messageCompression := res.getD 2 0 &&& 0x0f
    reserve := res.getD 3 0 }

/-! ## Segmenter (`sliceData`) -/

/-- One element sent on the channel of `sliceData`. -/
structure AudioChunk where
  Chunk : Bytes
  Last : Bool
deriving DecidableEq, Repr

/-- The slice expression `data[lo:hi]` for `hi ≤ len(data)`; `none` is the
run-time panic for bounds that are negative or inverted. -/
def subslice (data : Bytes) (lo hi : Int) : Option Bytes :=
  if 0 ≤ lo ∧ lo ≤ hi ∧ hi ≤ data.length then
    some ((data.drop lo.toNat).take (hi - lo).toNat)
  else none

/-- One send of the producer goroutine of `sliceData`, at loop variable `offset`:
the chunk put on the channel and the next `offset`; the chunk marked `Last` is
the one sent after the `for` loop, after which the channel is closed. -/
def sliceStep (data : Bytes) (chunkSize offset : Int) : Option (AudioChunk × Int) :=
  if offset + chunkSize < data.length then
    (subslice data offset (offset + chunkSize)).map
      fun c => (⟨c, false⟩, offset + chunkSize)
  else
    (subslice data offset data.length).map fun c => (⟨c, true⟩, offset)

/-- How a bounded run of the producer ends. -/
inductive SliceEnd
  | closed
  | fault
  | running
deriving DecidableEq, Repr

/-- The producer of `sliceData` run for at most `fuel` sends from `offset`:
the chunks sent, in order, and whether the channel was closed after them. -/
def sliceLoop (data : Bytes) (chunkSize : Int) : Nat → Int → List AudioChunk × SliceEnd
  | 0, _ => ([], .running)
  | fuel + 1, offset =>
    match sliceStep data chunkSize offset with
    | none => ([], .fault)
    | some (c, next) =>
      if c.Last then ([c], .closed)
      else ((c :: (sliceLoop data chunkSize fuel next).1), (sliceLoop data chunkSize fuel next).2)

/-- The method `sliceData` of `audio_asr.go`: the chunks received from its channel. -/
def sliceData (data : Bytes) (chunkSize : Int) (fuel : Nat) : List AudioChunk × SliceEnd :=
  sliceLoop data chunkSize fuel 0

/-! ## Library results -/

/-- What `gzip.NewReader` followed by `io.ReadAll` gives on an input. -/
inductive GunzipResult
  | readerFailed
  | readFailed
  | ok (out : Bytes)
deriving DecidableEq, Repr

/-! ## Recognition response parser (`parseResponse` of `audio_asr.go`) -/

/-- The field `PayloadMsg interface{}` of `Response`: nil, a decoded JSON value,
or a string. -/
inductive Payload (J : Type)
  | absent
  | json (v : J)
  | text (s : Bytes)
deriving DecidableEq, Repr

/-- The struct `Response` of `audio_asr.go`; the defaults are Go's zero values. -/
structure Response (J : Type) where
  IsLastPackage : Bool := false
  PayloadSequence : Int := 0
  Seq : Int := 0
  Code : Int := 0
  PayloadMsg : Payload J := .absent
  PayloadSize : Int := 0
deriving DecidableEq, Repr

/-- The slice expression `s[n:]`: it panics unless `n ≤ len(s)`. -/
def GoSlice.sliceFrom (s : GoSlice) (n : Nat) : Option GoSlice :=
  if n ≤ s.bytes.length then some ⟨s.bytes.drop n, s.spare⟩ else none

/-- The slice expression `s[:4]`: it panics unless `4 ≤ cap(s)`. -/
def GoSlice.firstFour (s : GoSlice) : Option Bytes :=
  if 4 ≤ s.bytes.length + s.spare.length then some ((s.bytes ++ s.spare).take 4) else none

/-- The `switch messageType` of `parseResponse`: the response with `Seq` or
`Code` filled in, `payloadSize`, and `payloadMsg` (`none` for nil). -/
def parseBody {J : Type} (messageType : Nat) (payload : GoSlice) (result : Response J) :
    Option (Response J × Int × Option Bytes) :=
  if messageType = FULL_SERVER_RESPONSE then do
    let size ← payload.firstFour
    let msg ← payload.sliceFrom 4
    pure (result, (beUint32 size : Int), some msg.bytes)
  else if messageType = SERVER_ACK then do
    let seq ← payload.firstFour
    let result := { result with Seq := (beUint32 seq : Int) }
    if payload.bytes.length ≥ 8 then
      pure (result, (beUint32 ((payload.bytes.drop 4).take 4) : Int), some (payload.bytes.drop 8))
    else pure (result, 0, none)
  else if messageType = SERVER_ERROR_RESPONSE then do
    let code ← payload.firstFour
    let result := { result with Code := (beUint32 code : Int) }
    if payload.bytes.length ≥ 8 then
      pure (result, (beUint32 ((payload.bytes.drop 4).take 4) : Int), some (payload.bytes.drop 8))
    else pure (result, 0, none)
  else pure (result, 0, none)

/-- The function `parseResponse` of `audio_asr.go`; `none` is a run-time panic.
Decompression and JSON decoding failures are swallowed as in the source. -/
def parseResponse {J : Type} (gunzip : Bytes → GunzipResult) (unmarshal : Bytes → Option J)
    (res : GoSlice) : Option (Response J) :=
  if res.bytes.length < 4 then some {} else do
    let h := decodeHeader res.bytes
    let payload ← res.sliceFrom (h.headSize * 4)
    let (result, payload) ←
      (if h.messageTypeSpecificFlags &&& 0x01 ≠ 0 then do
        let seq ← payload.firstFour
        let rest ← payload.sliceFrom 4
        pure (({ PayloadSequence := (beUint32 seq : Int) } : Response J), rest)
      else pure (({} : Response J), payload))
    let result :=
      if h.messageTypeSpecificFlags &&& 0x02 ≠ 0 then { result with IsLastPackage := true }
      else result
    let (result, payloadSize, payloadMsg) ← parseBody h.messageType payload result
    match payloadMsg with
    | none => pure result
    | some msg =>
      let msg :=
        if h.messageCompression = GZIP_COMPRESSION then
          match gunzip msg with
          | .ok decompressed => decompressed
          | _ => msg
        else msg
      let result :=
        if h.serializationMethod = JSON then
          match unmarshal msg with
          | some v => { result with PayloadMsg := .json v }
          | none => result
        else if h.serializationMethod ≠ NO_SERIALIZATION then
          { result with PayloadMsg := .text msg }
        else result
      pure { result with PayloadSize := payloadSize }

/-! ## Recognition session (`constructRequest`, `processData`) -/

/-- The struct `AsrConfig` of `audio_asr.go`. -/
structure AsrConfig where
  SegDuration : Int
  WsURL : String
  UID : String
  Format : String
  Rate : Int
  Bits : Int
  Channel : Int
  Codec : String
  AuthMethod : String
  HotWords : String
  Streaming : Bool
  Mp3SegSize : Int
  AccessKey : String
  AppKey : String
deriving DecidableEq, Repr

/-- The struct `Request` of `audio_asr.go`, flattened. -/
structure Request where
  UID : String
  Format : String
  SampleRate : Int
  Bits : Int
  Channel : Int
  Codec : String
  ModelName : String
  EnablePunc : Bool
deriving DecidableEq, Repr

/-- The method `constructRequest` of `audio_asr.go`. -/
def constructRequest (config : AsrConfig) : Request :=
  { UID := config.UID
    Format := config.Format
    SampleRate := config.Rate
    Bits := config.Bits
    Channel := config.Channel
    Codec := config.Codec
    ModelName := "bigmodel"
    EnablePunc := true }

/-- The frame assembly shared by the two requests of `processData` (lines 280-284
and 336-339): header, sequence, big-endian length of the compressed payload, payload. -/
def assembleFrame (header : Bytes) (seq : Int) (compressed : Bytes) : Bytes :=
  header ++ generateBeforePayload seq ++ putUint32 (uint32 compressed.length) ++ compressed

/-- The `fullClientRequest` frame of `processData`, sent with `seq = 1`. -/
def fullClientRequest (gzip : Bytes → Bytes) (marshal : Request → Bytes) (config : AsrConfig)
    (seq : Int) : Bytes :=
  assembleFrame (generateHeader FULL_CLIENT_REQUEST POS_SEQUENCE JSON GZIP_COMPRESSION 0x00) seq
    (gzip (marshal (constructRequest config)))

/-- The `audioOnlyRequest` frame that `processData` builds for a chunk, `seq`
being the counter after its update for this chunk. -/
def audioOnlyRequest (gzip : Bytes → Bytes) (chunkData : AudioChunk) (seq : Int) : Bytes :=
  assembleFrame
    (if chunkData.Last then
      generateHeader AUDIO_ONLY_REQUEST NEG_WITH_SEQUENCE JSON GZIP_COMPRESSION 0x00
    else generateHeader AUDIO_ONLY_REQUEST POS_SEQUENCE JSON GZIP_COMPRESSION 0x00)
    seq (gzip chunkData.Chunk)

/-- The websocket peer of one session, scripted: whether `Dial` succeeds, the
outcome of each successive `WriteMessage` (`true` = no error) and of each
successive `ReadMessage` (`none` = error); an exhausted script is an error, the
connection being closed. -/
structure Peer where
  dial : Bool
  writes : List Bool
  reads : List (Option GoSlice)

/-- A transport event of a session. -/
inductive Event
  | sent (frame : Bytes)
  | received (frame : GoSlice)
deriving DecidableEq, Repr

/-- The stage at which `processData` returns an error. -/
inductive SessionError
  | connect
  | sendInitial
  | readInitial
  | sendChunk
  | readChunk
deriving DecidableEq, Repr

/-- How `processData` ends: the returned response, a returned error, or a panic. -/
inductive SessionEnd (J : Type)
  | returned (result : Response J)
  | failed (e : SessionError)
  | panicked
deriving DecidableEq, Repr

/-- A run of `processData`: the transport events in order, and the ending. -/
structure Session (J : Type) where
  trace : List Event
  outcome : SessionEnd J
deriving DecidableEq, Repr

/-- The frames a session wrote, in order. -/
def Session.sends {J : Type} (s : Session J) : List Bytes :=
  s.trace.filterMap fun e => match e with
    | .sent f => some f
    | .received _ => none

/-- The first half of an iteration of the chunk loop of `processData`. -/
inductive ChunkSend
  | panicked
  | sendFailed
  | sent (chunkData : AudioChunk) (next : Int) (seq : Int) (frame : Bytes) (writes : List Bool)
deriving DecidableEq, Repr

/-- Lines 311-343 of `processData`: the chunk received from the channel of
`sliceData` (the producer being at `offset`), the update of the counter `seq`, the
frame built for the chunk, and its `WriteMessage`. -/
def chunkSend (gzip : Bytes → Bytes) (data : Bytes) (segmentSize : Int) (writes : List Bool)
    (offset seq : Int) : ChunkSend :=
  match sliceStep data segmentSize offset with
  | none => .panicked
  | some (chunkData, next) =>
    let seq := if chunkData.Last then -(seq + 1) else seq + 1
    let frame := audioOnlyRequest gzip chunkData seq
    match writes with
    | [] => .sendFailed
    | false :: _ => .sendFailed
    | true :: writes => .sent chunkData next seq frame writes

/-- The `for chunkData := range c.sliceData(data, segmentSize)` loop of
`processData` (lines 311-359), the producer being at `offset` and the counter at
`seq`: `chunkSend`, then `ReadMessage` and `parseResponse`, and the next iteration
unless the chunk was the last.  The pacing sleep has no effect on the frames and is
left out. -/
def chunkLoop {J : Type} (gzip : Bytes → Bytes) (gunzip : Bytes → GunzipResult)
    (unmarshal : Bytes → Option J) (data : Bytes) (segmentSize : Int) :
    List (Option GoSlice) → List Bool → Int → Int → Session J
  | [], writes, offset, seq =>
    match chunkSend gzip data segmentSize writes offset seq with
    | .panicked => ⟨[], .panicked⟩
    | .sendFailed => ⟨[], .failed .sendChunk⟩
    | .sent _ _ _ frame _ => ⟨[.sent frame], .failed .readChunk⟩
  | read :: reads, writes, offset, seq =>
    match chunkSend gzip data segmentSize writes offset seq with
    | .panicked => ⟨[], .panicked⟩
    | .sendFailed => ⟨[], .failed .sendChunk⟩
    | .sent chunkData next seq frame writes =>
      match read with
      | none => ⟨[.sent frame], .failed .readChunk⟩
      | some res =>
        match parseResponse gunzip unmarshal res with
        | none => ⟨[.sent frame, .received res], .panicked⟩
        | some result =>
          if chunkData.Last then ⟨[.sent frame, .received res], .returned result⟩
          else
            let rest := chunkLoop gzip gunzip unmarshal data segmentSize reads writes next seq
            ⟨.sent frame :: .received res :: rest.trace, rest.outcome⟩

/-- The method `processData` of `audio_asr.go` against a scripted peer. -/
def processData {J : Type} (gzip : Bytes → Bytes) (marshal : Request → Bytes)
    (gunzip : Bytes → GunzipResult) (unmarshal : Bytes → Option J) (config : AsrConfig)
    (peer : Peer) (data : Bytes) (segmentSize : Int) : Session J :=
  let seq : Int := 1
  let frame := fullClientRequest gzip marshal config seq
  if !peer.dial then ⟨[], .failed .connect⟩ else
  match peer.writes with
  | [] => ⟨[], .failed .sendInitial⟩
  | false :: _ => ⟨[], .failed .sendInitial⟩
  | true :: writes =>
    match peer.reads with
    | [] => ⟨[.sent frame], .failed .readInitial⟩
    | none :: _ => ⟨[.sent frame], .failed .readInitial⟩
    | some res :: reads =>
      match parseResponse gunzip unmarshal res with
      | none => ⟨[.sent frame, .received res], .panicked⟩
      | some (_ : Response J) =>
        let rest := chunkLoop gzip gunzip unmarshal data segmentSize reads writes 0 seq
        ⟨.sent frame :: .received res :: rest.trace, rest.outcome⟩

/-! ## Segment size and `RecognizeStream` -/

/-- The value of a 64-bit two's complement `int` holding `x` modulo `2 ^ 64`. -/
def wrapInt (x : Int) : Int := (x + 2 ^ 63) % 2 ^ 64 - 2 ^ 63

/-- The integer `x` is the value of a 64-bit `int`. -/
def fitsInt (x : Int) : Prop := -2 ^ 63 ≤ x ∧ x < 2 ^ 63

/-- Go's `*` on `int`: the product, wrapped at 64 bits. -/
def mulInt (a b : Int) : Int := wrapInt (a * b)

/-- The `switch c.config.Format` of `RecognizeStream` (lines 243-255): the segment
size, `none` in the `default` case.  Go's `/` truncates toward zero (`Int.tdiv`)
and its operands are evaluated left to right. -/
def segmentSize (config : AsrConfig) : Option Int :=
  if config.Format = "mp3" then some config.Mp3SegSize
  else if config.Format = "wav" then
    let sizePerSec := mulInt (mulInt config.Channel (Int.tdiv config.Bits 8)) config.Rate
    some (Int.tdiv (mulInt sizePerSec config.SegDuration) 1000)
  else if config.Format = "pcm" then
    some (Int.tdiv
      (mulInt (mulInt (mulInt config.Rate 2) config.Channel) config.SegDuration) 500)
  else none

/-- The errors `RecognizeStream` returns before it calls `processData`. -/
inductive RecognizeError
  | readFile
  | unsupportedFormat (format : String)
deriving DecidableEq, Repr

/-- The result of `RecognizeStream`: an error of its own, or the run of `processData`. -/
inductive Recognition (J : Type)
  | failed (e : RecognizeError)
  | session (s : Session J)
deriving DecidableEq, Repr

/-- The method `RecognizeStream` of `audio_asr.go`; `file` is the result of
`os.ReadFile(audioPath)`, `none` for an error. -/
def RecognizeStream {J : Type} (gzip : Bytes → Bytes) (marshal : Request → Bytes)
    (gunzip : Bytes → GunzipResult) (unmarshal : Bytes → Option J) (config : AsrConfig)
    (file : Option Bytes) (peer : Peer) : Recognition J :=
  match file with
  | none => .failed .readFile
  | some data =>
    match segmentSize config with
    | none => .failed (.unsupportedFormat config.Format)
    | some segmentSize =>
      .session (processData gzip marshal gunzip unmarshal config peer data segmentSize)

/-- The configuration of `TestASRClient_StreamRecognition` (`audio_asr_test.go`),
without the credentials. -/
def testConfig : AsrConfig :=
  { SegDuration := 100
    WsURL := "wss://openspeech.bytedance.com/api/v3/sauc/bigmodel"
    UID := "test"
    Format := "wav"
    Rate := 16000
    Bits := 16
    Channel := 1
    Codec := "raw"
    AuthMethod := "none"
    HotWords := ""
    Streaming := true
    Mp3SegSize := 0
    AccessKey := ""
    AppKey := "" }

/-- A peer that accepts the connection and four writes, and answers with three
full server responses with an empty payload and a fourth one flagged as last. -/
def samplePeer : Peer :=
  { dial := true
    writes := [true, true, true, true]
    reads :=
      [some ⟨[0x11, 0x90, 0x10, 0x00, 0, 0, 0, 0], []⟩,
        some ⟨[0x11, 0x90, 0x10, 0x00, 0, 0, 0, 0], []⟩,
        some ⟨[0x11, 0x90, 0x10, 0x00, 0, 0, 0, 0], []⟩,
        some ⟨[0x11, 0x92, 0x10, 0x00, 0, 0, 0, 0], []⟩] }

/-- A 10-byte audio buffer. -/
def sampleAudio : Bytes := [10, 11, 12, 13, 14, 15, 16, 17, 18, 19]

/-- The test configuration with the format switched to mp3; `Mp3SegSize` keeps
its zero value. -/
def mp3TestConfig : AsrConfig := { testConfig with Format := "mp3" }

/-- A 12-byte audio buffer, six chunks at segment size 2. -/
def twelveBytes : Bytes := [20, 21, 22, 23, 24, 25, 26, 27, 28, 29, 30, 31]

/-- A peer that accepts the connection and seven writes, and answers each with a
full server response with an empty payload. -/
def sevenRoundPeer : Peer :=
  { dial := true
    writes := List.replicate 7 true
    reads := List.replicate 7 (some ⟨[0x11, 0x90, 0x10, 0x00, 0, 0, 0, 0], []⟩) }

/-! ## Synthesis response parser (`audio_tts.go`) -/

/-- The struct `synResp` of `audio_tts.go`. -/
structure synResp where
  Audio : Bytes := []
  IsLast : Bool := false
deriving DecidableEq, Repr

/-- The variable `defaultHeader` of `audio_tts.go`: the header of a synthesis request. -/
def defaultHeader : Bytes := [0x11, 0x10, 0x11, 0x00]

/-- The errors `gzipDecompress` returns. -/
inductive GzipError
  | emptyInput
  | readerCreateFailed
  | readFailed
deriving DecidableEq, Repr

/-- The function `gzipDecompress` of `audio_tts.go`. -/
def gzipDecompress (gunzip : Bytes → GunzipResult) (input : Bytes) : Except GzipError Bytes :=
  if input.length = 0 then .error .emptyInput
  else
    match gunzip input with
    | .readerFailed => .error .readerCreateFailed
    | .readFailed => .error .readFailed
    | .ok out => .ok out

/-- The errors the synthesis `parseResponse` returns, one constructor for each
`errors.New` / `fmt.Errorf` of the function, with the formatted values. -/
inductive SynError
  | responseTooShort
  | invalidHeaderSize (expected got : Nat)
  | audioTooShort (got : Nat)
  | errorMessageTooShort (got : Nat)
  | errorMessageDecompress (e : GzipError)
  | serverError (code : Int) (msg : Bytes)
  | frontendTooShort (got : Nat)
  | frontendDecompress (e : GzipError)
  | unknownMessageType (messageType : Nat)
  | unsupportedMessageType (messageType : Nat)
deriving DecidableEq, Repr

/-- The keys of the map `enumMessageType`. -/
def enumMessageTypeKeys : List Nat := [0x0b, 0x0c, 0x0f]

/-- The method `parseResponse` of `TTSWsClient`: the pair it returns (`synResp`,
`error`, the latter `none` for nil); the outer `none` is a run-time panic, which
only the header-extension slice `res[4 : headSize*4]` can raise.  The debug
printing is left out. -/
def TTSWsClient.parseResponse (gunzip : Bytes → GunzipResult) (res : Bytes) :
    Option (synResp × Option SynError) :=
  let resp : synResp := {}
  if res.length < 4 then some (resp, some .responseTooShort) else
  let h := decodeHeader res
  if h.headSize ≠ 1 ∧ res.length ≥ h.headSize * 4 ∧ ¬ (4 ≤ h.headSize * 4) then none else
  if res.length < h.headSize * 4 then
    some (resp, some (.invalidHeaderSize (h.headSize * 4) res.length))
  else
  let payload := res.drop (h.headSize * 4)
  if h.messageType = 0x0b then
    if h.messageTypeSpecificFlags = 0 then some (resp, none)
    else if payload.length < 8 then some (resp, some (.audioTooShort payload.length))
    else
      let sequenceNumber := int32 (beUint32 (payload.take 4))
      let payload := payload.drop 8
      let resp := { resp with Audio := resp.Audio ++ payload }
      let resp := if sequenceNumber < 0 then { resp with IsLast := true } else resp
      some (resp, none)
  else if h.messageType = 0x0f then
    if payload.length < 8 then some (resp, some (.errorMessageTooShort payload.length))
    else
      let code := int32 (beUint32 (payload.take 4))
      let errMsg := payload.drop 8
      if h.messageCompression = 1 then
        match gzipDecompress gunzip errMsg with
        | .error e => some (resp, some (.errorMessageDecompress e))
        | .ok decompressed => some (resp, some (.serverError code decompressed))
      else some (resp, some (.serverError code errMsg))
  else if h.messageType = 0x0c then
    if payload.length < 4 then some (resp, some (.frontendTooShort payload.length))
    else
      let payload := payload.drop 4
      if h.messageCompression = 1 then
        match gzipDecompress gunzip payload with
        | .error e => some (resp, some (.frontendDecompress e))
        | .ok _ => some (resp, none)
      else some (resp, none)
  else if h.messageType ∉ enumMessageTypeKeys then
    some (resp, some (.unknownMessageType h.messageType))
  else some (resp, some (.unsupportedMessageType h.messageType))

/-! ## Synthesis streaming receive loop (`StreamSynth`, lines 355-375) -/

/-- The value of `lastErr` when the receive loop of `StreamSynth` stops. -/
inductive StreamError
  | readFailed
  | parseFailed (e : SynError)
deriving DecidableEq, Repr

/-- The state when the receive loop of `StreamSynth` stops: the accumulated
`audio`, `lastErr`, the number of `ReadMessage` calls made, and the inbound
messages left unread. -/
structure StreamRun where
  audio : Bytes
  lastErr : Option StreamError
  receives : Nat
  unread : List (Option Bytes)
deriving DecidableEq, Repr

/-- The `for` loop of `StreamSynth` over the scripted results of `ReadMessage`
(`none` = error; an exhausted script is an error, the connection being closed),
entered with `audio`; the outer `none` is a panic of `parseResponse`. -/
def streamLoop (gunzip : Bytes → GunzipResult) : List (Option Bytes) → Bytes → Option StreamRun
  | [], audio => some ⟨audio, some .readFailed, 1, []⟩
  | none :: rest, audio => some ⟨audio, some .readFailed, 1, rest⟩
  | some message :: rest, audio =>
    match TTSWsClient.parseResponse gunzip message with
    | none => none
    | some (_, some e) => some ⟨audio, some (.parseFailed e), 1, rest⟩
    | some (resp, none) =>
      if resp.IsLast then some ⟨audio ++ resp.Audio, none, 1, rest⟩
      else
        (streamLoop gunzip rest (audio ++ resp.Audio)).map
          fun r => { r with receives := r.receives + 1 }

/-! ## Synthesis request builder (`gzipCompress`, `buildRequest`) -/

/-- The error `gzipCompress` returns on a zero-length input. -/
inductive CompressError
  | emptyInput
deriving DecidableEq, Repr

/-- The function `gzipCompress` of `audio_tts.go`.  `gzip` is what a `gzip.Writer`
over a `bytes.Buffer` holds after `Write(input)` and `Close()`; neither call returns
an error on a buffer, so the two `fmt.Errorf` returns after the empty check are
unreachable and have no constructor. -/
def gzipCompress (gzip : Bytes → Bytes) (input : Bytes) : Except CompressError Bytes :=
  if input.length = 0 then .error .emptyInput
  else .ok (gzip input)

/-- The error `buildRequest` returns: "request compression failed". -/
inductive BuildError
  | requestCompressionFailed (e : CompressError)
deriving DecidableEq, Repr

/-- The method `buildRequest` of `TTSWsClient`: `defaultHeader`, the big-endian
length of the compressed input, the compressed input. -/
def TTSWsClient.buildRequest (gzip : Bytes → Bytes) (input : Bytes) : Except BuildError Bytes :=
  match gzipCompress gzip input with
  | .error e => .error (.requestCompressionFailed e)
  | .ok compressed =>
    .ok (defaultHeader ++ putUint32 (uint32 compressed.length) ++ compressed)

/-! ## `ReadBook` (`utils/readfile.go`) -/

/-- The errors `ReadBook` returns: that of `os.Open`, and that of `io.ReadAll` on
the transforming reader. -/
inductive ReadBookError
  | openFailed
  | readFailed
deriving DecidableEq, Repr

/-- The function `ReadBook` of `readfile.go`.  `file` is the content of the file
`os.Open` opens (`none` when it fails); `gbkDecode` is what `io.ReadAll` reads from
`transform.NewReader(file, simplifiedchinese.GBK.NewDecoder())` on that content,
`none` when it reports an error. -/
def ReadBook (gbkDecode : Bytes → Option Bytes) (file : Option Bytes) :
    Except ReadBookError Bytes :=
  match file with
  | none => .error .openFailed
  | some content =>
    match gbkDecode content with
    | none => .error .readFailed
    | some utf8 => .ok utf8

/-- The content of `wrong_encoding.txt` in `TestReadBook`: the 27 UTF-8 bytes of the
nine-character string the test writes. -/
def wrongEncodingBytes : Bytes :=
  [0xE8, 0xBF, 0x99, 0xE6, 0x98, 0xAF, 0xE9, 0x94, 0x99, 0xE8, 0xAF, 0xAF, 0xE7, 0xBC, 0x96,
    0xE7, 0xA0, 0x81, 0xE7, 0x9A, 0x84, 0xE5, 0x86, 0x85, 0xE5, 0xAE, 0xB9]

/-! # Theorems

## Segmenter -/


theorem sliceStep_interior (data : Bytes) (s o : Nat) (h : o + s < data.length) :
    sliceStep data (s : Int) (o : Int) =
      some (⟨(data.drop o).take s, false⟩, ((o + s : Nat) : Int)) := by
  have h1 : (o : Int) + (s : Int) < (data.length : Int) := by exact_mod_cast h
  have h2 : (0 : Int) ≤ (o : Int) ∧ (o : Int) ≤ (o : Int) + (s : Int) ∧
      (o : Int) + (s : Int) ≤ (data.length : Int) := by omega
  simp [sliceStep, subslice, h1, h2]

theorem sliceStep_final (data : Bytes) (s o : Nat) (ho : o ≤ data.length)
    (h : ¬ o + s < data.length) :
    sliceStep data (s : Int) (o : Int) = some (⟨data.drop o, true⟩, (o : Int)) := by
  have h1 : ¬ (o : Int) + (s : Int) < (data.length : Int) := by
    intro hc; exact h (by exact_mod_cast hc)
  have h2 : (0 : Int) ≤ (o : Int) ∧ (o : Int) ≤ (data.length : Int) ∧
      (data.length : Int) ≤ (data.length : Int) := by omega
  have h3 : ((data.length : Int) - (o : Int)).toNat = data.length - o := by omega
  simp [sliceStep, subslice, h1, h2, h3]

theorem sliceLoop_interior (data : Bytes) (s o fuel : Nat) (h : o + s < data.length) :
    sliceLoop data (s : Int) (fuel + 1) (o : Int) =
      (⟨(data.drop o).take s, false⟩ :: (sliceLoop data (s : Int) fuel ((o + s : Nat) : Int)).1,
        (sliceLoop data (s : Int) fuel ((o + s : Nat) : Int)).2) := by
  simp [sliceLoop, sliceStep_interior data s o h]

theorem sliceLoop_final (data : Bytes) (s o fuel : Nat) (ho : o ≤ data.length)
    (h : ¬ o + s < data.length) :
    sliceLoop data (s : Int) (fuel + 1) (o : Int) = ([⟨data.drop o, true⟩], .closed) := by
  simp [sliceLoop, sliceStep_final data s o ho h]

theorem sliceLoop_spec (data : Bytes) (s : Nat) (hs : 0 < s) :
    ∀ (fuel o : Nat), o ≤ data.length → data.length - o < fuel →
      (sliceLoop data (s : Int) fuel (o : Int)).2 = .closed ∧
      ((sliceLoop data (s : Int) fuel (o : Int)).1.map (fun c => c.Chunk)).flatten = data.drop o ∧
      (∃ init fin, (sliceLoop data (s : Int) fuel (o : Int)).1 = init ++ [fin] ∧
        fin.Last = true ∧ fin.Chunk.length ≤ s ∧
        ∀ c ∈ init, c.Last = false ∧ c.Chunk.length = s) ∧
      (∃ m, (sliceLoop data (s : Int) fuel (o : Int)).1.length = m + 1 ∧
        data.length - o ≤ (m + 1) * s ∧ m * s < max 1 (data.length - o)) := by
  intro fuel
  induction fuel with
  | zero => intro o _ h; omega
  | succ fuel ih =>
    intro o ho hf
    by_cases h : o + s < data.length
    · rw [sliceLoop_interior data s o fuel h]
      obtain ⟨h1, h2, ⟨init, fin, h3, h4, h5, h6⟩, ⟨m, h7, h8, h9⟩⟩ :=
        ih (o + s) (by omega) (by omega)
      refine ⟨h1, ?_, ⟨⟨(data.drop o).take s, false⟩ :: init, fin, ?_, h4, h5, ?_⟩,
        ⟨m + 1, ?_, ?_, ?_⟩⟩
      · simp only [List.map_cons, List.flatten_cons, h2]
        rw [← List.drop_drop]
        exact List.take_append_drop s (data.drop o)
      · rw [h3]; rfl
      · intro c hc
        rcases List.mem_cons.1 hc with rfl | hc
        · refine ⟨rfl, ?_⟩
          simp only [List.length_take, List.length_drop]
          omega
        · exact h6 c hc
      · simp only [List.length_cons, h7]
      · have e : (m + 1 + 1) * s = (m + 1) * s + s := Nat.succ_mul (m + 1) s
        omega
      · have e : (m + 1) * s = m * s + s := Nat.succ_mul m s
        have hmax : max 1 (data.length - (o + s)) = data.length - (o + s) := by omega
        have hmax2 : max 1 (data.length - o) = data.length - o := by omega
        omega
    · rw [sliceLoop_final data s o fuel ho h]
      refine ⟨rfl, by simp, ⟨[], ⟨data.drop o, true⟩, rfl, rfl, ?_, ?_⟩, ⟨0, rfl, ?_, ?_⟩⟩
      · simp only [List.length_drop]; omega
      · intro c hc; cases hc
      · omega
      · simp

/-- C1. For every audio buffer `data` and every segment size `S > 0`, the producer of
`sliceData` closes its channel (with any fuel above `len(data)`), and the chunks it
sent, concatenated in emission order, are exactly `data`. -/
theorem sliceData_concat (data : Bytes) (S : Int) (hS : 0 < S) (fuel : Nat)
    (hf : data.length < fuel) :
    (sliceData data S fuel).2 = .closed ∧
      ((sliceData data S fuel).1.map (fun c => c.Chunk)).flatten = data := by
  obtain ⟨s, rfl⟩ := Int.eq_ofNat_of_zero_le hS.le
  have hs : 0 < s := by exact_mod_cast hS
  obtain ⟨h1, h2, -, -⟩ := sliceLoop_spec data s hs fuel 0 (Nat.zero_le _) (by omega)
  exact ⟨h1, by simpa using h2⟩

theorem sliceData_concat_witness :
    (0 : Int) < 4 ∧ ([10, 11, 12, 13, 14, 15, 16, 17, 18, 19] : Bytes).length < 11 ∧
      ((sliceData [10, 11, 12, 13, 14, 15, 16, 17, 18, 19] 4 11).2 = .closed ∧
        ((sliceData [10, 11, 12, 13, 14, 15, 16, 17, 18, 19] 4 11).1.map
          (fun c => c.Chunk)).flatten = [10, 11, 12, 13, 14, 15, 16, 17, 18, 19]) :=
  ⟨by decide, by decide,
    sliceData_concat [10, 11, 12, 13, 14, 15, 16, 17, 18, 19] 4 (by decide) 11 (by decide)⟩

/-- C9, as stated, fails on the empty buffer: with `S = 1` the producer sends one
chunk (the empty terminal chunk) and closes, while `ceil(0 / 1) = 0`. -/
theorem sliceData_count_empty_buffer :
    (sliceData [] 1 1).2 = .closed ∧
      ((sliceData [] 1 1).1.length : Int) ≠
        ⌈((([] : Bytes).length : Int) : ℚ) / ((1 : Int) : ℚ)⌉ := by
  refine ⟨by decide, ?_⟩
  have h : (sliceData [] 1 1).1.length = 1 := by decide
  rw [h]
  simp

/-- C9, amended. For every audio buffer of length `L` and every segment size `S > 0`,
the producer of `sliceData` closes its channel after sending exactly
`max 1 (ceil (L / S))` chunks: `ceil (L / S)` for a non-empty buffer, one for the
empty buffer. -/
theorem sliceData_count (data : Bytes) (S : Int) (hS : 0 < S) (fuel : Nat)
    (hf : data.length < fuel) :
    (sliceData data S fuel).2 = .closed ∧
      ((sliceData data S fuel).1.length : Int) =
        max 1 ⌈((data.length : Int) : ℚ) / (S : ℚ)⌉ := by
  obtain ⟨s, rfl⟩ := Int.eq_ofNat_of_zero_le hS.le
  have hs : 0 < s := by exact_mod_cast hS
  obtain ⟨h1, -, -, ⟨m, h4, h5, h6⟩⟩ :=
    sliceLoop_spec data s hs fuel 0 (Nat.zero_le _) (by omega)
  refine ⟨h1, ?_⟩
  have hlen : (sliceData data (s : Int) fuel).1.length = m + 1 := h4
  rw [hlen]
  have hsq : (0 : ℚ) < (s : ℚ) := by exact_mod_cast hs
  simp only [Nat.sub_zero] at h5 h6
  by_cases hL : data.length = 0
  · have hm : m = 0 := by
      rw [hL] at h6
      have : m * s = 0 := by simpa using h6
      rcases Nat.mul_eq_zero.1 this with h | h
      · exact h
      · omega
    subst hm
    simp [hL]
  · have hmax : max 1 data.length = data.length := by omega
    rw [hmax] at h6
    have hceil : ⌈((data.length : Int) : ℚ) / ((s : Int) : ℚ)⌉ = ((m + 1 : Nat) : Int) := by
      rw [Int.ceil_eq_iff]
      constructor
      · rw [lt_div_iff₀ (by exact_mod_cast hsq)]
        have : ((m * s : Nat) : ℚ) < (data.length : ℚ) := by exact_mod_cast h6
        push_cast at this ⊢
        linarith
      · rw [div_le_iff₀ (by exact_mod_cast hsq)]
        have : ((data.length : Nat) : ℚ) ≤ (((m + 1) * s : Nat) : ℚ) := by exact_mod_cast h5
        push_cast at this ⊢
        linarith
    rw [hceil]
    have : (1 : Int) ≤ ((m + 1 : Nat) : Int) := by omega
    exact (max_eq_right this).symm

theorem sliceData_count_witness :
    (0 : Int) < 4 ∧ ([10, 11, 12, 13, 14, 15, 16, 17, 18, 19] : Bytes).length < 11 ∧
      ((sliceData [10, 11, 12, 13, 14, 15, 16, 17, 18, 19] 4 11).2 = .closed ∧
        ((sliceData [10, 11, 12, 13, 14, 15, 16, 17, 18, 19] 4 11).1.length : Int) =
          max 1 ⌈((([10, 11, 12, 13, 14, 15, 16, 17, 18, 19] : Bytes).length : Int) : ℚ) /
            ((4 : Int) : ℚ)⌉) :=
  ⟨by decide, by decide,
    sliceData_count [10, 11, 12, 13, 14, 15, 16, 17, 18, 19] 4 (by decide) 11 (by decide)⟩

/-- C10. For every audio buffer and every segment size `S > 0`, the producer of
`sliceData` closes its channel after sending at least one chunk: the chunks are
`init ++ [fin]` where `fin` is marked `Last` and has at most `S` bytes and every
chunk of `init` is unmarked and has exactly `S` bytes.  A 10-byte buffer with
`S = 4` gives the lengths 4, 4, 2 with only the 2-byte chunk marked `Last`. -/
theorem sliceData_shape (data : Bytes) (S : Int) (hS : 0 < S) (fuel : Nat)
    (hf : data.length < fuel) :
    ((sliceData data S fuel).2 = .closed ∧
      ∃ init fin, (sliceData data S fuel).1 = init ++ [fin] ∧
        fin.Last = true ∧ (fin.Chunk.length : Int) ≤ S ∧
        ∀ c ∈ init, c.Last = false ∧ (c.Chunk.length : Int) = S) ∧
    (∀ d : Bytes, d.length = 10 →
      (sliceData d 4 11).2 = .closed ∧
      (sliceData d 4 11).1.map (fun c => (c.Chunk.length, c.Last)) =
        [(4, false), (4, false), (2, true)]) := by
  constructor
  · obtain ⟨s, rfl⟩ := Int.eq_ofNat_of_zero_le hS.le
    have hs : 0 < s := by exact_mod_cast hS
    obtain ⟨h1, -, ⟨init, fin, h3, h4, h5, h6⟩, -⟩ :=
      sliceLoop_spec data s hs fuel 0 (Nat.zero_le _) (by omega)
    refine ⟨h1, init, fin, h3, h4, by exact_mod_cast h5, ?_⟩
    intro c hc
    exact ⟨(h6 c hc).1, by exact_mod_cast (h6 c hc).2⟩
  · intro d hd
    have e0 := sliceLoop_interior d 4 0 10 (by omega)
    have e1 := sliceLoop_interior d 4 4 9 (by omega)
    have e2 := sliceLoop_final d 4 8 8 (by omega) (by omega)
    simp only [Nat.zero_add, Nat.cast_zero, Nat.cast_ofNat, Nat.reduceAdd] at e0 e1 e2
    simp only [sliceData]
    rw [e0, e1, e2]
    simp [hd]

theorem sliceData_shape_witness :
    (0 : Int) < 4 ∧ ([10, 11, 12, 13, 14, 15, 16, 17, 18, 19] : Bytes).length < 11 ∧
      (((sliceData [10, 11, 12, 13, 14, 15, 16, 17, 18, 19] 4 11).2 = .closed ∧
        ∃ init fin, (sliceData [10, 11, 12, 13, 14, 15, 16, 17, 18, 19] 4 11).1 = init ++ [fin] ∧
          fin.Last = true ∧ (fin.Chunk.length : Int) ≤ 4 ∧
          ∀ c ∈ init, c.Last = false ∧ (c.Chunk.length : Int) = 4) ∧
      (∀ d : Bytes, d.length = 10 →
        (sliceData d 4 11).2 = .closed ∧
        (sliceData d 4 11).1.map (fun c => (c.Chunk.length, c.Last)) =
          [(4, false), (4, false), (2, true)])) :=
  ⟨by decide, by decide,
    sliceData_shape [10, 11, 12, 13, 14, 15, 16, 17, 18, 19] 4 (by decide) 11 (by decide)⟩

/-! ## Header codec -/

theorem nibble_pack_unpack :
    ∀ a < 16, ∀ b < 16,
      (((a <<< 4) % 256) ||| b) >>> 4 = a ∧ (((a <<< 4) % 256) ||| b) &&& 0x0f = b := by
  decide

/-- C2. Header round trip: for message type, flags, serialization method and
compression type in 0..15 and a reserved byte in 0..255, the nibble extraction of
the parsers applied to the four bytes of `generateHeader` gives protocol version 1,
header word count 1 and the five inputs. -/
theorem decodeHeader_generateHeader (messageType flags serialMethod compressionType
    reservedData : Nat) (hm : messageType < 16) (hf : flags < 16) (hs : serialMethod < 16)
    (hc : compressionType < 16) (hr : reservedData < 256) :
    (generateHeader messageType flags serialMethod compressionType reservedData).length = 4 ∧
    WellFormed (generateHeader messageType flags serialMethod compressionType reservedData) ∧
    decodeHeader (generateHeader messageType flags serialMethod compressionType reservedData) =
      { protoVersion := 1
        headSize := 1
        messageType := messageType
        messageTypeSpecificFlags := flags
        serializationMethod := serialMethod
        messageCompression := compressionType
        reserve := reservedData } := by
  obtain ⟨a1, a2⟩ := nibble_pack_unpack messageType hm flags hf
  obtain ⟨b1, b2⟩ := nibble_pack_unpack serialMethod hs compressionType hc
  refine ⟨rfl, ?_, ?_⟩
  · intro x hx
    simp only [generateHeader, List.mem_cons, List.mem_singleton, List.not_mem_nil,
      or_false] at hx
    rcases hx with rfl | rfl | rfl | rfl
    · decide
    · have : ∀ a < 16, ∀ b < 16, (((a <<< 4) % 256) ||| b) < 256 := by decide
      exact this messageType hm flags hf
    · have : ∀ a < 16, ∀ b < 16, (((a <<< 4) % 256) ||| b) < 256 := by decide
      exact this serialMethod hs compressionType hc
    · exact hr
  · simp only [decodeHeader, generateHeader, List.getD_cons_zero, List.getD_cons_succ, a1, a2,
      b1, b2]
    rfl

theorem decodeHeader_generateHeader_witness :
    (2 : Nat) < 16 ∧ (3 : Nat) < 16 ∧ (1 : Nat) < 16 ∧ (1 : Nat) < 16 ∧ (0 : Nat) < 256 ∧
      ((generateHeader 2 3 1 1 0).length = 4 ∧
      WellFormed (generateHeader 2 3 1 1 0) ∧
      decodeHeader (generateHeader 2 3 1 1 0) =
        { protoVersion := 1
          headSize := 1
          messageType := 2
          messageTypeSpecificFlags := 3
          serializationMethod := 1
          messageCompression := 1
          reserve := 0 }) :=
  ⟨by decide, by decide, by decide, by decide, by decide,
    decodeHeader_generateHeader 2 3 1 1 0 (by decide) (by decide) (by decide) (by decide)
      (by decide)⟩


/-! ## Synthesis response parser -/

/-- C8. For every synthesis frame of message type 0x0B with header-size nibble
`h ≥ 1`: with non-zero flags and at least 8 bytes after the header, `parseResponse`
succeeds, `Audio` is exactly the bytes after the 8-byte sequence/size prefix, and
`IsLast` holds iff the first four payload bytes, read as a big-endian signed 32-bit
integer, are negative; with flags 0 the returned `synResp` has empty `Audio` and
`IsLast = false` (and there is no error when the header fits in the frame). -/
theorem TTSWsClient.parseResponse_audio (gunzip : Bytes → GunzipResult) (res : Bytes)
    (hlen : 4 ≤ res.length) (hh : 1 ≤ (decodeHeader res).headSize)
    (ht : (decodeHeader res).messageType = 0x0b) :
    ((decodeHeader res).messageTypeSpecificFlags ≠ 0 →
      (decodeHeader res).headSize * 4 + 8 ≤ res.length →
      ∃ resp, TTSWsClient.parseResponse gunzip res = some (resp, none) ∧
        resp.Audio = res.drop ((decodeHeader res).headSize * 4 + 8) ∧
        (resp.IsLast = true ↔
          int32 (beUint32 ((res.drop ((decodeHeader res).headSize * 4)).take 4)) < 0)) ∧
    ((decodeHeader res).messageTypeSpecificFlags = 0 →
      ∃ err, TTSWsClient.parseResponse gunzip res = some (⟨[], false⟩, err) ∧
        ((decodeHeader res).headSize * 4 ≤ res.length → err = none)) := by
  have h4 : ¬ res.length < 4 := by omega
  have hx : ¬ ((decodeHeader res).headSize ≠ 1 ∧
      res.length ≥ (decodeHeader res).headSize * 4 ∧ ¬ 4 ≤ (decodeHeader res).headSize * 4) := by
    omega
  constructor
  · intro hf hl
    have h5 : ¬ res.length < (decodeHeader res).headSize * 4 := by omega
    have h6 : ¬ (res.drop ((decodeHeader res).headSize * 4)).length < 8 := by
      simp only [List.length_drop]; omega
    by_cases hneg : int32 (beUint32 ((res.drop ((decodeHeader res).headSize * 4)).take 4)) < 0
    · refine ⟨⟨res.drop ((decodeHeader res).headSize * 4 + 8), true⟩, ?_, rfl, by simp [hneg]⟩
      simp only [TTSWsClient.parseResponse, h4, hx, h5, ht, hf, h6, hneg, if_true, if_false,
        List.nil_append, List.drop_drop]
    · refine ⟨⟨res.drop ((decodeHeader res).headSize * 4 + 8), false⟩, ?_, rfl, by simp [hneg]⟩
      simp only [TTSWsClient.parseResponse, h4, hx, h5, ht, hf, h6, hneg, if_true, if_false,
        List.nil_append, List.drop_drop]
  · intro hf
    by_cases h5 : res.length < (decodeHeader res).headSize * 4
    · refine ⟨some (.invalidHeaderSize ((decodeHeader res).headSize * 4) res.length), ?_,
        fun h => by omega⟩
      simp only [TTSWsClient.parseResponse, h4, hx, h5, if_true, if_false]
    · exact ⟨none, by simp only [TTSWsClient.parseResponse, h4, hx, h5, ht, hf, if_true, if_false],
        fun _ => rfl⟩

theorem TTSWsClient.parseResponse_audio_witness :
    4 ≤ ([0x11, 0xB1, 0x10, 0x00, 0xFF, 0xFF, 0xFF, 0xFE, 0, 0, 0, 2, 7, 8] : Bytes).length ∧
    1 ≤ (decodeHeader [0x11, 0xB1, 0x10, 0x00, 0xFF, 0xFF, 0xFF, 0xFE, 0, 0, 0, 2, 7, 8]).headSize ∧
    (decodeHeader [0x11, 0xB1, 0x10, 0x00, 0xFF, 0xFF, 0xFF, 0xFE, 0, 0, 0, 2, 7, 8]).messageType
      = 0x0b ∧
    TTSWsClient.parseResponse (fun _ => .readerFailed)
      [0x11, 0xB1, 0x10, 0x00, 0xFF, 0xFF, 0xFF, 0xFE, 0, 0, 0, 2, 7, 8]
        = some (⟨[7, 8], true⟩, none) := by
  refine ⟨by decide, by decide, by decide, ?_⟩
  obtain ⟨resp, h1, h2, h3⟩ :=
    (TTSWsClient.parseResponse_audio (fun _ => .readerFailed)
      [0x11, 0xB1, 0x10, 0x00, 0xFF, 0xFF, 0xFF, 0xFE, 0, 0, 0, 2, 7, 8]
      (by decide) (by decide) (by decide)).1 (by decide) (by decide)
  rw [h1]
  have hl : resp.IsLast = true := h3.2 (by decide)
  have ha : resp.Audio = [7, 8] := h2
  cases resp
  simp_all

/-- C5. The synthesis `parseResponse` returns an error, with a `synResp` that has no
audio and `IsLast = false`, for every frame shorter than 4 bytes (the error is then
"response too short") and for every frame with header-size nibble `h ≥ 1` such that:
`4 * h` exceeds the frame length; or the type is 0x0B with non-zero flags and fewer
than 8 bytes follow the header; or the type is 0x0F and fewer than 8 bytes follow the
header; or the type is 0x0C and fewer than 4 bytes follow the header; or the type is
none of 0x0B, 0x0C, 0x0F. -/
theorem TTSWsClient.parseResponse_errors (gunzip : Bytes → GunzipResult) (res : Bytes)
    (h : res.length < 4 ∨
      (1 ≤ (decodeHeader res).headSize ∧
        (res.length < 4 * (decodeHeader res).headSize ∨
          ((decodeHeader res).messageType = 0x0b ∧
            (decodeHeader res).messageTypeSpecificFlags ≠ 0 ∧
            (res.drop (4 * (decodeHeader res).headSize)).length < 8) ∨
          ((decodeHeader res).messageType = 0x0f ∧
            (res.drop (4 * (decodeHeader res).headSize)).length < 8) ∨
          ((decodeHeader res).messageType = 0x0c ∧
            (res.drop (4 * (decodeHeader res).headSize)).length < 4) ∨
          ((decodeHeader res).messageType ≠ 0x0b ∧ (decodeHeader res).messageType ≠ 0x0c ∧
            (decodeHeader res).messageType ≠ 0x0f)))) :
    ∃ e, TTSWsClient.parseResponse gunzip res = some (⟨[], false⟩, some e) ∧
      (res.length < 4 → e = .responseTooShort) := by
  by_cases h4 : res.length < 4
  · exact ⟨.responseTooShort, by simp only [TTSWsClient.parseResponse, h4, if_true],
      fun _ => rfl⟩
  rcases h with h | ⟨hh, h⟩
  · exact absurd h h4
  have hx : ¬ ((decodeHeader res).headSize ≠ 1 ∧
      res.length ≥ (decodeHeader res).headSize * 4 ∧ ¬ 4 ≤ (decodeHeader res).headSize * 4) := by
    omega
  have hcomm : 4 * (decodeHeader res).headSize = (decodeHeader res).headSize * 4 :=
    Nat.mul_comm _ _
  rw [hcomm] at h
  by_cases h5 : res.length < (decodeHeader res).headSize * 4
  · exact ⟨.invalidHeaderSize ((decodeHeader res).headSize * 4) res.length,
      by simp only [TTSWsClient.parseResponse, h4, hx, h5, if_true, if_false],
      fun h => absurd h h4⟩
  rcases h with h | ⟨ht, hf, hp⟩ | ⟨ht, hp⟩ | ⟨ht, hp⟩ | ⟨h1, h2, h3⟩
  · exact absurd h h5
  · exact ⟨.audioTooShort (res.drop ((decodeHeader res).headSize * 4)).length,
      by simp only [TTSWsClient.parseResponse, h4, hx, h5, ht, hf, hp, if_true, if_false],
      fun h => absurd h h4⟩
  · exact ⟨.errorMessageTooShort (res.drop ((decodeHeader res).headSize * 4)).length,
      by simp only [TTSWsClient.parseResponse, h4, hx, h5, ht, hp, if_true, if_false,
        Nat.reduceEqDiff],
      fun h => absurd h h4⟩
  · exact ⟨.frontendTooShort (res.drop ((decodeHeader res).headSize * 4)).length,
      by simp only [TTSWsClient.parseResponse, h4, hx, h5, ht, hp, if_true, if_false,
        Nat.reduceEqDiff],
      fun h => absurd h h4⟩
  · refine ⟨.unknownMessageType (decodeHeader res).messageType, ?_, fun h => absurd h h4⟩
    have hk : (decodeHeader res).messageType ∉ enumMessageTypeKeys := by
      simp [enumMessageTypeKeys, h1, h2, h3]
    simp only [TTSWsClient.parseResponse, h4, hx, h5, h1, h2, h3, hk, if_true, if_false,
      not_false_eq_true]

theorem TTSWsClient.parseResponse_errors_witness :
    (([0x11, 0xB1] : Bytes).length < 4 ∨
      (1 ≤ (decodeHeader [0x11, 0xB1]).headSize ∧
        (([0x11, 0xB1] : Bytes).length < 4 * (decodeHeader [0x11, 0xB1]).headSize ∨
          ((decodeHeader [0x11, 0xB1]).messageType = 0x0b ∧
            (decodeHeader [0x11, 0xB1]).messageTypeSpecificFlags ≠ 0 ∧
            (([0x11, 0xB1] : Bytes).drop (4 * (decodeHeader [0x11, 0xB1]).headSize)).length < 8) ∨
          ((decodeHeader [0x11, 0xB1]).messageType = 0x0f ∧
            (([0x11, 0xB1] : Bytes).drop (4 * (decodeHeader [0x11, 0xB1]).headSize)).length < 8) ∨
          ((decodeHeader [0x11, 0xB1]).messageType = 0x0c ∧
            (([0x11, 0xB1] : Bytes).drop (4 * (decodeHeader [0x11, 0xB1]).headSize)).length < 4) ∨
          ((decodeHeader [0x11, 0xB1]).messageType ≠ 0x0b ∧
            (decodeHeader [0x11, 0xB1]).messageType ≠ 0x0c ∧
            (decodeHeader [0x11, 0xB1]).messageType ≠ 0x0f)))) ∧
    ∃ e, TTSWsClient.parseResponse (fun _ => .readerFailed) [0x11, 0xB1]
        = some (⟨[], false⟩, some e) ∧
      (([0x11, 0xB1] : Bytes).length < 4 → e = .responseTooShort) :=
  ⟨Or.inl (by decide),
    TTSWsClient.parseResponse_errors (fun _ => .readerFailed) [0x11, 0xB1] (Or.inl (by decide))⟩

/-- C6, as stated, fails: on the error frame with code 45000001, the gzip
compression tag and an empty message (type 0x0F, header-size nibble 1, exactly 8
bytes after the header) `parseResponse` returns the "error message decompress
failed" error, whatever the gzip library does; no server error with the raw
(empty) message is produced. -/
theorem TTSWsClient.parseResponse_error_frame_empty_gzip :
    (decodeHeader [0x11, 0xF0, 0x11, 0x00, 0x02, 0xAE, 0xA5, 0x41, 0, 0, 0, 0]).messageType
      = 0x0f ∧
    (decodeHeader [0x11, 0xF0, 0x11, 0x00, 0x02, 0xAE, 0xA5, 0x41, 0, 0, 0, 0]).headSize = 1 ∧
    (decodeHeader [0x11, 0xF0, 0x11, 0x00, 0x02, 0xAE, 0xA5, 0x41, 0, 0, 0, 0]).messageCompression
      = 1 ∧
    (([0x11, 0xF0, 0x11, 0x00, 0x02, 0xAE, 0xA5, 0x41, 0, 0, 0, 0] : Bytes).drop 4).length = 8 ∧
    int32 (beUint32 [0x02, 0xAE, 0xA5, 0x41]) = 45000001 ∧
    (∀ gunzip : Bytes → GunzipResult,
      TTSWsClient.parseResponse gunzip [0x11, 0xF0, 0x11, 0x00, 0x02, 0xAE, 0xA5, 0x41, 0, 0, 0, 0]
        = some (⟨[], false⟩, some (.errorMessageDecompress .emptyInput))) ∧
    ¬ ∃ (gunzip : Bytes → GunzipResult) (code : Int) (msg : Bytes),
      TTSWsClient.parseResponse gunzip [0x11, 0xF0, 0x11, 0x00, 0x02, 0xAE, 0xA5, 0x41, 0, 0, 0, 0]
        = some (⟨[], false⟩, some (.serverError code msg)) := by
  have key : ∀ gunzip : Bytes → GunzipResult,
      TTSWsClient.parseResponse gunzip [0x11, 0xF0, 0x11, 0x00, 0x02, 0xAE, 0xA5, 0x41, 0, 0, 0, 0]
        = some (⟨[], false⟩, some (.errorMessageDecompress .emptyInput)) := by
    intro gunzip
    rfl
  refine ⟨by decide, by decide, by decide, by decide, by decide, key, ?_⟩
  rintro ⟨gunzip, code, msg, h⟩
  rw [key gunzip] at h
  cases h

/-- C6, amended. For every synthesis frame of type 0x0F with header-size nibble
`h ≥ 1` and at least 8 bytes after the header, `parseResponse` fails and returns no
audio.  With `code` the big-endian int32 of the first four payload bytes and `errMsg`
the bytes after the 8th payload byte: when the compression tag is not gzip the error is
the server error `(code, errMsg)`; when it is gzip and `errMsg` decompresses to `out`,
the server error `(code, out)`; when it is gzip and `errMsg` does not decompress, which
includes every empty `errMsg`, the error is "error message decompress failed" and the
raw bytes are not used.  The uncompressed frame with code 45000001 and message
"invalid request" yields the server error `(45000001, "invalid request")`. -/
theorem TTSWsClient.parseResponse_error_frame (gunzip : Bytes → GunzipResult) (res : Bytes)
    (hh : 1 ≤ (decodeHeader res).headSize)
    (hl : (decodeHeader res).headSize * 4 + 8 ≤ res.length)
    (ht : (decodeHeader res).messageType = 0x0f) :
    ((decodeHeader res).messageCompression ≠ 1 →
      TTSWsClient.parseResponse gunzip res = some (⟨[], false⟩, some (.serverError
        (int32 (beUint32 ((res.drop ((decodeHeader res).headSize * 4)).take 4)))
        (res.drop ((decodeHeader res).headSize * 4 + 8))))) ∧
    ((decodeHeader res).messageCompression = 1 → ∀ out,
      gzipDecompress gunzip (res.drop ((decodeHeader res).headSize * 4 + 8)) = .ok out →
      TTSWsClient.parseResponse gunzip res = some (⟨[], false⟩, some (.serverError
        (int32 (beUint32 ((res.drop ((decodeHeader res).headSize * 4)).take 4))) out))) ∧
    ((decodeHeader res).messageCompression = 1 → ∀ e,
      gzipDecompress gunzip (res.drop ((decodeHeader res).headSize * 4 + 8)) = .error e →
      TTSWsClient.parseResponse gunzip res =
        some (⟨[], false⟩, some (.errorMessageDecompress e))) ∧
    (res.drop ((decodeHeader res).headSize * 4 + 8) = [] →
      gzipDecompress gunzip (res.drop ((decodeHeader res).headSize * 4 + 8)) =
        .error .emptyInput) ∧
    TTSWsClient.parseResponse gunzip
      [0x11, 0xF0, 0x10, 0x00, 0x02, 0xAE, 0xA5, 0x41, 0, 0, 0, 15,
        105, 110, 118, 97, 108, 105, 100, 32, 114, 101, 113, 117, 101, 115, 116] =
      some (⟨[], false⟩, some (.serverError 45000001
        [105, 110, 118, 97, 108, 105, 100, 32, 114, 101, 113, 117, 101, 115, 116])) := by
  have h4 : ¬ res.length < 4 := by omega
  have hx : ¬ ((decodeHeader res).headSize ≠ 1 ∧
      res.length ≥ (decodeHeader res).headSize * 4 ∧ ¬ 4 ≤ (decodeHeader res).headSize * 4) := by
    omega
  have h5 : ¬ res.length < (decodeHeader res).headSize * 4 := by omega
  have h6 : ¬ (res.drop ((decodeHeader res).headSize * 4)).length < 8 := by
    simp only [List.length_drop]; omega
  refine ⟨?_, ?_, ?_, ?_, ?_⟩
  · intro hc
    simp only [TTSWsClient.parseResponse, h4, hx, h5, ht, h6, hc, if_true, if_false,
      Nat.reduceEqDiff, List.drop_drop]
  · intro hc out hout
    simp only [TTSWsClient.parseResponse, h4, hx, h5, ht, h6, hc, if_true, if_false,
      Nat.reduceEqDiff, List.drop_drop, hout]
  · intro hc e he
    simp only [TTSWsClient.parseResponse, h4, hx, h5, ht, h6, hc, if_true, if_false,
      Nat.reduceEqDiff, List.drop_drop, he]
  · intro he
    rw [he]
    rfl
  · rfl

theorem TTSWsClient.parseResponse_error_frame_witness :
    1 ≤ (decodeHeader [0x11, 0xF0, 0x11, 0x00, 0x02, 0xAE, 0xA5, 0x41, 0, 0, 0, 0]).headSize ∧
    (decodeHeader [0x11, 0xF0, 0x11, 0x00, 0x02, 0xAE, 0xA5, 0x41, 0, 0, 0, 0]).headSize * 4 + 8
      ≤ ([0x11, 0xF0, 0x11, 0x00, 0x02, 0xAE, 0xA5, 0x41, 0, 0, 0, 0] : Bytes).length ∧
    (decodeHeader [0x11, 0xF0, 0x11, 0x00, 0x02, 0xAE, 0xA5, 0x41, 0, 0, 0, 0]).messageType
      = 0x0f ∧
    TTSWsClient.parseResponse (fun _ => .readerFailed)
      [0x11, 0xF0, 0x11, 0x00, 0x02, 0xAE, 0xA5, 0x41, 0, 0, 0, 0] =
        some (⟨[], false⟩, some (.errorMessageDecompress .emptyInput)) :=
  ⟨by decide, by decide, by decide,
    (TTSWsClient.parseResponse_error_frame (fun _ => .readerFailed)
      [0x11, 0xF0, 0x11, 0x00, 0x02, 0xAE, 0xA5, 0x41, 0, 0, 0, 0]
      (by decide) (by decide) (by decide)).2.2.1 (by decide) .emptyInput rfl⟩

/-! ## Synthesis streaming receive loop -/

theorem TTSWsClient.parseResponse_sequenced (gunzip : Bytes → GunzipResult) (f : Bytes)
    (hh : 1 ≤ (decodeHeader f).headSize) (ht : (decodeHeader f).messageType = 0x0b)
    (hf : (decodeHeader f).messageTypeSpecificFlags ≠ 0)
    (hl : (decodeHeader f).headSize * 4 + 8 ≤ f.length) :
    TTSWsClient.parseResponse gunzip f =
      some (⟨f.drop ((decodeHeader f).headSize * 4 + 8),
        decide (int32 (beUint32 ((f.drop ((decodeHeader f).headSize * 4)).take 4)) < 0)⟩,
        none) := by
  have h4 : ¬ f.length < 4 := by omega
  have hx : ¬ ((decodeHeader f).headSize ≠ 1 ∧
      f.length ≥ (decodeHeader f).headSize * 4 ∧ ¬ 4 ≤ (decodeHeader f).headSize * 4) := by
    omega
  have h5 : ¬ f.length < (decodeHeader f).headSize * 4 := by omega
  have h6 : ¬ (f.drop ((decodeHeader f).headSize * 4)).length < 8 := by
    simp only [List.length_drop]; omega
  by_cases hneg : int32 (beUint32 ((f.drop ((decodeHeader f).headSize * 4)).take 4)) < 0
  · simp only [TTSWsClient.parseResponse, h4, hx, h5, ht, hf, h6, hneg, if_true, if_false,
      List.nil_append, List.drop_drop, decide_True]
  · simp only [TTSWsClient.parseResponse, h4, hx, h5, ht, hf, h6, hneg, if_true, if_false,
      List.nil_append, List.drop_drop, decide_False]

theorem streamLoop_audio_frames (gunzip : Bytes → GunzipResult) (fin : Bytes)
    (rest : List (Option Bytes))
    (hfin : 1 ≤ (decodeHeader fin).headSize ∧ (decodeHeader fin).messageType = 0x0b ∧
      (decodeHeader fin).messageTypeSpecificFlags ≠ 0 ∧
      (decodeHeader fin).headSize * 4 + 8 ≤ fin.length ∧
      int32 (beUint32 ((fin.drop ((decodeHeader fin).headSize * 4)).take 4)) < 0) :
    ∀ (frames : List Bytes) (audio : Bytes),
      (∀ f ∈ frames, 1 ≤ (decodeHeader f).headSize ∧ (decodeHeader f).messageType = 0x0b ∧
        (decodeHeader f).messageTypeSpecificFlags ≠ 0 ∧
        (decodeHeader f).headSize * 4 + 8 ≤ f.length ∧
        0 ≤ int32 (beUint32 ((f.drop ((decodeHeader f).headSize * 4)).take 4))) →
      streamLoop gunzip ((frames ++ [fin]).map some ++ rest) audio =
        some ⟨audio ++ ((frames ++ [fin]).map
            (fun f => f.drop ((decodeHeader f).headSize * 4 + 8))).flatten,
          none, frames.length + 1, rest⟩ := by
  intro frames
  induction frames with
  | nil =>
    intro audio _
    obtain ⟨a, b, c, d, e⟩ := hfin
    simp [streamLoop, TTSWsClient.parseResponse_sequenced gunzip fin a b c d, e]
  | cons f frames ih =>
    intro audio hmid
    obtain ⟨a, b, c, d, e⟩ := hmid f (List.mem_cons_self _ _)
    have hn : ¬ int32 (beUint32 ((f.drop ((decodeHeader f).headSize * 4)).take 4)) < 0 := by
      omega
    have ih' := ih (audio ++ f.drop ((decodeHeader f).headSize * 4 + 8))
      (fun g hg => hmid g (List.mem_cons_of_mem _ hg))
    have hstep : streamLoop gunzip (some f :: ((frames ++ [fin]).map some ++ rest)) audio =
        (streamLoop gunzip ((frames ++ [fin]).map some ++ rest)
          (audio ++ f.drop ((decodeHeader f).headSize * 4 + 8))).map
            fun r => { r with receives := r.receives + 1 } := by
      rw [streamLoop, TTSWsClient.parseResponse_sequenced gunzip f a b c d]
      simp only [hn, decide_False, Bool.false_eq_true, if_false]
    simp only [List.cons_append, List.map_cons]
    rw [hstep, ih']
    simp only [Option.map_some', List.flatten_cons, List.append_assoc, List.length_cons]

/-- C7. Synthesis last-detection: when the inbound messages are `f1 .. fn` (`n ≥ 1`)
followed by anything, where `f1 .. f(n-1)` are audio-only responses (type 0x0B,
header-size nibble at least 1, non-zero flags, at least 8 payload bytes) with a
non-negative embedded sequence and `fn` is such a response with a negative embedded
sequence, the receive loop of `StreamSynth` makes exactly `n` receives, stops at `fn`
without error and without panic, leaves the messages after `fn` unread, and the
accumulated audio is the concatenation, in arrival order, of the audio payloads
(the bytes after the 8-byte prefix) of `f1 .. fn`. -/
theorem streamLoop_last_detection (gunzip : Bytes → GunzipResult) (frames : List Bytes)
    (fin : Bytes) (rest : List (Option Bytes))
    (hmid : ∀ f ∈ frames, 1 ≤ (decodeHeader f).headSize ∧ (decodeHeader f).messageType = 0x0b ∧
      (decodeHeader f).messageTypeSpecificFlags ≠ 0 ∧
      (decodeHeader f).headSize * 4 + 8 ≤ f.length ∧
      0 ≤ int32 (beUint32 ((f.drop ((decodeHeader f).headSize * 4)).take 4)))
    (hfin : 1 ≤ (decodeHeader fin).headSize ∧ (decodeHeader fin).messageType = 0x0b ∧
      (decodeHeader fin).messageTypeSpecificFlags ≠ 0 ∧
      (decodeHeader fin).headSize * 4 + 8 ≤ fin.length ∧
      int32 (beUint32 ((fin.drop ((decodeHeader fin).headSize * 4)).take 4)) < 0) :
    streamLoop gunzip ((frames ++ [fin]).map some ++ rest) [] =
      some { audio := ((frames ++ [fin]).map
               (fun f => f.drop ((decodeHeader f).headSize * 4 + 8))).flatten
             lastErr := none
             receives := (frames ++ [fin]).length
             unread := rest } := by
  rw [streamLoop_audio_frames gunzip fin rest hfin frames [] hmid]
  simp

theorem streamLoop_last_detection_witness :
    streamLoop (fun _ => .readerFailed)
      (([[0x11, 0xB1, 0x10, 0x00, 0, 0, 0, 1, 0, 0, 0, 2, 7, 8]] ++
          [[0x11, 0xB3, 0x10, 0x00, 0xFF, 0xFF, 0xFF, 0xFE, 0, 0, 0, 1, 9]]).map some ++
        [some [0x11, 0xB1, 0x10, 0x00, 0, 0, 0, 3, 0, 0, 0, 1, 5]]) [] =
      some { audio := [7, 8, 9]
             lastErr := none
             receives := 2
             unread := [some [0x11, 0xB1, 0x10, 0x00, 0, 0, 0, 3, 0, 0, 0, 1, 5]] } :=
  (streamLoop_last_detection (fun _ => .readerFailed)
    [[0x11, 0xB1, 0x10, 0x00, 0, 0, 0, 1, 0, 0, 0, 2, 7, 8]]
    [0x11, 0xB3, 0x10, 0x00, 0xFF, 0xFF, 0xFF, 0xFE, 0, 0, 0, 1, 9]
    [some [0x11, 0xB1, 0x10, 0x00, 0, 0, 0, 3, 0, 0, 0, 1, 5]]
    (by decide) (by decide)).trans (by decide)


/-! ## Recognition response parser -/

/-- C4 fails on the code: `parseResponse` of `audio_asr.go` stops with a slice
bounds panic instead of returning a `Response`, whatever the libraries do and whatever
the capacity of the buffer, on the 4-byte frame `1F 00 00 00` (header-size nibble 15:
`res[60:]` on 4 bytes) and on the 4-byte frame `11 91 10 00` (a full server response
announcing a sequence field, with nothing after the header: `payload[4:]` on 0 bytes). -/
theorem parseResponse_panics :
    (∀ (J : Type) (gunzip : Bytes → GunzipResult) (unmarshal : Bytes → Option J)
        (spare : Bytes),
      parseResponse gunzip unmarshal ⟨[0x1F, 0x00, 0x00, 0x00], spare⟩ = none) ∧
    (∀ (J : Type) (gunzip : Bytes → GunzipResult) (unmarshal : Bytes → Option J)
        (spare : Bytes),
      parseResponse gunzip unmarshal ⟨[0x11, 0x91, 0x10, 0x00], spare⟩ = none) := by
  constructor
  · intro J gunzip unmarshal spare
    have hd : decodeHeader [0x1F, 0x00, 0x00, 0x00] = ⟨1, 15, 0, 0, 0, 0, 0⟩ := by decide
    simp [parseResponse, hd, GoSlice.sliceFrom]
  · intro J gunzip unmarshal spare
    have hd : decodeHeader [0x11, 0x91, 0x10, 0x00] = ⟨1, 1, 9, 1, 1, 0, 0⟩ := by decide
    simp only [parseResponse, hd]
    by_cases h : 4 ≤ spare.length
    · simp [GoSlice.sliceFrom, GoSlice.firstFour, h]
    · simp [GoSlice.sliceFrom, GoSlice.firstFour, h]

/-! ## Recognition session -/

theorem audioOnlyRequest_sequence_field (gzip : Bytes → Bytes) (c : AudioChunk) (v : Int) :
    ((audioOnlyRequest gzip c v).drop 4).take 4 = generateBeforePayload v := by
  cases hc : c.Last <;>
    simp [audioOnlyRequest, assembleFrame, generateHeader, generateBeforePayload, putUint32, hc]

theorem fullClientRequest_sequence_field (gzip : Bytes → Bytes) (marshal : Request → Bytes)
    (config : AsrConfig) (v : Int) :
    ((fullClientRequest gzip marshal config v).drop 4).take 4 = generateBeforePayload v := by
  simp [fullClientRequest, assembleFrame, generateHeader, generateBeforePayload, putUint32]

theorem chunkSend_interior (gzip : Bytes → Bytes) (data : Bytes) (s o : Nat) (q : Int)
    (writes : List Bool) (h : o + s < data.length) :
    chunkSend gzip data (s : Int) writes (o : Int) q =
      match writes with
      | [] => .sendFailed
      | false :: _ => .sendFailed
      | true :: ws =>
        .sent ⟨(data.drop o).take s, false⟩ ((o + s : Nat) : Int) (q + 1)
          (audioOnlyRequest gzip ⟨(data.drop o).take s, false⟩ (q + 1)) ws := by
  simp only [chunkSend, sliceStep_interior data s o h]
  rcases writes with _ | ⟨b, ws⟩
  · rfl
  · cases b <;> simp

theorem chunkSend_final (gzip : Bytes → Bytes) (data : Bytes) (s o : Nat) (q : Int)
    (writes : List Bool) (ho : o ≤ data.length) (h : ¬ o + s < data.length) :
    chunkSend gzip data (s : Int) writes (o : Int) q =
      match writes with
      | [] => .sendFailed
      | false :: _ => .sendFailed
      | true :: ws =>
        .sent ⟨data.drop o, true⟩ (o : Int) (-(q + 1))
          (audioOnlyRequest gzip ⟨data.drop o, true⟩ (-(q + 1))) ws := by
  simp only [chunkSend, sliceStep_final data s o ho h]
  rcases writes with _ | ⟨b, ws⟩
  · rfl
  · cases b <;> simp

theorem chunkLoop_sends {J : Type} (gzip : Bytes → Bytes) (gunzip : Bytes → GunzipResult)
    (unmarshal : Bytes → Option J) (data : Bytes) (s : Nat) (hs : 0 < s) :
    ∀ (fuel o : Nat) (q : Int) (reads : List (Option GoSlice)) (writes : List Bool),
      o ≤ data.length → data.length - o < fuel →
      (∀ i f, (chunkLoop gzip gunzip unmarshal data (s : Int) reads writes (o : Int) q).sends[i]?
          = some f →
        ∃ c, (sliceLoop data (s : Int) fuel (o : Int)).1[i]? = some c ∧
          f = audioOnlyRequest gzip c
            (if i + 1 < (sliceLoop data (s : Int) fuel (o : Int)).1.length
              then q + 1 + (i : Int) else -(q + 1 + (i : Int)))) ∧
      (∀ r, (chunkLoop gzip gunzip unmarshal data (s : Int) reads writes (o : Int) q).outcome
          = .returned r →
        (chunkLoop gzip gunzip unmarshal data (s : Int) reads writes (o : Int) q).sends.length
          = (sliceLoop data (s : Int) fuel (o : Int)).1.length) := by
  intro fuel
  induction fuel with
  | zero => intro o _ _ _ _ h; omega
  | succ fuel ih =>
    intro o q reads writes ho hf
    by_cases h : o + s < data.length
    · obtain ⟨-, -, -, ⟨m, hm, -, -⟩⟩ := sliceLoop_spec data s hs fuel (o + s) (by omega) (by omega)
      rw [sliceLoop_interior data s o fuel h]
      have single : ∀ i f,
          ([audioOnlyRequest gzip ⟨(data.drop o).take s, false⟩ (q + 1)] : List Bytes)[i]? = some f →
          ∃ c, ((⟨(data.drop o).take s, false⟩ : AudioChunk) ::
              (sliceLoop data (s : Int) fuel ((o + s : Nat) : Int)).1)[i]? = some c ∧
            f = audioOnlyRequest gzip c
              (if i + 1 < ((⟨(data.drop o).take s, false⟩ : AudioChunk) ::
                  (sliceLoop data (s : Int) fuel ((o + s : Nat) : Int)).1).length
                then q + 1 + (i : Int) else -(q + 1 + (i : Int))) := by
        intro i f hi
        cases i with
        | zero =>
          simp only [List.getElem?_cons_zero, Option.some.injEq] at hi
          refine ⟨⟨(data.drop o).take s, false⟩, List.getElem?_cons_zero, ?_⟩
          have hlt : 0 + 1 < ((⟨(data.drop o).take s, false⟩ : AudioChunk) ::
              (sliceLoop data (s : Int) fuel ((o + s : Nat) : Int)).1).length := by
            simp only [List.length_cons, hm]; omega
          rw [if_pos hlt, ← hi, Nat.cast_zero, add_zero]
        | succ j => simp at hi
      rcases reads with _ | ⟨rd, reads⟩
      · rw [chunkLoop, chunkSend_interior gzip data s o q writes h]
        rcases writes with _ | ⟨b, ws⟩
        · simp [Session.sends]
        · cases b
          · simp [Session.sends]
          · refine ⟨?_, by simp⟩
            simpa [Session.sends] using single
      · rw [chunkLoop, chunkSend_interior gzip data s o q writes h]
        rcases writes with _ | ⟨b, ws⟩
        · simp [Session.sends]
        · cases b
          · simp [Session.sends]
          · cases rd with
            | none =>
              refine ⟨?_, by simp⟩
              simpa [Session.sends] using single
            | some res =>
              dsimp only
              cases hp : parseResponse gunzip unmarshal res with
              | none =>
                refine ⟨?_, by simp⟩
                simpa [Session.sends] using single
              | some result =>
                obtain ⟨ih1, ih2⟩ := ih (o + s) (q + 1) reads ws (by omega) (by omega)
                simp only [Bool.false_eq_true, if_false]
                constructor
                · intro i f hi
                  cases i with
                  | zero => exact single 0 f (by simpa [Session.sends] using hi)
                  | succ j =>
                    have hj : (chunkLoop gzip gunzip unmarshal data (s : Int) reads ws
                        ((o + s : Nat) : Int) (q + 1)).sends[j]? = some f := by
                      simpa [Session.sends] using hi
                    obtain ⟨c, hc1, hc2⟩ := ih1 j f hj
                    refine ⟨c, by simpa using hc1, ?_⟩
                    rw [hc2]
                    congr 1
                    by_cases hlt : j + 1 < (sliceLoop data (s : Int) fuel ((o + s : Nat) : Int)).1.length
                    · rw [if_pos hlt, if_pos (by simp only [List.length_cons]; omega)]
                      push_cast; ring
                    · rw [if_neg hlt, if_neg (by simp only [List.length_cons]; omega)]
                      push_cast; ring
                · intro r hr
                  have := ih2 r hr
                  simpa [Session.sends] using this
    · rw [sliceLoop_final data s o fuel ho h]
      have single : ∀ i f,
          ([audioOnlyRequest gzip ⟨data.drop o, true⟩ (-(q + 1))] : List Bytes)[i]? = some f →
          ∃ c, ([(⟨data.drop o, true⟩ : AudioChunk)])[i]? = some c ∧
            f = audioOnlyRequest gzip c
              (if i + 1 < ([(⟨data.drop o, true⟩ : AudioChunk)]).length
                then q + 1 + (i : Int) else -(q + 1 + (i : Int))) := by
        intro i f hi
        cases i with
        | zero =>
          simp only [List.getElem?_cons_zero, Option.some.injEq] at hi
          refine ⟨⟨data.drop o, true⟩, List.getElem?_cons_zero, ?_⟩
          simp [← hi]
        | succ j => simp at hi
      rcases reads with _ | ⟨rd, reads⟩
      · rw [chunkLoop, chunkSend_final gzip data s o q writes ho h]
        rcases writes with _ | ⟨b, ws⟩
        · simp [Session.sends]
        · cases b
          · simp [Session.sends]
          · refine ⟨?_, by simp⟩
            simpa [Session.sends] using single
      · rw [chunkLoop, chunkSend_final gzip data s o q writes ho h]
        rcases writes with _ | ⟨b, ws⟩
        · simp [Session.sends]
        · cases b
          · simp [Session.sends]
          · cases rd with
            | none =>
              refine ⟨?_, by simp⟩
              simpa [Session.sends] using single
            | some res =>
              dsimp only
              cases hp : parseResponse gunzip unmarshal res with
              | none =>
                refine ⟨?_, by simp⟩
                simpa [Session.sends] using single
              | some result =>
                refine ⟨?_, by simp [Session.sends]⟩
                simpa [Session.sends] using single

/-- C3. In a recognition session (`processData` with segment size `S > 0`, against
any peer) whose audio is segmented into the `N ≥ 1` chunks of `sliceData`: the first
frame written is the configuration frame, carrying sequence 1; for `k ≥ 1` the frame
written at position `k` is the audio-chunk frame of the `k`-th chunk (so `k ≤ N`) and
its sequence field is `generateBeforePayload` of the counter value `k + 1` when
`k < N` and of `-(N + 1)` when `k = N`; and a session that returns a response has
written all `N + 1` frames. -/
theorem processData_sequence_counter {J : Type} (gzip : Bytes → Bytes)
    (marshal : Request → Bytes) (gunzip : Bytes → GunzipResult) (unmarshal : Bytes → Option J)
    (config : AsrConfig) (peer : Peer) (data : Bytes) (segmentSize : Int)
    (hS : 0 < segmentSize) :
    ∃ chunks, sliceData data segmentSize (data.length + 1) = (chunks, .closed) ∧
      1 ≤ chunks.length ∧
      (∀ f, (processData gzip marshal gunzip unmarshal config peer data segmentSize).sends[0]?
          = some f →
        f = fullClientRequest gzip marshal config 1 ∧
          (f.drop 4).take 4 = generateBeforePayload 1) ∧
      (∀ k f, 1 ≤ k →
        (processData gzip marshal gunzip unmarshal config peer data segmentSize).sends[k]?
          = some f →
        k ≤ chunks.length ∧ ∃ c, chunks[k - 1]? = some c ∧
          f = audioOnlyRequest gzip c
            (if k < chunks.length then (k : Int) + 1 else -((chunks.length : Int) + 1)) ∧
          (f.drop 4).take 4 = generateBeforePayload
            (if k < chunks.length then (k : Int) + 1 else -((chunks.length : Int) + 1))) ∧
      (∀ r, (processData gzip marshal gunzip unmarshal config peer data segmentSize).outcome
          = .returned r →
        (processData gzip marshal gunzip unmarshal config peer data segmentSize).sends.length
          = chunks.length + 1) := by
  obtain ⟨s, rfl⟩ := Int.eq_ofNat_of_zero_le hS.le
  have hs : 0 < s := by exact_mod_cast hS
  obtain ⟨hclosed, -, -, ⟨m, hm, -, -⟩⟩ :=
    sliceLoop_spec data s hs (data.length + 1) 0 (Nat.zero_le _) (by omega)
  refine ⟨(sliceLoop data (s : Int) (data.length + 1) ((0 : Nat) : Int)).1, ?_, by omega, ?_⟩
  · show sliceLoop data (s : Int) (data.length + 1) 0 = _
    rw [← hclosed]
    rfl
  have hcfg : ∀ f, fullClientRequest gzip marshal config 1 = f →
      f = fullClientRequest gzip marshal config 1 ∧
        (f.drop 4).take 4 = generateBeforePayload 1 := by
    intro f hf
    subst hf
    exact ⟨rfl, fullClientRequest_sequence_field gzip marshal config 1⟩
  simp only [processData]
  cases peer.dial with
  | false => simp [Session.sends]
  | true =>
    rcases peer.writes with _ | ⟨b, ws⟩
    · simp [Session.sends]
    cases b with
    | false => simp [Session.sends]
    | true =>
      rcases peer.reads with _ | ⟨rd, reads⟩
      · refine ⟨?_, ?_, by simp⟩
        · intro f hf; exact hcfg f (by simpa [Session.sends] using hf)
        · intro k f hk hf
          obtain ⟨j, rfl⟩ : ∃ j, k = j + 1 := ⟨k - 1, by omega⟩
          simp [Session.sends] at hf
      cases rd with
      | none =>
        refine ⟨?_, ?_, by simp⟩
        · intro f hf; exact hcfg f (by simpa [Session.sends] using hf)
        · intro k f hk hf
          obtain ⟨j, rfl⟩ : ∃ j, k = j + 1 := ⟨k - 1, by omega⟩
          simp [Session.sends] at hf
      | some res =>
        dsimp only
        cases hp : parseResponse gunzip unmarshal res with
        | none =>
          refine ⟨?_, ?_, by simp⟩
          · intro f hf; exact hcfg f (by simpa [Session.sends] using hf)
          · intro k f hk hf
            obtain ⟨j, rfl⟩ : ∃ j, k = j + 1 := ⟨k - 1, by omega⟩
            simp [Session.sends] at hf
        | some result =>
          obtain ⟨l1, l2⟩ := chunkLoop_sends gzip gunzip unmarshal data s hs (data.length + 1) 0 1
            reads ws (Nat.zero_le _) (by omega)
          refine ⟨?_, ?_, ?_⟩
          · intro f hf; exact hcfg f (by simpa [Session.sends] using hf)
          · intro k f hk hf
            obtain ⟨j, rfl⟩ : ∃ j, k = j + 1 := ⟨k - 1, by omega⟩
            have hj : (chunkLoop gzip gunzip unmarshal data (s : Int) reads ws ((0 : Nat) : Int)
                1).sends[j]? = some f := by
              simpa [Session.sends] using hf
            obtain ⟨c, hc1, hc2⟩ := l1 j f hj
            have hjlt : j < (sliceLoop data (s : Int) (data.length + 1) ((0 : Nat) : Int)).1.length := by
              by_contra hge
              rw [List.getElem?_eq_none (by omega)] at hc1
              cases hc1
            have hval : (if j + 1 < (sliceLoop data (s : Int) (data.length + 1)
                  ((0 : Nat) : Int)).1.length then (1 : Int) + 1 + (j : Int)
                else -((1 : Int) + 1 + (j : Int))) =
                (if j + 1 < (sliceLoop data (s : Int) (data.length + 1) ((0 : Nat) : Int)).1.length
                  then (((j + 1 : Nat) : Int)) + 1
                  else -(((sliceLoop data (s : Int) (data.length + 1)
                    ((0 : Nat) : Int)).1.length : Int) + 1)) := by
              by_cases hlt : j + 1 < (sliceLoop data (s : Int) (data.length + 1)
                  ((0 : Nat) : Int)).1.length
              · rw [if_pos hlt, if_pos hlt]; push_cast; ring
              · rw [if_neg hlt, if_neg hlt]
                have : (sliceLoop data (s : Int) (data.length + 1) ((0 : Nat) : Int)).1.length
                    = j + 1 := by omega
                rw [this]; push_cast; ring
            rw [hval] at hc2
            refine ⟨by omega, c, by simpa using hc1, hc2, ?_⟩
            rw [hc2]
            exact audioOnlyRequest_sequence_field gzip c _
          · intro r hr
            have := l2 r (by simpa using hr)
            simpa [Session.sends] using this

theorem processData_sequence_counter_witness :
    ((0 : Int) < 4 ∧
      ∃ chunks, sliceData sampleAudio 4 (sampleAudio.length + 1) = (chunks, .closed) ∧
        1 ≤ chunks.length ∧
        (∀ f, (processData id (fun _ => [123, 125]) (fun _ => .readerFailed)
            (fun _ => (none : Option Unit)) testConfig samplePeer sampleAudio 4).sends[0]?
              = some f →
          f = fullClientRequest id (fun _ => [123, 125]) testConfig 1 ∧
            (f.drop 4).take 4 = generateBeforePayload 1) ∧
        (∀ k f, 1 ≤ k →
          (processData id (fun _ => [123, 125]) (fun _ => .readerFailed)
            (fun _ => (none : Option Unit)) testConfig samplePeer sampleAudio 4).sends[k]?
              = some f →
          k ≤ chunks.length ∧ ∃ c, chunks[k - 1]? = some c ∧
            f = audioOnlyRequest id c
              (if k < chunks.length then (k : Int) + 1 else -((chunks.length : Int) + 1)) ∧
            (f.drop 4).take 4 = generateBeforePayload
              (if k < chunks.length then (k : Int) + 1 else -((chunks.length : Int) + 1))) ∧
        (∀ r, (processData id (fun _ => [123, 125]) (fun _ => .readerFailed)
            (fun _ => (none : Option Unit)) testConfig samplePeer sampleAudio 4).outcome
              = .returned r →
          (processData id (fun _ => [123, 125]) (fun _ => .readerFailed)
            (fun _ => (none : Option Unit)) testConfig samplePeer sampleAudio 4).sends.length
              = chunks.length + 1)) ∧
    ((processData id (fun _ => [123, 125]) (fun _ => .readerFailed)
        (fun _ => (none : Option Unit)) testConfig samplePeer sampleAudio 4).sends.map
          (fun f => int32 (beUint32 ((f.drop 4).take 4)))) = [1, 2, 3, -4] :=
  ⟨⟨by decide,
      processData_sequence_counter id (fun _ => [123, 125]) (fun _ => .readerFailed)
        (fun _ => (none : Option Unit)) testConfig samplePeer sampleAudio 4 (by decide)⟩,
    by decide⟩


/-! ## Segmenter: exact multiples and termination -/

theorem flatten_length_of_uniform (s : Nat) :
    ∀ init : List AudioChunk, (∀ c ∈ init, c.Last = false ∧ c.Chunk.length = s) →
      ((init.map (fun c => c.Chunk)).flatten).length = init.length * s := by
  intro init
  induction init with
  | nil => intro _; simp
  | cons c t ih =>
    intro h
    have hc := (h c (List.mem_cons_self _ _)).2
    have ht := ih (fun d hd => h d (List.mem_cons_of_mem _ hd))
    simp only [List.map_cons, List.flatten_cons, List.length_append, List.length_cons, hc, ht]
    rw [Nat.succ_mul]
    omega

/-- C11, as stated, fails: the 8-byte buffer is an exact multiple of the segment
size 4, and the final chunk `sliceData` sends is the full 4-byte chunk `5 6 7 8`
marked `Last`; two chunks are sent and no empty chunk follows them. -/
theorem sliceData_exact_multiple_full_final :
    ([1, 2, 3, 4, 5, 6, 7, 8] : Bytes).length = 2 * 4 ∧
    sliceData [1, 2, 3, 4, 5, 6, 7, 8] 4 9 =
      ([⟨[1, 2, 3, 4], false⟩, ⟨[5, 6, 7, 8], true⟩], .closed) ∧
    ¬ ∃ c, (sliceData [1, 2, 3, 4, 5, 6, 7, 8] 4 9).1.getLast? = some c ∧
      c.Chunk.length = 0 := by
  refine ⟨by decide, by decide, ?_⟩
  rintro ⟨c, h1, h2⟩
  have e : (sliceData [1, 2, 3, 4, 5, 6, 7, 8] 4 9).1.getLast?
      = some ⟨[5, 6, 7, 8], true⟩ := by decide
  rw [e] at h1
  cases h1
  simp at h2

/-- C11, amended. For every segment size `S > 0` and every audio buffer whose length
is `n * S`: the final chunk of `sliceData` is marked `Last`; for a non-empty buffer it
is a full chunk of exactly `S` bytes, preceded by `n - 1` unmarked chunks of `S`
bytes, so that `n` chunks are sent and none is empty; only for the empty buffer is
the final (and only) chunk zero-length. -/
theorem sliceData_exact_multiple (data : Bytes) (S : Int) (hS : 0 < S) (n : Nat)
    (hn : (data.length : Int) = n * S) (fuel : Nat) (hf : data.length < fuel) :
    (sliceData data S fuel).2 = .closed ∧
    ∃ init fin, (sliceData data S fuel).1 = init ++ [fin] ∧ fin.Last = true ∧
      (∀ c ∈ init, c.Last = false ∧ (c.Chunk.length : Int) = S) ∧
      (data.length = 0 → init = [] ∧ fin.Chunk = []) ∧
      (0 < data.length → init.length = n - 1 ∧ (fin.Chunk.length : Int) = S) := by
  obtain ⟨s, rfl⟩ := Int.eq_ofNat_of_zero_le hS.le
  have hs : 0 < s := by exact_mod_cast hS
  have hn' : data.length = n * s := by exact_mod_cast hn
  obtain ⟨h1, h2, ⟨init, fin, h3, h4, h5, h6⟩, ⟨m, h7, h8, h9⟩⟩ :=
    sliceLoop_spec data s hs fuel 0 (Nat.zero_le _) (by omega)
  have h3' : (sliceData data (s : Int) fuel).1 = init ++ [fin] := h3
  have hlen : init.length = m := by
    have := congrArg List.length h3
    rw [h7] at this
    simp only [List.length_append, List.length_singleton] at this
    omega
  have htot : init.length * s + fin.Chunk.length = data.length := by
    have := congrArg List.length h2
    rw [h3] at this
    simp only [List.map_append, List.flatten_append, List.length_append, List.map_cons,
      List.map_nil, List.flatten_cons, List.flatten_nil, List.append_nil, List.drop_zero] at this
    rw [flatten_length_of_uniform s init h6] at this
    exact this
  simp only [Nat.sub_zero] at h8 h9
  refine ⟨h1, init, fin, h3', h4, ?_, ?_, ?_⟩
  · intro c hc
    exact ⟨(h6 c hc).1, by exact_mod_cast (h6 c hc).2⟩
  · intro h0
    rw [h0] at htot
    have hm0 : init.length * s = 0 := by omega
    have hf0 : fin.Chunk.length = 0 := by omega
    rcases Nat.mul_eq_zero.1 hm0 with h | h
    · exact ⟨List.length_eq_zero.1 h, List.length_eq_zero.1 hf0⟩
    · omega
  · intro hpos
    have hmax : max 1 data.length = data.length := by omega
    rw [hmax, hn'] at h9
    rw [hn'] at h8
    have hlt : m < n := Nat.lt_of_mul_lt_mul_right h9
    have hle : n ≤ m + 1 := Nat.le_of_mul_le_mul_right h8 hs
    have hnm : n = m + 1 := by omega
    refine ⟨by omega, ?_⟩
    rw [hlen, hn', hnm, Nat.succ_mul] at htot
    have : fin.Chunk.length = s := by omega
    exact_mod_cast this

theorem sliceData_exact_multiple_witness :
    (0 : Int) < 4 ∧ ((([1, 2, 3, 4, 5, 6, 7, 8] : Bytes).length : Int) = (2 : Nat) * 4) ∧
    ([1, 2, 3, 4, 5, 6, 7, 8] : Bytes).length < 9 ∧
    ((sliceData [1, 2, 3, 4, 5, 6, 7, 8] 4 9).2 = .closed ∧
      ∃ init fin, (sliceData [1, 2, 3, 4, 5, 6, 7, 8] 4 9).1 = init ++ [fin] ∧
        fin.Last = true ∧
        (∀ c ∈ init, c.Last = false ∧ (c.Chunk.length : Int) = 4) ∧
        (([1, 2, 3, 4, 5, 6, 7, 8] : Bytes).length = 0 → init = [] ∧ fin.Chunk = []) ∧
        (0 < ([1, 2, 3, 4, 5, 6, 7, 8] : Bytes).length →
          init.length = 2 - 1 ∧ (fin.Chunk.length : Int) = 4)) :=
  ⟨by decide, by decide, by decide,
    sliceData_exact_multiple [1, 2, 3, 4, 5, 6, 7, 8] 4 (by decide) 2 (by decide) 9
      (by decide)⟩

theorem sliceLoop_zero_size (data : Bytes) (hd : data ≠ []) :
    ∀ fuel : Nat, sliceLoop data 0 fuel 0 = (List.replicate fuel ⟨[], false⟩, .running) := by
  have hpos : (0 : Int) < (data.length : Int) := by
    have : 0 < data.length := List.length_pos.2 hd
    exact_mod_cast this
  have hstep : sliceStep data 0 0 = some (⟨[], false⟩, 0) := by
    simp [sliceStep, subslice, hpos]
  intro fuel
  induction fuel with
  | zero => rfl
  | succ fuel ih =>
    rw [sliceLoop, hstep]
    simp only [Bool.false_eq_true, if_false, ih, List.replicate_succ]

theorem sliceLoop_negative_size (data : Bytes) (S : Int) (hS : S < 0) (fuel : Nat) :
    sliceLoop data S (fuel + 1) 0 = ([], .fault) := by
  have h1 : (0 : Int) + S < (data.length : Int) := by
    have : (0 : Int) ≤ (data.length : Int) := Int.ofNat_nonneg _
    omega
  have h2 : ¬ ((0 : Int) ≤ 0 ∧ (0 : Int) ≤ 0 + S ∧ (0 : Int) + S ≤ (data.length : Int)) := by
    omega
  have hstep : sliceStep data S 0 = none := by
    simp only [sliceStep, h1, if_true, subslice, h2, if_false, Option.map_none']
  rw [sliceLoop, hstep]

/-- C12, as stated, fails: with the test configuration switched to mp3 (so that
`Mp3SegSize` has its zero value) the derived segment size is 0, and on the one-byte
buffer the producer of `sliceData` sends an empty unmarked chunk at every step: after
any number of sends it is still running and has not closed the channel. -/
theorem sliceData_zero_segment_never_closes :
    segmentSize mp3TestConfig = some 0 ∧
    (∀ fuel : Nat, sliceData [1] 0 fuel = (List.replicate fuel ⟨[], false⟩, .running)) ∧
    ¬ ∃ fuel : Nat, (sliceData [1] 0 fuel).2 = .closed := by
  have key : ∀ fuel : Nat,
      sliceData [1] 0 fuel = (List.replicate fuel ⟨[], false⟩, .running) :=
    fun fuel => sliceLoop_zero_size [1] (by simp) fuel
  refine ⟨by decide, key, ?_⟩
  rintro ⟨fuel, h⟩
  rw [key fuel] at h
  cases h

/-- C12, amended. Let `S` be the segment size `RecognizeStream` derives for a
supported format.  When `S > 0` the chunk sequence of `sliceData` is finite for every
buffer: the producer closes the channel after at most `len(data) + 1` chunks.  When
`S = 0` it closes after one chunk on the empty buffer, and on a non-empty buffer it
never terminates (it sends empty chunks forever).  When `S < 0` it stops with a slice
bounds panic before sending any chunk. -/
theorem sliceData_termination (config : AsrConfig) (data : Bytes) (S : Int)
    (hseg : segmentSize config = some S) :
    (0 < S → ∀ fuel, data.length < fuel →
      (sliceData data S fuel).2 = .closed ∧
        (sliceData data S fuel).1.length ≤ data.length + 1) ∧
    (S = 0 → data = [] → ∀ fuel, sliceData data S (fuel + 1) = ([⟨[], true⟩], .closed)) ∧
    (S = 0 → data ≠ [] → ∀ fuel,
      sliceData data S fuel = (List.replicate fuel ⟨[], false⟩, .running)) ∧
    (S < 0 → ∀ fuel, sliceData data S (fuel + 1) = ([], .fault)) := by
  refine ⟨?_, ?_, ?_, ?_⟩
  · intro hS fuel hf
    obtain ⟨s, rfl⟩ := Int.eq_ofNat_of_zero_le hS.le
    have hs : 0 < s := by exact_mod_cast hS
    obtain ⟨h1, -, -, ⟨m, h7, -, h9⟩⟩ :=
      sliceLoop_spec data s hs fuel 0 (Nat.zero_le _) (by omega)
    refine ⟨h1, ?_⟩
    have hlen : (sliceData data (s : Int) fuel).1.length = m + 1 := h7
    rw [hlen]
    simp only [Nat.sub_zero] at h9
    have hm : m ≤ m * s := Nat.le_mul_of_pos_right m hs
    have : max 1 data.length ≤ data.length + 1 := by omega
    omega
  · intro hS hd fuel
    subst hS hd
    rfl
  · intro hS hd fuel
    subst hS
    exact sliceLoop_zero_size data hd fuel
  · intro hS fuel
    exact sliceLoop_negative_size data S hS fuel

theorem sliceData_termination_witness :
    segmentSize testConfig = some 3200 ∧
    ((0 : Int) < 3200 → ∀ fuel, sampleAudio.length < fuel →
      (sliceData sampleAudio 3200 fuel).2 = .closed ∧
        (sliceData sampleAudio 3200 fuel).1.length ≤ sampleAudio.length + 1) :=
  ⟨by decide, (sliceData_termination testConfig sampleAudio 3200 (by decide)).1⟩


/-! ## Recognition response parser: fields -/

/-- C14. For every byte sequence of fewer than 4 bytes (whatever its capacity), the
recognition `parseResponse` does not panic and returns the zero-value `Response`:
`IsLastPackage = false`, `PayloadSequence = 0`, `Seq = 0`, `Code = 0`, `PayloadMsg`
absent, `PayloadSize = 0`. -/
theorem parseResponse_short {J : Type} (gunzip : Bytes → GunzipResult)
    (unmarshal : Bytes → Option J) (res : GoSlice) (h : res.bytes.length < 4) :
    parseResponse gunzip unmarshal res =
      some { IsLastPackage := false
             PayloadSequence := 0
             Seq := 0
             Code := 0
             PayloadMsg := .absent
             PayloadSize := 0 } := by
  simp only [parseResponse, h, if_true]

theorem parseResponse_short_witness :
    (GoSlice.mk [0x11, 0x92] [7, 7, 7, 7, 7, 7]).bytes.length < 4 ∧
    parseResponse (fun _ => .readerFailed) (fun _ => (none : Option Unit))
      (GoSlice.mk [0x11, 0x92] [7, 7, 7, 7, 7, 7]) =
      some { IsLastPackage := false
             PayloadSequence := 0
             Seq := 0
             Code := 0
             PayloadMsg := .absent
             PayloadSize := 0 } :=
  ⟨by decide, parseResponse_short (fun _ => .readerFailed) (fun _ => (none : Option Unit))
    (GoSlice.mk [0x11, 0x92] [7, 7, 7, 7, 7, 7]) (by decide)⟩

theorem GoSlice.firstFour_of_le (s : GoSlice) (h : 4 ≤ s.bytes.length) :
    s.firstFour = some (s.bytes.take 4) := by
  have h' : 4 ≤ s.bytes.length + s.spare.length := by omega
  simp only [GoSlice.firstFour, h', if_true, List.take_append_of_le_length h]

theorem GoSlice.sliceFrom_eq_some (s t : GoSlice) (n : Nat) (h : s.sliceFrom n = some t) :
    n ≤ s.bytes.length ∧ t = ⟨s.bytes.drop n, s.spare⟩ := by
  unfold GoSlice.sliceFrom at h
  by_cases hn : n ≤ s.bytes.length
  · rw [if_pos hn] at h
    exact ⟨hn, (Option.some.inj h).symm⟩
  · rw [if_neg hn] at h
    cases h

theorem GoSlice.firstFour_eq_some (s : GoSlice) (b : Bytes) (h : s.firstFour = some b) :
    b = (s.bytes ++ s.spare).take 4 := by
  unfold GoSlice.firstFour at h
  by_cases hn : 4 ≤ s.bytes.length + s.spare.length
  · rw [if_pos hn] at h
    exact (Option.some.inj h).symm
  · rw [if_neg hn] at h
    cases h

theorem parseBody_fields {J : Type} (messageType : Nat) (payload : GoSlice)
    (result r1 : Response J) (size : Int) (msg : Option Bytes)
    (h : parseBody messageType payload result = some (r1, size, msg)) :
    r1.IsLastPackage = result.IsLastPackage ∧ r1.PayloadSequence = result.PayloadSequence ∧
    r1.PayloadMsg = result.PayloadMsg ∧ r1.PayloadSize = result.PayloadSize ∧
    (messageType = FULL_SERVER_RESPONSE →
      4 ≤ payload.bytes.length ∧ size = (beUint32 (payload.bytes.take 4) : Int) ∧
        msg = some (payload.bytes.drop 4)) ∧
    (messageType = SERVER_ACK →
      r1.Seq = (beUint32 ((payload.bytes ++ payload.spare).take 4) : Int)) ∧
    (messageType = SERVER_ERROR_RESPONSE →
      r1.Code = (beUint32 ((payload.bytes ++ payload.spare).take 4) : Int)) := by
  unfold parseBody at h
  by_cases h9 : messageType = FULL_SERVER_RESPONSE
  · rw [if_pos h9] at h
    simp only [Option.bind_eq_bind, Option.bind_eq_some] at h
    obtain ⟨b, hb, t, ht, hr⟩ := h
    obtain ⟨hle, rfl⟩ := GoSlice.sliceFrom_eq_some payload t 4 ht
    have hb' := GoSlice.firstFour_eq_some payload b hb
    rw [List.take_append_of_le_length hle] at hb'
    subst hb'
    have hr' := Option.some.inj hr
    simp only [Prod.mk.injEq] at hr'
    obtain ⟨rfl, rfl, rfl⟩ := hr'
    refine ⟨rfl, rfl, rfl, rfl, fun _ => ⟨hle, rfl, rfl⟩, ?_, ?_⟩
    · intro hB; rw [h9] at hB; exact absurd hB (by decide)
    · intro hF; rw [h9] at hF; exact absurd hF (by decide)
  · rw [if_neg h9] at h
    by_cases hB : messageType = SERVER_ACK
    · rw [if_pos hB] at h
      simp only [Option.bind_eq_bind, Option.bind_eq_some] at h
      obtain ⟨b, hb, hr⟩ := h
      have hb' := GoSlice.firstFour_eq_some payload b hb
      subst hb'
      have hr1 : r1 = { result with Seq := (beUint32 ((payload.bytes ++ payload.spare).take 4) : Int) } := by
        by_cases h8 : payload.bytes.length ≥ 8
        · rw [if_pos h8] at hr
          have := Option.some.inj hr
          simp only [Prod.mk.injEq] at this
          exact this.1.symm
        · rw [if_neg h8] at hr
          have := Option.some.inj hr
          simp only [Prod.mk.injEq] at this
          exact this.1.symm
      subst hr1
      refine ⟨rfl, rfl, rfl, rfl, fun h => absurd h h9, fun _ => rfl, ?_⟩
      intro hF; rw [hB] at hF; exact absurd hF (by decide)
    · rw [if_neg hB] at h
      by_cases hF : messageType = SERVER_ERROR_RESPONSE
      · rw [if_pos hF] at h
        simp only [Option.bind_eq_bind, Option.bind_eq_some] at h
        obtain ⟨b, hb, hr⟩ := h
        have hb' := GoSlice.firstFour_eq_some payload b hb
        subst hb'
        have hr1 : r1 =
            { result with Code := (beUint32 ((payload.bytes ++ payload.spare).take 4) : Int) } := by
          by_cases h8 : payload.bytes.length ≥ 8
          · rw [if_pos h8] at hr
            have := Option.some.inj hr
            simp only [Prod.mk.injEq] at this
            exact this.1.symm
          · rw [if_neg h8] at hr
            have := Option.some.inj hr
            simp only [Prod.mk.injEq] at this
            exact this.1.symm
        subst hr1
        exact ⟨rfl, rfl, rfl, rfl, fun h => absurd h h9, fun h => absurd h hB, fun _ => rfl⟩
      · rw [if_neg hF] at h
        have := Option.some.inj h
        simp only [Prod.mk.injEq] at this
        obtain ⟨rfl, -, -⟩ := this
        exact ⟨rfl, rfl, rfl, rfl, fun h => absurd h h9, fun h => absurd h hB,
          fun h => absurd h hF⟩

theorem parseResponse_stages {J : Type} (gunzip : Bytes → GunzipResult)
    (unmarshal : Bytes → Option J) (res : GoSlice) (r : Response J)
    (hlen : 4 ≤ res.bytes.length) (hp : parseResponse gunzip unmarshal res = some r) :
    (decodeHeader res.bytes).headSize * 4 ≤ res.bytes.length ∧
    ∃ (base : Response J) (payload : GoSlice) (r1 : Response J) (size : Int)
      (msg : Option Bytes),
      ((decodeHeader res.bytes).messageTypeSpecificFlags &&& 0x01 ≠ 0 →
        (decodeHeader res.bytes).headSize * 4 + 4 ≤ res.bytes.length ∧
        base = { PayloadSequence :=
          (beUint32 ((res.bytes.drop ((decodeHeader res.bytes).headSize * 4)).take 4) : Int) } ∧
        payload = ⟨res.bytes.drop ((decodeHeader res.bytes).headSize * 4 + 4), res.spare⟩) ∧
      (¬ (decodeHeader res.bytes).messageTypeSpecificFlags &&& 0x01 ≠ 0 →
        base = {} ∧
        payload = ⟨res.bytes.drop ((decodeHeader res.bytes).headSize * 4), res.spare⟩) ∧
      parseBody (decodeHeader res.bytes).messageType payload
        (if (decodeHeader res.bytes).messageTypeSpecificFlags &&& 0x02 ≠ 0
          then { base with IsLastPackage := true } else base) = some (r1, size, msg) ∧
      r.IsLastPackage = r1.IsLastPackage ∧ r.PayloadSequence = r1.PayloadSequence ∧
      r.Seq = r1.Seq ∧ r.Code = r1.Code ∧
      (msg = none → r = r1) ∧
      (msg ≠ none → r.PayloadSize = size) ∧
      ((decodeHeader res.bytes).serializationMethod = NO_SERIALIZATION →
        r.PayloadMsg = r1.PayloadMsg) := by
  have h4 : ¬ res.bytes.length < 4 := by omega
  unfold parseResponse at hp
  rw [if_neg h4] at hp
  simp only [Option.bind_eq_bind, Option.bind_eq_some] at hp
  obtain ⟨p0, hp0, ⟨base, payload⟩, hseq, ⟨r1, size, msg⟩, hbody, hfin⟩ := hp
  obtain ⟨hle, rfl⟩ := GoSlice.sliceFrom_eq_some res p0 _ hp0
  refine ⟨hle, base, payload, r1, size, msg, ?_, ?_, hbody, ?_⟩
  · intro hb
    rw [if_pos hb] at hseq
    simp only [Option.bind_eq_some] at hseq
    obtain ⟨b, hb1, t, ht, hr⟩ := hseq
    obtain ⟨hle4, rfl⟩ := GoSlice.sliceFrom_eq_some _ t 4 ht
    have hb' := GoSlice.firstFour_eq_some _ b hb1
    simp only [List.length_drop] at hle4
    rw [List.take_append_of_le_length (by simp only [List.length_drop]; omega)] at hb'
    subst hb'
    have := Option.some.inj hr
    simp only [Prod.mk.injEq] at this
    obtain ⟨rfl, rfl⟩ := this
    refine ⟨by omega, rfl, ?_⟩
    simp only [List.drop_drop]
  · intro hb
    rw [if_neg hb] at hseq
    have := Option.some.inj hseq
    simp only [Prod.mk.injEq] at this
    obtain ⟨rfl, rfl⟩ := this
    exact ⟨rfl, rfl⟩
  · cases msg with
    | none =>
      have := Option.some.inj hfin
      subst this
      exact ⟨rfl, rfl, rfl, rfl, fun _ => rfl, fun h => absurd rfl h, fun _ => rfl⟩
    | some m =>
      have := Option.some.inj hfin
      subst this
      refine ⟨?_, ?_, ?_, ?_, ?_, fun _ => rfl, ?_⟩
      · dsimp only
        split
        · split <;> rfl
        · split <;> rfl
      · dsimp only
        split
        · split <;> rfl
        · split <;> rfl
      · dsimp only
        split
        · split <;> rfl
        · split <;> rfl
      · dsimp only
        split
        · split <;> rfl
        · split <;> rfl
      · intro h
        cases h
      · intro hser
        have hj : ¬ (decodeHeader res.bytes).serializationMethod = JSON := by
          rw [hser]; decide
        dsimp only
        rw [if_neg hj, if_neg (by simp [hser])]

theorem parseBody_completes {J : Type} (messageType : Nat) (payload : GoSlice)
    (result : Response J) (h : 4 ≤ payload.bytes.length) :
    ∃ x, parseBody messageType payload result = some x := by
  have hf := GoSlice.firstFour_of_le payload h
  have hs : payload.sliceFrom 4 = some ⟨payload.bytes.drop 4, payload.spare⟩ := by
    simp only [GoSlice.sliceFrom, h, if_true]
  unfold parseBody
  by_cases h9 : messageType = FULL_SERVER_RESPONSE
  · rw [if_pos h9]
    simp only [Option.bind_eq_bind, hf, hs, Option.some_bind]
    exact ⟨_, rfl⟩
  · rw [if_neg h9]
    by_cases hB : messageType = SERVER_ACK
    · rw [if_pos hB]
      simp only [Option.bind_eq_bind, hf, Option.some_bind]
      by_cases h8 : payload.bytes.length ≥ 8
      · rw [if_pos h8]; exact ⟨_, rfl⟩
      · rw [if_neg h8]; exact ⟨_, rfl⟩
    · rw [if_neg hB]
      by_cases hF : messageType = SERVER_ERROR_RESPONSE
      · rw [if_pos hF]
        simp only [Option.bind_eq_bind, hf, Option.some_bind]
        by_cases h8 : payload.bytes.length ≥ 8
        · rw [if_pos h8]; exact ⟨_, rfl⟩
        · rw [if_neg h8]; exact ⟨_, rfl⟩
      · rw [if_neg hF]; exact ⟨_, rfl⟩

theorem parseResponse_completes {J : Type} (gunzip : Bytes → GunzipResult)
    (unmarshal : Bytes → Option J) (res : GoSlice) (hlen : 4 ≤ res.bytes.length)
    (hoff : (if (decodeHeader res.bytes).messageTypeSpecificFlags &&& 0x01 ≠ 0
        then (decodeHeader res.bytes).headSize * 4 + 4
        else (decodeHeader res.bytes).headSize * 4) + 4 ≤ res.bytes.length) :
    ∃ r, parseResponse gunzip unmarshal res = some r := by
  have h4 : ¬ res.bytes.length < 4 := by omega
  have hle : (decodeHeader res.bytes).headSize * 4 ≤ res.bytes.length := by
    split at hoff <;> omega
  have hs0 : res.sliceFrom ((decodeHeader res.bytes).headSize * 4) =
      some ⟨res.bytes.drop ((decodeHeader res.bytes).headSize * 4), res.spare⟩ := by
    simp only [GoSlice.sliceFrom, hle, if_true]
  unfold parseResponse
  rw [if_neg h4]
  simp only [Option.bind_eq_bind, hs0, Option.some_bind]
  by_cases hb : (decodeHeader res.bytes).messageTypeSpecificFlags &&& 0x01 ≠ 0
  · rw [if_pos hb] at hoff
    have hl4 : 4 ≤ (GoSlice.mk (res.bytes.drop ((decodeHeader res.bytes).headSize * 4))
        res.spare).bytes.length := by
      simp only [List.length_drop]; omega
    have hf := GoSlice.firstFour_of_le _ hl4
    have hs : (GoSlice.mk (res.bytes.drop ((decodeHeader res.bytes).headSize * 4))
        res.spare).sliceFrom 4 =
        some ⟨(res.bytes.drop ((decodeHeader res.bytes).headSize * 4)).drop 4, res.spare⟩ := by
      simp only [GoSlice.sliceFrom, hl4, if_true]
    rw [if_pos hb]
    simp only [hf, hs, Option.some_bind]
    obtain ⟨⟨r1, size, msg⟩, hx⟩ := parseBody_completes (J := J)
      (decodeHeader res.bytes).messageType
      ⟨(res.bytes.drop ((decodeHeader res.bytes).headSize * 4)).drop 4, res.spare⟩
      (if (decodeHeader res.bytes).messageTypeSpecificFlags &&& 0x02 ≠ 0
        then { ({ PayloadSequence := (beUint32 ((res.bytes.drop
          ((decodeHeader res.bytes).headSize * 4)).take 4) : Int) } : Response J)
            with IsLastPackage := true }
        else { PayloadSequence := (beUint32 ((res.bytes.drop
          ((decodeHeader res.bytes).headSize * 4)).take 4) : Int) })
      (by simp only [List.length_drop]; omega)
    simp only [Option.pure_def, Option.some_bind]
    rw [hx]
    simp only [Option.some_bind]
    cases msg with
    | none => exact ⟨_, rfl⟩
    | some m => exact ⟨_, rfl⟩
  · rw [if_neg hb] at hoff
    rw [if_neg hb]
    obtain ⟨⟨r1, size, msg⟩, hx⟩ := parseBody_completes (J := J)
      (decodeHeader res.bytes).messageType
      ⟨res.bytes.drop ((decodeHeader res.bytes).headSize * 4), res.spare⟩
      (if (decodeHeader res.bytes).messageTypeSpecificFlags &&& 0x02 ≠ 0
        then { ({} : Response J) with IsLastPackage := true } else {})
      (by simp only [List.length_drop]; omega)
    simp only [Option.pure_def, Option.some_bind]
    rw [hx]
    simp only [Option.some_bind]
    cases msg with
    | none => exact ⟨_, rfl⟩
    | some m => exact ⟨_, rfl⟩

/-- C15. For every recognition frame (at least 4 bytes) on which `parseResponse`
completes: `IsLastPackage` is true iff `flags & 0x02` is set; when `flags & 0x01` is
set the 4 bytes after the header are present, `PayloadSequence` is their big-endian
value and the type-specific field (payload size of a full server response, `Seq` of
an ack, `Code` of an error response) is read from the 4 bytes after them; when it is
clear `PayloadSequence` stays 0 and the type-specific field is read from the 4 bytes
immediately after the header. -/
theorem parseResponse_flags {J : Type} (gunzip : Bytes → GunzipResult)
    (unmarshal : Bytes → Option J) (res : GoSlice) (r : Response J)
    (hlen : 4 ≤ res.bytes.length) (hp : parseResponse gunzip unmarshal res = some r) :
    (r.IsLastPackage = true ↔ (decodeHeader res.bytes).messageTypeSpecificFlags &&& 0x02 ≠ 0) ∧
    ((decodeHeader res.bytes).messageTypeSpecificFlags &&& 0x01 ≠ 0 →
      (decodeHeader res.bytes).headSize * 4 + 4 ≤ res.bytes.length ∧
      r.PayloadSequence =
        (beUint32 ((res.bytes.drop ((decodeHeader res.bytes).headSize * 4)).take 4) : Int) ∧
      ((decodeHeader res.bytes).messageType = FULL_SERVER_RESPONSE →
        (decodeHeader res.bytes).headSize * 4 + 8 ≤ res.bytes.length ∧
        r.PayloadSize = (beUint32
          ((res.bytes.drop ((decodeHeader res.bytes).headSize * 4 + 4)).take 4) : Int)) ∧
      ((decodeHeader res.bytes).messageType = SERVER_ACK →
        r.Seq = (beUint32 ((res.bytes.drop ((decodeHeader res.bytes).headSize * 4 + 4)
          ++ res.spare).take 4) : Int)) ∧
      ((decodeHeader res.bytes).messageType = SERVER_ERROR_RESPONSE →
        r.Code = (beUint32 ((res.bytes.drop ((decodeHeader res.bytes).headSize * 4 + 4)
          ++ res.spare).take 4) : Int))) ∧
    ((decodeHeader res.bytes).messageTypeSpecificFlags &&& 0x01 = 0 →
      r.PayloadSequence = 0 ∧
      ((decodeHeader res.bytes).messageType = FULL_SERVER_RESPONSE →
        (decodeHeader res.bytes).headSize * 4 + 4 ≤ res.bytes.length ∧
        r.PayloadSize = (beUint32
          ((res.bytes.drop ((decodeHeader res.bytes).headSize * 4)).take 4) : Int)) ∧
      ((decodeHeader res.bytes).messageType = SERVER_ACK →
        r.Seq = (beUint32 ((res.bytes.drop ((decodeHeader res.bytes).headSize * 4)
          ++ res.spare).take 4) : Int)) ∧
      ((decodeHeader res.bytes).messageType = SERVER_ERROR_RESPONSE →
        r.Code = (beUint32 ((res.bytes.drop ((decodeHeader res.bytes).headSize * 4)
          ++ res.spare).take 4) : Int))) := by
  obtain ⟨hle, base, payload, r1, size, msg, hset, hclr, hbody, e1, e2, e3, e4, -, hsz, -⟩ :=
    parseResponse_stages gunzip unmarshal res r hlen hp
  obtain ⟨b1, b2, -, -, b9, bB, bF⟩ := parseBody_fields _ _ _ _ _ _ hbody
  refine ⟨?_, ?_, ?_⟩
  · rw [e1, b1]
    by_cases h2 : (decodeHeader res.bytes).messageTypeSpecificFlags &&& 0x02 ≠ 0
    · rw [if_pos h2]
      exact ⟨fun _ => h2, fun _ => rfl⟩
    · rw [if_neg h2]
      by_cases hb : (decodeHeader res.bytes).messageTypeSpecificFlags &&& 0x01 ≠ 0
      · rw [(hset hb).2.1]; simp [h2]
      · rw [(hclr hb).1]; simp [h2]
  · intro hb
    obtain ⟨hl, hbase, hpay⟩ := hset hb
    have hps : r.PayloadSequence = (beUint32
        ((res.bytes.drop ((decodeHeader res.bytes).headSize * 4)).take 4) : Int) := by
      rw [e2, b2, hbase]
      split <;> rfl
    subst hpay
    refine ⟨hl, hps, ?_, ?_, ?_⟩
    · intro h9
      obtain ⟨c1, c2, c3⟩ := b9 h9
      simp only [List.length_drop] at c1
      refine ⟨by omega, ?_⟩
      rw [hsz (by rw [c3]; simp), c2]
    · intro hB; rw [e3, bB hB]
    · intro hF; rw [e4, bF hF]
  · intro hb
    have hb' : ¬ (decodeHeader res.bytes).messageTypeSpecificFlags &&& 0x01 ≠ 0 := by
      simp [hb]
    obtain ⟨hbase, hpay⟩ := hclr hb'
    have hps : r.PayloadSequence = 0 := by
      rw [e2, b2, hbase]
      split <;> rfl
    subst hpay
    refine ⟨hps, ?_, ?_, ?_⟩
    · intro h9
      obtain ⟨c1, c2, c3⟩ := b9 h9
      simp only [List.length_drop] at c1
      refine ⟨by omega, ?_⟩
      rw [hsz (by rw [c3]; simp), c2]
    · intro hB; rw [e3, bB hB]
    · intro hF; rw [e4, bF hF]

theorem parseResponse_flags_witness :
    4 ≤ (GoSlice.mk [0x11, 0x93, 0x10, 0x00, 0, 0, 0, 5, 0, 0, 0, 1, 65] []).bytes.length ∧
    parseResponse (fun _ => .readerFailed) (fun _ => (none : Option Unit))
      (GoSlice.mk [0x11, 0x93, 0x10, 0x00, 0, 0, 0, 5, 0, 0, 0, 1, 65] []) =
        some { IsLastPackage := true, PayloadSequence := 5, PayloadSize := 1 } ∧
    (({ IsLastPackage := true, PayloadSequence := 5, PayloadSize := 1 } :
        Response Unit).IsLastPackage = true ↔
      (decodeHeader (GoSlice.mk [0x11, 0x93, 0x10, 0x00, 0, 0, 0, 5, 0, 0, 0, 1, 65]
        []).bytes).messageTypeSpecificFlags &&& 0x02 ≠ 0) :=
  ⟨by decide, by decide,
    (parseResponse_flags (fun _ => .readerFailed) (fun _ => (none : Option Unit))
      (GoSlice.mk [0x11, 0x93, 0x10, 0x00, 0, 0, 0, 5, 0, 0, 0, 1, 65] [])
      { IsLastPackage := true, PayloadSequence := 5, PayloadSize := 1 }
      (by decide) (by decide)).1⟩

/-- C16, as stated, fails: on the server-ack frame `11 B1 00 00 | 00 00 00 05 |
00 00 00 09` (flags bit 0 set, sequence field 5, ack sequence 9) the response has
`PayloadSequence = 5`; the ack sequence 9 is stored in the field `Seq` and overwrites
nothing. -/
theorem parseResponse_ack_keeps_payload_sequence :
    (decodeHeader [0x11, 0xB1, 0x00, 0x00, 0, 0, 0, 5, 0, 0, 0, 9]).messageType = SERVER_ACK ∧
    (decodeHeader [0x11, 0xB1, 0x00, 0x00, 0, 0, 0, 5, 0, 0, 0, 9]).messageTypeSpecificFlags
      &&& 0x01 ≠ 0 ∧
    parseResponse (fun _ => .readerFailed) (fun _ => (none : Option Unit))
      (GoSlice.mk [0x11, 0xB1, 0x00, 0x00, 0, 0, 0, 5, 0, 0, 0, 9] []) =
        some { PayloadSequence := 5, Seq := 9 } ∧
    ({ PayloadSequence := 5, Seq := 9 } : Response Unit).PayloadSequence ≠ 9 := by
  refine ⟨by decide, by decide, by decide, by decide⟩

/-- C16, amended. For every recognition server-ack frame (type 0x0B) whose flags
have bit 0 set, with sequence field `a` in the 4 bytes after the header and ack
sequence `b` in the following 4 bytes, `parseResponse` completes with
`PayloadSequence = a` and `Seq = b`: the ack sequence is stored in the separate field
`Seq` and does not overwrite the sequence parsed from the flagged sequence field. -/
theorem parseResponse_ack_sequences {J : Type} (gunzip : Bytes → GunzipResult)
    (unmarshal : Bytes → Option J) (res : GoSlice)
    (ht : (decodeHeader res.bytes).messageType = SERVER_ACK)
    (hb : (decodeHeader res.bytes).messageTypeSpecificFlags &&& 0x01 ≠ 0)
    (hl : (decodeHeader res.bytes).headSize * 4 + 8 ≤ res.bytes.length) :
    ∃ r, parseResponse gunzip unmarshal res = some r ∧
      r.PayloadSequence =
        (beUint32 ((res.bytes.drop ((decodeHeader res.bytes).headSize * 4)).take 4) : Int) ∧
      r.Seq =
        (beUint32 ((res.bytes.drop ((decodeHeader res.bytes).headSize * 4 + 4)).take 4) : Int) := by
  have hlen : 4 ≤ res.bytes.length := by omega
  obtain ⟨r, hr⟩ := parseResponse_completes gunzip unmarshal res hlen
    (by rw [if_pos hb]; omega)
  obtain ⟨hle, base, payload, r1, size, msg, hset, -, hbody, -, e2, e3, -, -, -, -⟩ :=
    parseResponse_stages gunzip unmarshal res r hlen hr
  obtain ⟨-, b2, -, -, -, bB, -⟩ := parseBody_fields _ _ _ _ _ _ hbody
  obtain ⟨-, hbase, hpay⟩ := hset hb
  subst hpay
  refine ⟨r, hr, ?_, ?_⟩
  · rw [e2, b2, hbase]
    split <;> rfl
  · rw [e3, bB ht]
    rw [List.take_append_of_le_length (by simp only [List.length_drop]; omega)]

theorem parseResponse_ack_sequences_witness :
    (decodeHeader (GoSlice.mk [0x11, 0xB1, 0x00, 0x00, 0, 0, 0, 5, 0, 0, 0, 9] []).bytes).messageType
      = SERVER_ACK ∧
    ∃ r, parseResponse (fun _ => .readerFailed) (fun _ => (none : Option Unit))
        (GoSlice.mk [0x11, 0xB1, 0x00, 0x00, 0, 0, 0, 5, 0, 0, 0, 9] []) = some r ∧
      r.PayloadSequence = (beUint32 (((GoSlice.mk [0x11, 0xB1, 0x00, 0x00, 0, 0, 0, 5, 0, 0, 0, 9]
        []).bytes.drop ((decodeHeader (GoSlice.mk [0x11, 0xB1, 0x00, 0x00, 0, 0, 0, 5, 0, 0, 0, 9]
          []).bytes).headSize * 4)).take 4) : Int) ∧
      r.Seq = (beUint32 (((GoSlice.mk [0x11, 0xB1, 0x00, 0x00, 0, 0, 0, 5, 0, 0, 0, 9]
        []).bytes.drop ((decodeHeader (GoSlice.mk [0x11, 0xB1, 0x00, 0x00, 0, 0, 0, 5, 0, 0, 0, 9]
          []).bytes).headSize * 4 + 4)).take 4) : Int) :=
  ⟨by decide,
    parseResponse_ack_sequences (fun _ => .readerFailed) (fun _ => (none : Option Unit))
      (GoSlice.mk [0x11, 0xB1, 0x00, 0x00, 0, 0, 0, 5, 0, 0, 0, 9] [])
      (by decide) (by decide) (by decide)⟩

/-- C17, as stated, fails: on the full server response `11 90 00 00 | 00 00 00 01 |
41` (serialization 0, compression 0, one payload byte) the response has `PayloadMsg`
absent (nil); only `PayloadSize = 1` records that a payload was there. -/
theorem parseResponse_no_serialization_drops_payload :
    (decodeHeader [0x11, 0x90, 0x00, 0x00, 0, 0, 0, 1, 0x41]).messageType
      = FULL_SERVER_RESPONSE ∧
    (decodeHeader [0x11, 0x90, 0x00, 0x00, 0, 0, 0, 1, 0x41]).serializationMethod
      = NO_SERIALIZATION ∧
    (decodeHeader [0x11, 0x90, 0x00, 0x00, 0, 0, 0, 1, 0x41]).messageCompression
      = NO_COMPRESSION ∧
    parseResponse (fun _ => .readerFailed) (fun _ => (none : Option Unit))
      (GoSlice.mk [0x11, 0x90, 0x00, 0x00, 0, 0, 0, 1, 0x41] []) =
        some { PayloadMsg := .absent, PayloadSize := 1 } ∧
    ({ PayloadMsg := .absent, PayloadSize := 1 } : Response Unit).PayloadMsg ≠ .text [0x41] := by
  refine ⟨by decide, by decide, by decide, by decide, by decide⟩

/-- C17, amended. For every recognition frame (at least 4 bytes) whose serialization
tag is 0, whatever the compression tag, a completed `parseResponse` leaves
`PayloadMsg` absent (nil): the payload bytes are not passed through.  In particular
a full server response with serialization 0 whose length prefix and payload fit in
the frame is parsed with `PayloadMsg` absent and `PayloadSize` equal to the
big-endian value of its length prefix. -/
theorem parseResponse_no_serialization {J : Type} (gunzip : Bytes → GunzipResult)
    (unmarshal : Bytes → Option J) (res : GoSlice) (hlen : 4 ≤ res.bytes.length)
    (hser : (decodeHeader res.bytes).serializationMethod = NO_SERIALIZATION) :
    (∀ r, parseResponse gunzip unmarshal res = some r → r.PayloadMsg = .absent) ∧
    ((decodeHeader res.bytes).messageType = FULL_SERVER_RESPONSE →
      (decodeHeader res.bytes).messageTypeSpecificFlags &&& 0x01 = 0 →
      (decodeHeader res.bytes).headSize * 4 + 4 ≤ res.bytes.length →
      ∃ r, parseResponse gunzip unmarshal res = some r ∧ r.PayloadMsg = .absent ∧
        r.PayloadSize = (beUint32
          ((res.bytes.drop ((decodeHeader res.bytes).headSize * 4)).take 4) : Int)) := by
  have habs : ∀ r, parseResponse gunzip unmarshal res = some r → r.PayloadMsg = .absent := by
    intro r hr
    obtain ⟨-, base, payload, r1, size, msg, hset, hclr, hbody, -, -, -, -, -, -, hmsg⟩ :=
      parseResponse_stages gunzip unmarshal res r hlen hr
    obtain ⟨-, -, b3, -, -, -, -⟩ := parseBody_fields _ _ _ _ _ _ hbody
    rw [hmsg hser, b3]
    by_cases hb : (decodeHeader res.bytes).messageTypeSpecificFlags &&& 0x01 ≠ 0
    · rw [(hset hb).2.1]; split <;> rfl
    · rw [(hclr hb).1]; split <;> rfl
  refine ⟨habs, ?_⟩
  intro h9 hb hl
  have hb' : ¬ (decodeHeader res.bytes).messageTypeSpecificFlags &&& 0x01 ≠ 0 := by simp [hb]
  obtain ⟨r, hr⟩ := parseResponse_completes gunzip unmarshal res hlen
    (by rw [if_neg hb']; omega)
  refine ⟨r, hr, habs r hr, ?_⟩
  obtain ⟨-, base, payload, r1, size, msg, -, hclr, hbody, -, -, -, -, -, hsz, -⟩ :=
    parseResponse_stages gunzip unmarshal res r hlen hr
  obtain ⟨-, -, -, -, b9, -, -⟩ := parseBody_fields _ _ _ _ _ _ hbody
  obtain ⟨-, c2, c3⟩ := b9 h9
  obtain ⟨-, hpay⟩ := hclr hb'
  subst hpay
  rw [hsz (by rw [c3]; simp), c2]

theorem parseResponse_no_serialization_witness :
    4 ≤ (GoSlice.mk [0x11, 0x90, 0x00, 0x00, 0, 0, 0, 1, 0x41] []).bytes.length ∧
    (decodeHeader (GoSlice.mk [0x11, 0x90, 0x00, 0x00, 0, 0, 0, 1, 0x41] []).bytes).serializationMethod
      = NO_SERIALIZATION ∧
    parseResponse (fun _ => .readerFailed) (fun _ => (none : Option Unit))
      (GoSlice.mk [0x11, 0x90, 0x00, 0x00, 0, 0, 0, 1, 0x41] []) =
        some { PayloadMsg := .absent, PayloadSize := 1 } ∧
    ({ PayloadMsg := .absent, PayloadSize := 1 } : Response Unit).PayloadMsg = .absent :=
  ⟨by decide, by decide, by decide,
    (parseResponse_no_serialization (fun _ => .readerFailed) (fun _ => (none : Option Unit))
      (GoSlice.mk [0x11, 0x90, 0x00, 0x00, 0, 0, 0, 1, 0x41] []) (by decide) (by decide)).1
      { PayloadMsg := .absent, PayloadSize := 1 } (by decide)⟩


/-! ## Header bytes and segment size -/

theorem nibble_pack_value :
    ∀ a < 16, ∀ b < 16, (((a <<< 4) % 256) ||| b) = a * 16 + b := by
  decide

/-- C20. For message type, flags, serialization method and compression type in
0..15, `generateHeader` returns exactly the 4 bytes `0x11`, `messageType * 16 + flags`,
`serializationMethod * 16 + compressionType`, `reserved`; and
`generateHeader(0x01, 0x00, 0x01, 0x01, 0x00)` is the synthesis request header
`defaultHeader = 11 10 11 00`. -/
theorem generateHeader_bytes (messageType flags serialMethod compressionType
    reservedData : Nat) (hm : messageType < 16) (hf : flags < 16) (hs : serialMethod < 16)
    (hc : compressionType < 16) :
    generateHeader messageType flags serialMethod compressionType reservedData =
      [0x11, messageType * 16 + flags, serialMethod * 16 + compressionType, reservedData] ∧
    (generateHeader messageType flags serialMethod compressionType reservedData).length = 4 ∧
    generateHeader 0x01 0x00 0x01 0x01 0x00 = defaultHeader ∧
    defaultHeader = [0x11, 0x10, 0x11, 0x00] := by
  refine ⟨?_, rfl, by decide, rfl⟩
  simp only [generateHeader, nibble_pack_value messageType hm flags hf,
    nibble_pack_value serialMethod hs compressionType hc]
  rfl

theorem generateHeader_bytes_witness :
    (2 : Nat) < 16 ∧ (3 : Nat) < 16 ∧ (1 : Nat) < 16 ∧ (1 : Nat) < 16 ∧
    (generateHeader 2 3 1 1 0 = [0x11, 2 * 16 + 3, 1 * 16 + 1, 0] ∧
      (generateHeader 2 3 1 1 0).length = 4 ∧
      generateHeader 0x01 0x00 0x01 0x01 0x00 = defaultHeader ∧
      defaultHeader = [0x11, 0x10, 0x11, 0x00]) :=
  ⟨by decide, by decide, by decide, by decide,
    generateHeader_bytes 2 3 1 1 0 (by decide) (by decide) (by decide) (by decide)⟩

theorem wrapInt_of_fits (x : Int) (h : fitsInt x) : wrapInt x = x := by
  obtain ⟨h1, h2⟩ := h
  unfold wrapInt
  omega

/-- C18. The segment size derived by `RecognizeStream` is: `Mp3SegSize` for "mp3";
for "wav" the value of `(Channel * (Bits / 8) * Rate * SegDuration) / 1000` in Go's
`int` arithmetic (`Bits / 8` truncated first, products left to right), which is the
truncated quotient of the exact product whenever the products fit in 64 bits; for
"pcm" likewise `(Rate * 2 * Channel * SegDuration) / 500`; for every other format
string there is no segment size and `RecognizeStream` on a readable file returns the
unsupported-format error without running `processData`, so that no connection is
opened and no frame sent.  The test configuration (wav, 1 channel, 16 bits, 16000 Hz,
100 ms) gives 3200. -/
theorem segmentSize_formula (config : AsrConfig) :
    (config.Format = "mp3" → segmentSize config = some config.Mp3SegSize) ∧
    (config.Format = "wav" →
      segmentSize config = some (Int.tdiv (mulInt (mulInt (mulInt config.Channel
        (Int.tdiv config.Bits 8)) config.Rate) config.SegDuration) 1000) ∧
      (fitsInt (config.Channel * Int.tdiv config.Bits 8) →
        fitsInt (config.Channel * Int.tdiv config.Bits 8 * config.Rate) →
        fitsInt (config.Channel * Int.tdiv config.Bits 8 * config.Rate * config.SegDuration) →
        segmentSize config = some (Int.tdiv
          (config.Channel * Int.tdiv config.Bits 8 * config.Rate * config.SegDuration) 1000))) ∧
    (config.Format = "pcm" →
      segmentSize config = some (Int.tdiv (mulInt (mulInt (mulInt config.Rate 2)
        config.Channel) config.SegDuration) 500) ∧
      (fitsInt (config.Rate * 2) → fitsInt (config.Rate * 2 * config.Channel) →
        fitsInt (config.Rate * 2 * config.Channel * config.SegDuration) →
        segmentSize config = some (Int.tdiv
          (config.Rate * 2 * config.Channel * config.SegDuration) 500))) ∧
    (config.Format ≠ "mp3" → config.Format ≠ "wav" → config.Format ≠ "pcm" →
      segmentSize config = none ∧
      ∀ (J : Type) (gzip : Bytes → Bytes) (marshal : Request → Bytes)
        (gunzip : Bytes → GunzipResult) (unmarshal : Bytes → Option J) (data : Bytes)
        (peer : Peer),
        RecognizeStream gzip marshal gunzip unmarshal config (some data) peer =
          .failed (.unsupportedFormat config.Format)) ∧
    segmentSize testConfig = some 3200 := by
  refine ⟨?_, ?_, ?_, ?_, by decide⟩
  · intro h
    simp only [segmentSize, h, if_true]
  · intro h
    have h1 : ¬ config.Format = "mp3" := by rw [h]; decide
    have e : segmentSize config = some (Int.tdiv (mulInt (mulInt (mulInt config.Channel
        (Int.tdiv config.Bits 8)) config.Rate) config.SegDuration) 1000) := by
      unfold segmentSize
      rw [if_neg h1, if_pos h]
    refine ⟨e, ?_⟩
    intro f1 f2 f3
    rw [e]
    simp only [mulInt, wrapInt_of_fits _ f1, wrapInt_of_fits _ f2, wrapInt_of_fits _ f3]
  · intro h
    have h1 : ¬ config.Format = "mp3" := by rw [h]; decide
    have h2 : ¬ config.Format = "wav" := by rw [h]; decide
    have e : segmentSize config = some (Int.tdiv (mulInt (mulInt (mulInt config.Rate 2)
        config.Channel) config.SegDuration) 500) := by
      unfold segmentSize
      rw [if_neg h1, if_neg h2, if_pos h]
    refine ⟨e, ?_⟩
    intro f1 f2 f3
    rw [e]
    simp only [mulInt, wrapInt_of_fits _ f1, wrapInt_of_fits _ f2, wrapInt_of_fits _ f3]
  · intro h1 h2 h3
    have e : segmentSize config = none := by
      simp only [segmentSize, h1, h2, h3, if_false]
    refine ⟨e, ?_⟩
    intro J gzip marshal gunzip unmarshal data peer
    simp only [RecognizeStream, e]

/-! ## Outbound recognition frames -/

theorem beUint32_of_bytes (b0 b1 b2 b3 : Nat) (h1 : b1 < 256) (h2 : b2 < 256)
    (h3 : b3 < 256) :
    beUint32 [b0, b1, b2, b3] = b0 * 2 ^ 24 + b1 * 2 ^ 16 + b2 * 2 ^ 8 + b3 := by
  have e1 : b3 ||| b2 <<< 8 = 2 ^ 8 * b2 + b3 := by
    rw [Nat.lor_comm, Nat.shiftLeft_eq, Nat.mul_comm b2, ← Nat.mul_add_lt_is_or (by omega) b2]
  have e2 : (2 ^ 8 * b2 + b3) ||| b1 <<< 16 = 2 ^ 16 * b1 + (2 ^ 8 * b2 + b3) := by
    rw [Nat.lor_comm, Nat.shiftLeft_eq, Nat.mul_comm b1, ← Nat.mul_add_lt_is_or (by omega) b1]
  have e3 : (2 ^ 16 * b1 + (2 ^ 8 * b2 + b3)) ||| b0 <<< 24 =
      2 ^ 24 * b0 + (2 ^ 16 * b1 + (2 ^ 8 * b2 + b3)) := by
    rw [Nat.lor_comm, Nat.shiftLeft_eq, Nat.mul_comm b0, ← Nat.mul_add_lt_is_or (by omega) b0]
  simp only [beUint32, List.getD_cons_zero, List.getD_cons_succ]
  rw [e1, e2, e3]
  omega

theorem beUint32_putUint32 (v : Nat) : beUint32 (putUint32 v) = v % 2 ^ 32 := by
  unfold putUint32
  rw [beUint32_of_bytes _ _ _ _ (Nat.mod_lt _ (by decide)) (Nat.mod_lt _ (by decide))
    (Nat.mod_lt _ (by decide))]
  simp only [Nat.shiftRight_eq_div_pow]
  omega

theorem uint32_of_nat (n : Nat) : uint32 (n : Int) = n % 2 ^ 32 := by
  unfold uint32
  omega

theorem assembleFrame_layout (header : Bytes) (seq : Int) (payload : Bytes)
    (hh : header.length = 4) :
    (assembleFrame header seq payload).length = 12 + payload.length ∧
    (assembleFrame header seq payload).take 4 = header ∧
    ((assembleFrame header seq payload).drop 4).take 4 = generateBeforePayload seq ∧
    ((assembleFrame header seq payload).drop 8).take 4 = putUint32 (uint32 payload.length) ∧
    (assembleFrame header seq payload).drop 12 = payload ∧
    beUint32 (((assembleFrame header seq payload).drop 8).take 4) = payload.length % 2 ^ 32 := by
  obtain ⟨a, b, c, d, rfl⟩ : ∃ a b c d, header = [a, b, c, d] := by
    match header, hh with
    | [a, b, c, d], _ => exact ⟨a, b, c, d, rfl⟩
  have e : ((assembleFrame [a, b, c, d] seq payload).drop 8).take 4 =
      putUint32 (uint32 payload.length) := by
    simp [assembleFrame, generateBeforePayload, putUint32]
  refine ⟨?_, ?_, ?_, e, ?_, ?_⟩
  · simp [assembleFrame, generateBeforePayload, putUint32]; omega
  · simp [assembleFrame, generateBeforePayload, putUint32]
  · simp [assembleFrame, generateBeforePayload, putUint32]
  · simp [assembleFrame, generateBeforePayload, putUint32]
  · rw [e, beUint32_putUint32, uint32_of_nat]
    omega

theorem chunkSend_sent_frame (gzip : Bytes → Bytes) (data : Bytes) (segmentSize : Int)
    (writes : List Bool) (offset seq : Int) (c : AudioChunk) (next q : Int) (frame : Bytes)
    (ws : List Bool)
    (h : chunkSend gzip data segmentSize writes offset seq = .sent c next q frame ws) :
    frame = audioOnlyRequest gzip c q := by
  unfold chunkSend at h
  cases hs : sliceStep data segmentSize offset with
  | none => rw [hs] at h; cases h
  | some p =>
    obtain ⟨c0, n0⟩ := p
    rw [hs] at h
    rcases writes with _ | ⟨b, t⟩
    · cases h
    · cases b
      · cases h
      · dsimp only at h
        injection h with h1 h2 h3 h4 h5
        subst h1 h3 h4
        rfl

theorem chunkLoop_frames {J : Type} (gzip : Bytes → Bytes) (gunzip : Bytes → GunzipResult)
    (unmarshal : Bytes → Option J) (data : Bytes) (segmentSize : Int) :
    ∀ (reads : List (Option GoSlice)) (writes : List Bool) (offset seq : Int) (f : Bytes),
      f ∈ (chunkLoop gzip gunzip unmarshal data segmentSize reads writes offset seq).sends →
      ∃ c v, f = audioOnlyRequest gzip c v := by
  intro reads
  induction reads with
  | nil =>
    intro writes offset seq f hf
    rw [chunkLoop] at hf
    cases hs : chunkSend gzip data segmentSize writes offset seq with
    | panicked => rw [hs] at hf; simp [Session.sends] at hf
    | sendFailed => rw [hs] at hf; simp [Session.sends] at hf
    | sent c next q frame ws =>
      rw [hs] at hf
      simp only [Session.sends, List.filterMap_cons, List.filterMap_nil, List.mem_singleton] at hf
      exact ⟨c, q, hf.trans (chunkSend_sent_frame _ _ _ _ _ _ _ _ _ _ _ hs)⟩
  | cons rd reads ih =>
    intro writes offset seq f hf
    rw [chunkLoop] at hf
    cases hs : chunkSend gzip data segmentSize writes offset seq with
    | panicked => rw [hs] at hf; simp [Session.sends] at hf
    | sendFailed => rw [hs] at hf; simp [Session.sends] at hf
    | sent c next q frame ws =>
      have hframe := chunkSend_sent_frame _ _ _ _ _ _ _ _ _ _ _ hs
      rw [hs] at hf
      dsimp only at hf
      cases rd with
      | none =>
        simp only [Session.sends, List.filterMap_cons, List.filterMap_nil,
          List.mem_singleton] at hf
        exact ⟨c, q, hf.trans hframe⟩
      | some res =>
        dsimp only at hf
        cases hp : parseResponse gunzip unmarshal res with
        | none =>
          rw [hp] at hf
          simp only [Session.sends, List.filterMap_cons, List.filterMap_nil,
            List.mem_singleton] at hf
          exact ⟨c, q, hf.trans hframe⟩
        | some result =>
          rw [hp] at hf
          dsimp only at hf
          cases hl : c.Last with
          | true =>
            rw [hl] at hf
            simp only [if_true, Session.sends, List.filterMap_cons, List.filterMap_nil,
              List.mem_singleton] at hf
            exact ⟨c, q, hf.trans hframe⟩
          | false =>
            rw [hl] at hf
            simp only [Bool.false_eq_true, if_false, Session.sends, List.filterMap_cons,
              List.mem_cons] at hf
            rcases hf with hf | hf
            · exact ⟨c, q, hf.trans hframe⟩
            · exact ih ws next q f hf

theorem processData_sends_structure {J : Type} (gzip : Bytes → Bytes)
    (marshal : Request → Bytes) (gunzip : Bytes → GunzipResult) (unmarshal : Bytes → Option J)
    (config : AsrConfig) (peer : Peer) (data : Bytes) (segmentSize : Int) :
    ((processData gzip marshal gunzip unmarshal config peer data segmentSize).sends = [] ∧
      ∀ r, (processData gzip marshal gunzip unmarshal config peer data segmentSize).outcome
        ≠ .returned r) ∨
    ((processData gzip marshal gunzip unmarshal config peer data segmentSize).sends =
        [fullClientRequest gzip marshal config 1] ∧
      ∀ r, (processData gzip marshal gunzip unmarshal config peer data segmentSize).outcome
        ≠ .returned r) ∨
    ∃ reads writes,
      (processData gzip marshal gunzip unmarshal config peer data segmentSize).sends =
        fullClientRequest gzip marshal config 1 ::
          (chunkLoop gzip gunzip unmarshal data segmentSize reads writes 0 1).sends ∧
      (processData gzip marshal gunzip unmarshal config peer data segmentSize).outcome =
        (chunkLoop gzip gunzip unmarshal data segmentSize reads writes 0 1).outcome := by
  simp only [processData]
  cases peer.dial with
  | false => left; simp [Session.sends]
  | true =>
    rcases peer.writes with _ | ⟨b, ws⟩
    · left; simp [Session.sends]
    cases b with
    | false => left; simp [Session.sends]
    | true =>
      rcases peer.reads with _ | ⟨rd, reads⟩
      · right; left; simp [Session.sends]
      cases rd with
      | none => right; left; simp [Session.sends]
      | some res =>
        dsimp only
        cases hp : parseResponse gunzip unmarshal res with
        | none => right; left; simp [Session.sends]
        | some result =>
          right; right
          exact ⟨reads, ws, by simp [Session.sends], rfl⟩

theorem sliceLoop_last_flag (data : Bytes) (s : Nat) (hs : 0 < s) (fuel : Nat)
    (hf : data.length < fuel) (i : Nat) (c : AudioChunk)
    (hc : (sliceLoop data (s : Int) fuel ((0 : Nat) : Int)).1[i]? = some c) :
    c.Last = true ↔ i + 1 = (sliceLoop data (s : Int) fuel ((0 : Nat) : Int)).1.length := by
  obtain ⟨-, -, ⟨init, fin, h3, h4, -, h6⟩, -⟩ :=
    sliceLoop_spec data s hs fuel 0 (Nat.zero_le _) (by omega)
  rw [h3] at hc ⊢
  simp only [List.length_append, List.length_singleton]
  by_cases hi : i < init.length
  · rw [List.getElem?_append_left hi] at hc
    have := (h6 c (List.getElem?_mem hc)).1
    rw [this]
    constructor
    · intro h; cases h
    · intro h; omega
  · rw [List.getElem?_append_right (by omega)] at hc
    have hi0 : i - init.length = 0 := by
      by_contra hne
      obtain ⟨j, hj⟩ : ∃ j, i - init.length = j + 1 := ⟨i - init.length - 1, by omega⟩
      rw [hj] at hc
      simp at hc
    rw [hi0] at hc
    simp only [List.getElem?_cons_zero, Option.some.injEq] at hc
    subst hc
    exact ⟨fun _ => by omega, fun _ => h4⟩

theorem chunkSend_sent_step (gzip : Bytes → Bytes) (data : Bytes) (segmentSize : Int)
    (writes : List Bool) (offset seq : Int) (c : AudioChunk) (next q : Int) (frame : Bytes)
    (ws : List Bool)
    (h : chunkSend gzip data segmentSize writes offset seq = .sent c next q frame ws) :
    sliceStep data segmentSize offset = some (c, next) ∧
      q = (if c.Last then -(seq + 1) else seq + 1) ∧
      frame = audioOnlyRequest gzip c q := by
  unfold chunkSend at h
  cases hs : sliceStep data segmentSize offset with
  | none => rw [hs] at h; cases h
  | some p =>
    obtain ⟨c0, n0⟩ := p
    rw [hs] at h
    rcases writes with _ | ⟨b, t⟩
    · cases h
    · cases b
      · cases h
      · dsimp only at h
        injection h with h1 h2 h3 h4 h5
        subst h1 h2 h3 h4
        exact ⟨rfl, rfl, rfl⟩

theorem sliceLoop_head (data : Bytes) (segmentSize : Int) (fuel : Nat) (offset : Int)
    (c : AudioChunk) (next : Int) (hs : sliceStep data segmentSize offset = some (c, next)) :
    (sliceLoop data segmentSize (fuel + 1) offset).1[0]? = some c := by
  simp only [sliceLoop, hs]
  split <;> simp

theorem sliceLoop_tail (data : Bytes) (segmentSize : Int) (fuel : Nat) (offset : Int)
    (c : AudioChunk) (next : Int) (hs : sliceStep data segmentSize offset = some (c, next))
    (hl : c.Last = false) (j : Nat) :
    (sliceLoop data segmentSize (fuel + 1) offset).1[j + 1]? =
      (sliceLoop data segmentSize fuel next).1[j]? := by
  simp only [sliceLoop, hs, hl, Bool.false_eq_true, if_false, List.getElem?_cons_succ]

theorem chunkLoop_chunk_frames {J : Type} (gzip : Bytes → Bytes)
    (gunzip : Bytes → GunzipResult) (unmarshal : Bytes → Option J) (data : Bytes)
    (segmentSize : Int) :
    ∀ (reads : List (Option GoSlice)) (writes : List Bool) (offset seq : Int) (i : Nat)
      (f : Bytes),
      (chunkLoop gzip gunzip unmarshal data segmentSize reads writes offset seq).sends[i]?
        = some f →
      ∃ c, (∀ fuel, i < fuel → (sliceLoop data segmentSize fuel offset).1[i]? = some c) ∧
        f = audioOnlyRequest gzip c
          (if c.Last then -(seq + 1 + (i : Int)) else seq + 1 + (i : Int)) := by
  have first : ∀ (writes : List Bool) (offset seq : Int) (c : AudioChunk) (next q : Int)
      (frame : Bytes) (ws : List Bool) (i : Nat) (f : Bytes),
      chunkSend gzip data segmentSize writes offset seq = .sent c next q frame ws →
      ([frame] : List Bytes)[i]? = some f →
      ∃ c, (∀ fuel, i < fuel → (sliceLoop data segmentSize fuel offset).1[i]? = some c) ∧
        f = audioOnlyRequest gzip c
          (if c.Last then -(seq + 1 + (i : Int)) else seq + 1 + (i : Int)) := by
    intro writes offset seq c next q frame ws i f hs hf
    obtain ⟨s1, s2, s3⟩ := chunkSend_sent_step _ _ _ _ _ _ _ _ _ _ _ hs
    cases i with
    | succ j => simp at hf
    | zero =>
      simp only [List.getElem?_cons_zero, Option.some.injEq] at hf
      refine ⟨c, ?_, ?_⟩
      · intro fuel hfuel
        obtain ⟨n, rfl⟩ : ∃ n, fuel = n + 1 := ⟨fuel - 1, by omega⟩
        exact sliceLoop_head data segmentSize n offset c next s1
      · rw [← hf, s3, s2]
        simp
  intro reads
  induction reads with
  | nil =>
    intro writes offset seq i f hf
    rw [chunkLoop] at hf
    cases hs : chunkSend gzip data segmentSize writes offset seq with
    | panicked => rw [hs] at hf; simp [Session.sends] at hf
    | sendFailed => rw [hs] at hf; simp [Session.sends] at hf
    | sent c next q frame ws =>
      rw [hs] at hf
      exact first writes offset seq c next q frame ws i f hs
        (by simpa [Session.sends] using hf)
  | cons rd reads ih =>
    intro writes offset seq i f hf
    rw [chunkLoop] at hf
    cases hs : chunkSend gzip data segmentSize writes offset seq with
    | panicked => rw [hs] at hf; simp [Session.sends] at hf
    | sendFailed => rw [hs] at hf; simp [Session.sends] at hf
    | sent c next q frame ws =>
      obtain ⟨s1, s2, s3⟩ := chunkSend_sent_step _ _ _ _ _ _ _ _ _ _ _ hs
      rw [hs] at hf
      dsimp only at hf
      cases rd with
      | none =>
        exact first writes offset seq c next q frame ws i f hs
          (by simpa [Session.sends] using hf)
      | some res =>
        dsimp only at hf
        cases hp : parseResponse gunzip unmarshal res with
        | none =>
          rw [hp] at hf
          exact first writes offset seq c next q frame ws i f hs
            (by simpa [Session.sends] using hf)
        | some result =>
          rw [hp] at hf
          dsimp only at hf
          cases hl : c.Last with
          | true =>
            rw [hl] at hf
            exact first writes offset seq c next q frame ws i f hs
              (by simpa [Session.sends] using hf)
          | false =>
            rw [hl] at hf
            simp only [Bool.false_eq_true, if_false] at hf
            cases i with
            | zero =>
              exact first writes offset seq c next q frame ws 0 f hs
                (by simpa [Session.sends] using hf)
            | succ j =>
              have hj : (chunkLoop gzip gunzip unmarshal data segmentSize reads ws next
                  q).sends[j]? = some f := by
                simpa [Session.sends] using hf
              obtain ⟨c1, hc1, hc2⟩ := ih ws next q j f hj
              refine ⟨c1, ?_, ?_⟩
              · intro fuel hfuel
                obtain ⟨n, rfl⟩ : ∃ n, fuel = n + 1 := ⟨fuel - 1, by omega⟩
                rw [sliceLoop_tail data segmentSize n offset c next s1 hl j]
                exact hc1 n (by omega)
              · rw [hc2, s2, hl]
                simp only [Bool.false_eq_true, if_false]
                congr 1
                push_cast
                split <;> ring

/-- C19. Every frame `processData` writes is `header ++ sequence ++ length ++ payload`
with a 4-byte header, the 4-byte big-endian sequence, the 4-byte big-endian 32-bit
length of the compressed payload and the compressed payload: its length is
`12 + |payload|` and its length prefix decodes to the number of bytes that follow it
(modulo `2 ^ 32`, so exactly for payloads below 4 GiB).  The first frame is the
configuration frame, with header `11 11 11 00`, sequence 1 and the compressed
request.  The frame at position `k ≥ 1` carries the `k`-th chunk of `sliceData`, compressed,
with the counter `k + 1`, negated on the chunk marked `Last`; its header is
`11 23 11 00` when that chunk is the one marked `Last` and `11 21 11 00` when it is
not.  For a segment size `S > 0`, with `N` the number of chunks, `k ≤ N`, the chunk
marked `Last` is the `N`-th, and so the header is `11 21 11 00` for `k < N` (an
interior chunk) and `11 23 11 00` for `k = N` (the final chunk). -/
theorem processData_frame_layout {J : Type} (gzip : Bytes → Bytes)
    (marshal : Request → Bytes) (gunzip : Bytes → GunzipResult) (unmarshal : Bytes → Option J)
    (config : AsrConfig) (peer : Peer) (data : Bytes) (segmentSize : Int) (k : Nat)
    (f : Bytes)
    (hk : (processData gzip marshal gunzip unmarshal config peer data segmentSize).sends[k]?
      = some f) :
    ∃ header seq payload,
      f = header ++ generateBeforePayload seq ++ putUint32 (uint32 payload.length) ++ payload ∧
      header.length = 4 ∧ (generateBeforePayload seq).length = 4 ∧
      (putUint32 (uint32 payload.length)).length = 4 ∧
      f.length = 12 + payload.length ∧ f.drop 12 = payload ∧
      beUint32 ((f.drop 8).take 4) = payload.length % 2 ^ 32 ∧
      (payload.length < 2 ^ 32 → beUint32 ((f.drop 8).take 4) = (f.drop 12).length) ∧
      (k = 0 → header = [0x11, 0x11, 0x11, 0x00] ∧ seq = 1 ∧
        payload = gzip (marshal (constructRequest config))) ∧
      (0 < k → ∃ c : AudioChunk,
        (∀ fuel, k ≤ fuel → (sliceData data segmentSize fuel).1[k - 1]? = some c) ∧
        payload = gzip c.Chunk ∧
        seq = (if c.Last then -((k : Int) + 1) else (k : Int) + 1) ∧
        header = (if c.Last then [0x11, 0x23, 0x11, 0x00] else [0x11, 0x21, 0x11, 0x00]) ∧
        (0 < segmentSize →
          k ≤ (sliceData data segmentSize (data.length + 1)).1.length ∧
          (c.Last = true ↔ k = (sliceData data segmentSize (data.length + 1)).1.length) ∧
          header = (if k < (sliceData data segmentSize (data.length + 1)).1.length
            then [0x11, 0x21, 0x11, 0x00] else [0x11, 0x23, 0x11, 0x00]))) := by
  have layout : ∀ (header : Bytes) (seq : Int) (payload : Bytes), header.length = 4 →
      assembleFrame header seq payload =
        header ++ generateBeforePayload seq ++ putUint32 (uint32 payload.length) ++ payload ∧
      header.length = 4 ∧ (generateBeforePayload seq).length = 4 ∧
      (putUint32 (uint32 payload.length)).length = 4 ∧
      (assembleFrame header seq payload).length = 12 + payload.length ∧
      (assembleFrame header seq payload).drop 12 = payload ∧
      beUint32 (((assembleFrame header seq payload).drop 8).take 4)
        = payload.length % 2 ^ 32 ∧
      (payload.length < 2 ^ 32 →
        beUint32 (((assembleFrame header seq payload).drop 8).take 4)
          = ((assembleFrame header seq payload).drop 12).length) := by
    intro header seq payload hh
    obtain ⟨a1, -, -, -, a5, a6⟩ := assembleFrame_layout header seq payload hh
    refine ⟨rfl, hh, rfl, rfl, a1, a5, a6, ?_⟩
    intro hlt
    rw [a6, a5, Nat.mod_eq_of_lt hlt]
  have cfg : ∀ g : Bytes, g = fullClientRequest gzip marshal config 1 →
      ∃ header seq payload,
        g = header ++ generateBeforePayload seq ++ putUint32 (uint32 payload.length) ++ payload ∧
        header.length = 4 ∧ (generateBeforePayload seq).length = 4 ∧
        (putUint32 (uint32 payload.length)).length = 4 ∧
        g.length = 12 + payload.length ∧ g.drop 12 = payload ∧
        beUint32 ((g.drop 8).take 4) = payload.length % 2 ^ 32 ∧
        (payload.length < 2 ^ 32 → beUint32 ((g.drop 8).take 4) = (g.drop 12).length) ∧
        (header = [0x11, 0x11, 0x11, 0x00] ∧ seq = 1 ∧
          payload = gzip (marshal (constructRequest config))) := by
    intro g hg
    subst hg
    obtain ⟨b1, b2, b3, b4, b5, b6, b7, b8⟩ :=
      layout (generateHeader FULL_CLIENT_REQUEST POS_SEQUENCE JSON GZIP_COMPRESSION 0x00) 1
        (gzip (marshal (constructRequest config))) rfl
    exact ⟨_, 1, _, b1, b2, b3, b4, b5, b6, b7, b8, by decide, rfl, rfl⟩
  have aud : ∀ (g : Bytes) (c : AudioChunk) (v : Int), g = audioOnlyRequest gzip c v →
      ∃ header seq payload,
        g = header ++ generateBeforePayload seq ++ putUint32 (uint32 payload.length) ++ payload ∧
        header.length = 4 ∧ (generateBeforePayload seq).length = 4 ∧
        (putUint32 (uint32 payload.length)).length = 4 ∧
        g.length = 12 + payload.length ∧ g.drop 12 = payload ∧
        beUint32 ((g.drop 8).take 4) = payload.length % 2 ^ 32 ∧
        (payload.length < 2 ^ 32 → beUint32 ((g.drop 8).take 4) = (g.drop 12).length) ∧
        payload = gzip c.Chunk ∧ seq = v ∧
          header = if c.Last then [0x11, 0x23, 0x11, 0x00] else [0x11, 0x21, 0x11, 0x00] := by
    intro g c v hg
    subst hg
    have hh : (if c.Last then
        generateHeader AUDIO_ONLY_REQUEST NEG_WITH_SEQUENCE JSON GZIP_COMPRESSION 0x00
      else generateHeader AUDIO_ONLY_REQUEST POS_SEQUENCE JSON GZIP_COMPRESSION 0x00).length
        = 4 := by
      split <;> rfl
    obtain ⟨b1, b2, b3, b4, b5, b6, b7, b8⟩ := layout _ v (gzip c.Chunk) hh
    refine ⟨_, v, _, b1, b2, b3, b4, b5, b6, b7, b8, rfl, rfl, ?_⟩
    cases c.Last
    · simp only [Bool.false_eq_true, if_false]; decide
    · simp only [if_true]; decide
  rcases processData_sends_structure gzip marshal gunzip unmarshal config peer data segmentSize
    with ⟨h0, -⟩ | ⟨h1, -⟩ | ⟨reads, writes, h2, -⟩
  · rw [h0] at hk
    simp at hk
  · rw [h1] at hk
    cases k with
    | zero =>
      simp only [List.getElem?_cons_zero, Option.some.injEq] at hk
      obtain ⟨header, seq, payload, c1, c2, c3, c4, c5, c6, c7, c8, c9⟩ := cfg f hk.symm
      exact ⟨header, seq, payload, c1, c2, c3, c4, c5, c6, c7, c8, fun _ => c9,
        fun h => absurd h (by omega)⟩
    | succ j => simp at hk
  · rw [h2] at hk
    cases k with
    | zero =>
      simp only [List.getElem?_cons_zero, Option.some.injEq] at hk
      obtain ⟨header, seq, payload, c1, c2, c3, c4, c5, c6, c7, c8, c9⟩ := cfg f hk.symm
      exact ⟨header, seq, payload, c1, c2, c3, c4, c5, c6, c7, c8, fun _ => c9,
        fun h => absurd h (by omega)⟩
    | succ j =>
      simp only [List.getElem?_cons_succ] at hk
      obtain ⟨c, hc1, hc2⟩ := chunkLoop_chunk_frames gzip gunzip unmarshal data segmentSize
        reads writes 0 1 j f hk
      obtain ⟨header, seq, payload, c1, c2, c3, c4, c5, c6, c7, c8, c9, c10, c11⟩ :=
        aud f c _ hc2
      refine ⟨header, seq, payload, c1, c2, c3, c4, c5, c6, c7, c8,
        fun h => absurd h (by omega), fun _ => ⟨c, ?_, c9, ?_, c11, ?_⟩⟩
      · intro fuel hfuel
        exact hc1 fuel (by omega)
      · rw [c10]
        push_cast
        split <;> ring
      · intro hS
        obtain ⟨s, rfl⟩ := Int.eq_ofNat_of_zero_le hS.le
        have hs : 0 < s := by exact_mod_cast hS
        obtain ⟨-, -, -, ⟨m, hm, -, hm2⟩⟩ :=
          sliceLoop_spec data s hs (data.length + 1) 0 (Nat.zero_le _) (by omega)
        obtain ⟨hsend, -⟩ := chunkLoop_sends gzip gunzip unmarshal data s hs (data.length + 1)
          0 1 reads writes (Nat.zero_le _) (by omega)
        simp only [Nat.cast_zero] at hsend hm
        obtain ⟨c0, hc0, -⟩ := hsend j f hk
        have hjN : j < (sliceLoop data (s : Int) (data.length + 1) 0).1.length :=
          (List.getElem?_eq_some_iff.1 hc0).1
        have hmle : m ≤ m * s := Nat.le_mul_of_pos_right m hs
        have hcL : (sliceLoop data (s : Int) (data.length + 1) 0).1[j]? = some c :=
          hc1 (data.length + 1) (by omega)
        have hlast := sliceLoop_last_flag data s hs (data.length + 1) (by omega) j c
          (by simpa using hcL)
        simp only [Nat.cast_zero] at hlast
        have hsd : sliceData data (s : Int) (data.length + 1) =
            sliceLoop data (s : Int) (data.length + 1) 0 := rfl
        rw [hsd]
        refine ⟨by omega, ⟨fun h => (hlast.1 h), fun h => hlast.2 h⟩, ?_⟩
        rw [c11]
        by_cases hl : c.Last = true
        · have := hlast.1 hl
          rw [if_pos hl, if_neg (by omega)]
        · have hne : j + 1 ≠ (sliceLoop data (s : Int) (data.length + 1) 0).1.length :=
            fun h => hl (hlast.2 h)
          rw [if_neg hl, if_pos (by omega)]

theorem processData_frame_layout_witness :
    (processData id (fun _ => [123, 125]) (fun _ => .readerFailed)
      (fun _ => (none : Option Unit)) testConfig samplePeer sampleAudio 4).sends[3]?
        = some [0x11, 0x23, 0x11, 0x00, 0xFF, 0xFF, 0xFF, 0xFC, 0, 0, 0, 2, 18, 19] ∧
    (sliceData sampleAudio 4 (sampleAudio.length + 1)).1.length = 3 ∧
    ∃ header seq payload,
      ([0x11, 0x23, 0x11, 0x00, 0xFF, 0xFF, 0xFF, 0xFC, 0, 0, 0, 2, 18, 19] : Bytes) =
        header ++ generateBeforePayload seq ++ putUint32 (uint32 payload.length) ++ payload ∧
      header.length = 4 ∧ (generateBeforePayload seq).length = 4 ∧
      (putUint32 (uint32 payload.length)).length = 4 ∧
      ([0x11, 0x23, 0x11, 0x00, 0xFF, 0xFF, 0xFF, 0xFC, 0, 0, 0, 2, 18, 19] : Bytes).length
        = 12 + payload.length ∧
      ([0x11, 0x23, 0x11, 0x00, 0xFF, 0xFF, 0xFF, 0xFC, 0, 0, 0, 2, 18, 19] : Bytes).drop 12
        = payload ∧
      beUint32 ((([0x11, 0x23, 0x11, 0x00, 0xFF, 0xFF, 0xFF, 0xFC, 0, 0, 0, 2, 18, 19] :
        Bytes).drop 8).take 4) = payload.length % 2 ^ 32 ∧
      (payload.length < 2 ^ 32 →
        beUint32 ((([0x11, 0x23, 0x11, 0x00, 0xFF, 0xFF, 0xFF, 0xFC, 0, 0, 0, 2, 18, 19] :
          Bytes).drop 8).take 4) =
          (([0x11, 0x23, 0x11, 0x00, 0xFF, 0xFF, 0xFF, 0xFC, 0, 0, 0, 2, 18, 19] :
            Bytes).drop 12).length) ∧
      (3 = 0 → header = [0x11, 0x11, 0x11, 0x00] ∧ seq = 1 ∧
        payload = id ((fun _ => [123, 125]) (constructRequest testConfig))) ∧
      (0 < 3 → ∃ c : AudioChunk,
        (∀ fuel, 3 ≤ fuel → (sliceData sampleAudio 4 fuel).1[3 - 1]? = some c) ∧
        payload = id c.Chunk ∧
        seq = (if c.Last then -(((3 : Nat) : Int) + 1) else ((3 : Nat) : Int) + 1) ∧
        header = (if c.Last then [0x11, 0x23, 0x11, 0x00] else [0x11, 0x21, 0x11, 0x00]) ∧
        ((0 : Int) < 4 →
          3 ≤ (sliceData sampleAudio 4 (sampleAudio.length + 1)).1.length ∧
          (c.Last = true ↔ 3 = (sliceData sampleAudio 4 (sampleAudio.length + 1)).1.length) ∧
          header = (if 3 < (sliceData sampleAudio 4 (sampleAudio.length + 1)).1.length
            then [0x11, 0x21, 0x11, 0x00] else [0x11, 0x23, 0x11, 0x00]))) :=
  ⟨by decide, by decide,
    processData_frame_layout id (fun _ => [123, 125]) (fun _ => .readerFailed)
      (fun _ => (none : Option Unit)) testConfig samplePeer sampleAudio 4 3
      [0x11, 0x23, 0x11, 0x00, 0xFF, 0xFF, 0xFF, 0xFC, 0, 0, 0, 2, 18, 19] (by decide)⟩

/-! ## Sequence values of a session -/

theorem audioOnlyRequest_byte1 (gzip : Bytes → Bytes) (c : AudioChunk) (v : Int) :
    (audioOnlyRequest gzip c v).getD 1 0 = if c.Last then 0x23 else 0x21 := by
  have e1 : generateHeader AUDIO_ONLY_REQUEST POS_SEQUENCE JSON GZIP_COMPRESSION 0x00 =
      [0x11, 0x21, 0x11, 0x00] := by decide
  have e2 : generateHeader AUDIO_ONLY_REQUEST NEG_WITH_SEQUENCE JSON GZIP_COMPRESSION 0x00 =
      [0x11, 0x23, 0x11, 0x00] := by decide
  cases hc : c.Last <;> simp [audioOnlyRequest, assembleFrame, hc, e1, e2]

/-- C13, as stated, fails: in the session over the 12-byte buffer with segment size
2 (six audio chunks, every transport operation succeeding) the seven frames written
carry, as header byte 1 and sequence, `(0x11, 1)`, `(0x21, 2)`, ..., `(0x21, 6)`,
`(0x23, -7)`: the chunk values run from 2 to `N + 1 = 7`, and the frame of the 6th
and final chunk carries `-7`, not `-6`. -/
theorem processData_six_chunks_sequence :
    sliceData twelveBytes 2 (twelveBytes.length + 1) =
      ([⟨[20, 21], false⟩, ⟨[22, 23], false⟩, ⟨[24, 25], false⟩, ⟨[26, 27], false⟩,
        ⟨[28, 29], false⟩, ⟨[30, 31], true⟩], .closed) ∧
    (processData id (fun _ => [123, 125]) (fun _ => .readerFailed)
        (fun _ => (none : Option Unit)) testConfig sevenRoundPeer twelveBytes 2).sends.map
          (fun f => (f.getD 1 0, int32 (beUint32 ((f.drop 4).take 4)))) =
      [(0x11, 1), (0x21, 2), (0x21, 3), (0x21, 4), (0x21, 5), (0x21, 6), (0x23, -7)] ∧
    ((processData id (fun _ => [123, 125]) (fun _ => .readerFailed)
        (fun _ => (none : Option Unit)) testConfig sevenRoundPeer twelveBytes 2).sends.map
          (fun f => int32 (beUint32 ((f.drop 4).take 4)))).getLast? ≠ some (-6) := by
  refine ⟨by decide, by decide, by decide⟩

/-- C13, amended. In a recognition session (`processData` with segment size `S > 0`)
that returns a response, with `N` the number of audio chunks: the frames written
are the configuration frame (header byte 1 `0x11`, sequence 1) followed by the `N`
audio-chunk frames, whose sequence values are `2, 3, ..., N + 1` with the final one
negated: the `i`-th chunk frame (from 0) has header byte 1 `0x21` and sequence
`i + 2` when it is not the last, and the last has header byte 1 `0x23` and sequence
`-(N + 1)`.  In particular the frame of the 6th and final chunk of a 6-chunk session
has header byte 1 `0x23` and sequence field `-7`. -/
theorem processData_sequence_values {J : Type} (gzip : Bytes → Bytes)
    (marshal : Request → Bytes) (gunzip : Bytes → GunzipResult) (unmarshal : Bytes → Option J)
    (config : AsrConfig) (peer : Peer) (data : Bytes) (segmentSize : Int)
    (hS : 0 < segmentSize) (r : Response J)
    (hret : (processData gzip marshal gunzip unmarshal config peer data segmentSize).outcome
      = .returned r) :
    ∃ chunks, sliceData data segmentSize (data.length + 1) = (chunks, .closed) ∧
      (processData gzip marshal gunzip unmarshal config peer data segmentSize).sends.map
          (fun f => (f.getD 1 0, (f.drop 4).take 4)) =
        (0x11, generateBeforePayload 1) ::
          (List.range chunks.length).map (fun i =>
            if i + 1 < chunks.length then (0x21, generateBeforePayload ((i : Int) + 2))
            else (0x23, generateBeforePayload (-((chunks.length : Int) + 1)))) ∧
      (chunks.length = 6 →
        ((processData gzip marshal gunzip unmarshal config peer data segmentSize).sends.map
          (fun f => (f.getD 1 0, int32 (beUint32 ((f.drop 4).take 4)))))[6]?
            = some (0x23, -7)) := by
  obtain ⟨s, rfl⟩ := Int.eq_ofNat_of_zero_le hS.le
  have hs : 0 < s := by exact_mod_cast hS
  obtain ⟨hclosed, -, -, -⟩ :=
    sliceLoop_spec data s hs (data.length + 1) 0 (Nat.zero_le _) (by omega)
  simp only [Nat.cast_zero] at hclosed
  have hsd : sliceData data (s : Int) (data.length + 1) =
      ((sliceLoop data (s : Int) (data.length + 1) 0).1, .closed) := by
    show sliceLoop data (s : Int) (data.length + 1) 0 = _
    rw [← hclosed]
  have hcfg1 : (fullClientRequest gzip marshal config 1).getD 1 0 = 0x11 := by
    have e : generateHeader FULL_CLIENT_REQUEST POS_SEQUENCE JSON GZIP_COMPRESSION 0x00 =
        [0x11, 0x11, 0x11, 0x00] := by decide
    simp [fullClientRequest, assembleFrame, e]
  have hmain :
      (processData gzip marshal gunzip unmarshal config peer data (s : Int)).sends.map
          (fun f => (f.getD 1 0, (f.drop 4).take 4)) =
        (0x11, generateBeforePayload 1) ::
          (List.range (sliceLoop data (s : Int) (data.length + 1) 0).1.length).map
            (fun i =>
              if i + 1 < (sliceLoop data (s : Int) (data.length + 1) 0).1.length
              then (0x21, generateBeforePayload ((i : Int) + 2))
              else (0x23, generateBeforePayload
                (-(((sliceLoop data (s : Int) (data.length + 1)
                  0).1.length : Int) + 1)))) := by
    rcases processData_sends_structure gzip marshal gunzip unmarshal config peer data (s : Int)
      with ⟨-, h0⟩ | ⟨-, h1⟩ | ⟨reads, writes, h2, h3⟩
    · exact absurd hret (h0 r)
    · exact absurd hret (h1 r)
    · obtain ⟨l1, l2⟩ := chunkLoop_sends gzip gunzip unmarshal data s hs (data.length + 1) 0 1
        reads writes (Nat.zero_le _) (by omega)
      simp only [Nat.cast_zero] at l1 l2
      have hlen := l2 r (by rw [← h3]; exact hret)
      rw [h2, List.map_cons, hcfg1, fullClientRequest_sequence_field]
      congr 1
      apply List.ext_getElem?
      intro n
      rw [List.getElem?_map, List.getElem?_map]
      by_cases hn : n < (sliceLoop data (s : Int) (data.length + 1) 0).1.length
      · have hn' : n < (chunkLoop gzip gunzip unmarshal data (s : Int) reads writes
            0 1).sends.length := by omega
        obtain ⟨c, hc1, hc2⟩ := l1 n _ (List.getElem?_eq_getElem hn')
        have hflag := sliceLoop_last_flag data s hs (data.length + 1) (by omega) n c
          (by simpa only [Nat.cast_zero] using hc1)
        simp only [Nat.cast_zero] at hflag
        rw [List.getElem?_eq_getElem hn', List.getElem?_range hn, Option.map_some',
          Option.map_some', hc2, audioOnlyRequest_byte1, audioOnlyRequest_sequence_field]
        by_cases hlt : n + 1 < (sliceLoop data (s : Int) (data.length + 1)
            0).1.length
        · have hl : c.Last = false := by
            cases hcl : c.Last
            · rfl
            · have := hflag.1 hcl; omega
          rw [if_pos hlt, if_pos hlt, hl]
          simp only [Bool.false_eq_true, if_false]
          congr 3
          ring
        · have hl : c.Last = true := hflag.2 (by omega)
          have hN : (sliceLoop data (s : Int) (data.length + 1) 0).1.length
              = n + 1 := by omega
          rw [if_neg hlt, if_neg hlt, hl, hN]
          simp only [if_true]
          congr 3
          push_cast
          ring
      · have hn' : ¬ n < (chunkLoop gzip gunzip unmarshal data (s : Int) reads writes
            0 1).sends.length := by omega
        rw [List.getElem?_eq_none (by omega), List.getElem?_eq_none (by simp; omega)]
        rfl
  refine ⟨_, hsd, hmain, ?_⟩
  intro h6
  have hmap : (processData gzip marshal gunzip unmarshal config peer data (s : Int)).sends.map
      (fun f => (f.getD 1 0, int32 (beUint32 ((f.drop 4).take 4)))) =
      ((processData gzip marshal gunzip unmarshal config peer data (s : Int)).sends.map
        (fun f => (f.getD 1 0, (f.drop 4).take 4))).map
          (fun p => (p.1, int32 (beUint32 p.2))) := by
    rw [List.map_map]
    rfl
  rw [hmap, hmain, h6]
  decide

theorem processData_sequence_values_witness :
    (0 : Int) < 2 ∧
    (processData id (fun _ => [123, 125]) (fun _ => .readerFailed)
      (fun _ => (none : Option Unit)) testConfig sevenRoundPeer twelveBytes 2).outcome
        = .returned {} ∧
    ∃ chunks, sliceData twelveBytes 2 (twelveBytes.length + 1) = (chunks, .closed) ∧
      (processData id (fun _ => [123, 125]) (fun _ => .readerFailed)
        (fun _ => (none : Option Unit)) testConfig sevenRoundPeer twelveBytes 2).sends.map
          (fun f => (f.getD 1 0, (f.drop 4).take 4)) =
        (0x11, generateBeforePayload 1) ::
          (List.range chunks.length).map (fun i =>
            if i + 1 < chunks.length then (0x21, generateBeforePayload ((i : Int) + 2))
            else (0x23, generateBeforePayload (-((chunks.length : Int) + 1)))) ∧
      (chunks.length = 6 →
        ((processData id (fun _ => [123, 125]) (fun _ => .readerFailed)
          (fun _ => (none : Option Unit)) testConfig sevenRoundPeer twelveBytes 2).sends.map
            (fun f => (f.getD 1 0, int32 (beUint32 ((f.drop 4).take 4)))))[6]?
              = some (0x23, -7)) :=
  ⟨by decide, by decide,
    processData_sequence_values id (fun _ => [123, 125]) (fun _ => .readerFailed)
      (fun _ => (none : Option Unit)) testConfig sevenRoundPeer twelveBytes 2 (by decide) {}
      (by decide)⟩


/-! ## Alternation of sends and receives in a recognition session -/

theorem chunkLoop_alternation {J : Type} (gzip : Bytes → Bytes) (gunzip : Bytes → GunzipResult)
    (unmarshal : Bytes → Option J) (data : Bytes) (s : Nat) (hs : 0 < s) :
    ∀ (fuel o : Nat) (q : Int) (frames : List GoSlice) (reads : List (Option GoSlice))
      (writes : List Bool),
      o ≤ data.length → data.length - o < fuel →
      frames.length = (sliceLoop data (s : Int) fuel (o : Int)).1.length →
      (∀ f ∈ frames, ∃ r, parseResponse gunzip unmarshal f = some r) →
      (chunkLoop gzip gunzip unmarshal data (s : Int) (frames.map some ++ reads)
          (List.replicate frames.length true ++ writes) (o : Int) q).trace =
        (List.zip (chunkLoop gzip gunzip unmarshal data (s : Int) (frames.map some ++ reads)
          (List.replicate frames.length true ++ writes) (o : Int) q).sends frames).flatMap
          (fun p => [Event.sent p.1, Event.received p.2]) ∧
      ∃ last r, frames.getLast? = some last ∧
        parseResponse gunzip unmarshal last = some r ∧
        (chunkLoop gzip gunzip unmarshal data (s : Int) (frames.map some ++ reads)
          (List.replicate frames.length true ++ writes) (o : Int) q).outcome = .returned r := by
  intro fuel
  induction fuel with
  | zero => intro o _ _ _ _ _ h; omega
  | succ fuel ih =>
    intro o q frames reads writes ho hf hlen hparse
    by_cases h : o + s < data.length
    · obtain ⟨-, -, -, ⟨m, hm, -, -⟩⟩ := sliceLoop_spec data s hs fuel (o + s) (by omega) (by omega)
      rw [sliceLoop_interior data s o fuel h] at hlen
      simp only [List.length_cons] at hlen
      rcases frames with _ | ⟨f0, fs⟩
      · simp at hlen
      simp only [List.length_cons, Nat.add_right_cancel_iff] at hlen
      obtain ⟨r0, hr0⟩ := hparse f0 (List.mem_cons_self _ _)
      obtain ⟨ih1, last, r, hl1, hl2, hl3⟩ := ih (o + s) (q + 1) fs reads writes (by omega)
        (by omega) hlen (fun f hf => hparse f (List.mem_cons_of_mem _ hf))
      have hne : fs ≠ [] := by
        intro he
        rw [he, hm] at hlen
        simp at hlen
      have hstep : chunkLoop gzip gunzip unmarshal data (s : Int)
          ((f0 :: fs).map some ++ reads)
          (List.replicate (f0 :: fs).length true ++ writes) (o : Int) q =
          ⟨.sent (audioOnlyRequest gzip ⟨(data.drop o).take s, false⟩ (q + 1)) :: .received f0 ::
            (chunkLoop gzip gunzip unmarshal data (s : Int) (fs.map some ++ reads)
              (List.replicate fs.length true ++ writes) ((o + s : Nat) : Int) (q + 1)).trace,
           (chunkLoop gzip gunzip unmarshal data (s : Int) (fs.map some ++ reads)
              (List.replicate fs.length true ++ writes) ((o + s : Nat) : Int) (q + 1)).outcome⟩ := by
        simp only [List.map_cons, List.cons_append, List.length_cons, List.replicate_succ]
        rw [chunkLoop, chunkSend_interior gzip data s o q _ h]
        dsimp only
        rw [hr0]
        simp only [Bool.false_eq_true, if_false]
      rw [hstep]
      refine ⟨?_, last, r, ?_, hl2, hl3⟩
      · have hsends : ∀ (a : Bytes) (b : GoSlice) (t : List Event) (e : SessionEnd J),
            (Session.mk (Event.sent a :: Event.received b :: t) e).sends =
              a :: (Session.mk t e).sends := by
          intro a b t e; simp [Session.sends]
        rw [hsends]
        simp only [List.zip_cons_cons, List.flatMap_cons, List.cons_append, List.nil_append]
        have : (Session.mk (chunkLoop gzip gunzip unmarshal data (s : Int) (fs.map some ++ reads)
              (List.replicate fs.length true ++ writes) ((o + s : Nat) : Int) (q + 1)).trace
            (chunkLoop gzip gunzip unmarshal data (s : Int) (fs.map some ++ reads)
              (List.replicate fs.length true ++ writes) ((o + s : Nat) : Int) (q + 1)).outcome).sends
            = (chunkLoop gzip gunzip unmarshal data (s : Int) (fs.map some ++ reads)
              (List.replicate fs.length true ++ writes) ((o + s : Nat) : Int) (q + 1)).sends := rfl
        rw [this, ← ih1]
      · obtain ⟨f1, fs1, rfl⟩ := List.exists_cons_of_ne_nil hne
        rw [List.getLast?_cons_cons]
        exact hl1
    · rw [sliceLoop_final data s o fuel ho h] at hlen
      simp only [List.length_singleton] at hlen
      obtain ⟨f0, rfl⟩ := List.length_eq_one.1 hlen
      obtain ⟨r0, hr0⟩ := hparse f0 (List.mem_singleton_self _)
      have hstep : chunkLoop gzip gunzip unmarshal data (s : Int)
          ([f0].map some ++ reads)
          (List.replicate [f0].length true ++ writes) (o : Int) q =
          ⟨[.sent (audioOnlyRequest gzip ⟨data.drop o, true⟩ (-(q + 1))), .received f0],
            .returned r0⟩ := by
        simp only [List.map_cons, List.map_nil, List.cons_append, List.nil_append,
          List.length_singleton, List.replicate_succ, List.replicate_zero]
        rw [chunkLoop, chunkSend_final gzip data s o q _ ho h]
        dsimp only
        rw [hr0]
        simp only [if_true]
      rw [hstep]
      exact ⟨by simp [Session.sends], f0, r0, rfl, hr0, rfl⟩

theorem chunkLoop_sends_list {J : Type} (gzip : Bytes → Bytes) (gunzip : Bytes → GunzipResult)
    (unmarshal : Bytes → Option J) (data : Bytes) (s : Nat) (hs : 0 < s)
    (reads : List (Option GoSlice)) (writes : List Bool) (r : Response J)
    (hret : (chunkLoop gzip gunzip unmarshal data (s : Int) reads writes ((0 : Nat) : Int) 1).outcome
      = .returned r) :
    (chunkLoop gzip gunzip unmarshal data (s : Int) reads writes ((0 : Nat) : Int) 1).sends =
      (List.range (sliceLoop data (s : Int) (data.length + 1) ((0 : Nat) : Int)).1.length).map
        (fun k => audioOnlyRequest gzip
          ((sliceLoop data (s : Int) (data.length + 1) ((0 : Nat) : Int)).1.getD k ⟨[], false⟩)
          (if k + 1 < (sliceLoop data (s : Int) (data.length + 1) ((0 : Nat) : Int)).1.length
            then (k : Int) + 2
            else -(((sliceLoop data (s : Int) (data.length + 1) ((0 : Nat) : Int)).1.length : Int)
              + 1))) := by
  obtain ⟨h1, h2⟩ := chunkLoop_sends gzip gunzip unmarshal data s hs (data.length + 1) 0 1
    reads writes (Nat.zero_le _) (by omega)
  have hlen := h2 r hret
  apply List.ext_getElem?
  intro i
  by_cases hi : i < (sliceLoop data (s : Int) (data.length + 1) ((0 : Nat) : Int)).1.length
  · have hi2 : i < (chunkLoop gzip gunzip unmarshal data (s : Int) reads writes
        ((0 : Nat) : Int) 1).sends.length := by omega
    obtain ⟨c, hc1, hc2⟩ := h1 i _ (List.getElem?_eq_getElem hi2)
    rw [List.getElem?_eq_getElem hi2, hc2, List.getElem?_map, List.getElem?_range hi]
    simp only [Option.map_some', Option.some.injEq]
    have hget : (sliceLoop data (s : Int) (data.length + 1) ((0 : Nat) : Int)).1.getD i ⟨[], false⟩
        = c := by
      rw [List.getD_eq_getElem?_getD, hc1]; rfl
    rw [hget]
    congr 1
    by_cases hlt : i + 1 < (sliceLoop data (s : Int) (data.length + 1) ((0 : Nat) : Int)).1.length
    · rw [if_pos hlt, if_pos hlt]; ring
    · rw [if_neg hlt, if_neg hlt]
      have : (sliceLoop data (s : Int) (data.length + 1) ((0 : Nat) : Int)).1.length = i + 1 := by
        omega
      rw [this]; push_cast; ring
  · rw [List.getElem?_eq_none (by omega), List.getElem?_eq_none (by rw [List.length_map, List.length_range]; omega)]

theorem processData_alternation {J : Type} (gzip : Bytes → Bytes)
    (marshal : Request → Bytes) (gunzip : Bytes → GunzipResult) (unmarshal : Bytes → Option J)
    (config : AsrConfig) (data : Bytes) (S : Int) (hS : 0 < S)
    (frames : List GoSlice) (reads : List (Option GoSlice)) (writes : List Bool)
    (hlen : frames.length = (sliceData data S (data.length + 1)).1.length + 1)
    (hparse : ∀ f ∈ frames, ∃ r, parseResponse gunzip unmarshal f = some r) :
    (processData gzip marshal gunzip unmarshal config
        ⟨true, List.replicate frames.length true ++ writes, frames.map some ++ reads⟩
        data S).trace =
      (List.zip (processData gzip marshal gunzip unmarshal config
        ⟨true, List.replicate frames.length true ++ writes, frames.map some ++ reads⟩
        data S).sends frames).flatMap (fun p => [Event.sent p.1, Event.received p.2]) ∧
    (processData gzip marshal gunzip unmarshal config
        ⟨true, List.replicate frames.length true ++ writes, frames.map some ++ reads⟩
        data S).sends =
      fullClientRequest gzip marshal config 1 ::
        (List.range (sliceData data S (data.length + 1)).1.length).map
          (fun k => audioOnlyRequest gzip
            ((sliceData data S (data.length + 1)).1.getD k ⟨[], false⟩)
            (if k + 1 < (sliceData data S (data.length + 1)).1.length then (k : Int) + 2
              else -(((sliceData data S (data.length + 1)).1.length : Int) + 1))) ∧
    ∃ last r, frames.getLast? = some last ∧
      parseResponse gunzip unmarshal last = some r ∧
      (processData gzip marshal gunzip unmarshal config
        ⟨true, List.replicate frames.length true ++ writes, frames.map some ++ reads⟩
        data S).outcome = .returned r := by
  obtain ⟨s, rfl⟩ := Int.eq_ofNat_of_zero_le hS.le
  have hs : 0 < s := by exact_mod_cast hS
  have hsd : sliceData data (s : Int) (data.length + 1) =
      sliceLoop data (s : Int) (data.length + 1) ((0 : Nat) : Int) := rfl
  rw [hsd] at hlen ⊢
  rcases frames with _ | ⟨f0, fs⟩
  · simp at hlen
  simp only [List.length_cons, Nat.add_right_cancel_iff] at hlen
  obtain ⟨r0, hr0⟩ := hparse f0 (List.mem_cons_self _ _)
  obtain ⟨a1, last, r, a2, a3, a4⟩ := chunkLoop_alternation gzip gunzip unmarshal data s hs
    (data.length + 1) 0 1 fs reads writes (Nat.zero_le _) (by omega) hlen
    (fun f hf => hparse f (List.mem_cons_of_mem _ hf))
  have hstep : processData gzip marshal gunzip unmarshal config
      ⟨true, List.replicate (f0 :: fs).length true ++ writes, (f0 :: fs).map some ++ reads⟩
      data (s : Int) =
      ⟨.sent (fullClientRequest gzip marshal config 1) :: .received f0 ::
        (chunkLoop gzip gunzip unmarshal data (s : Int) (fs.map some ++ reads)
          (List.replicate fs.length true ++ writes) ((0 : Nat) : Int) 1).trace,
       (chunkLoop gzip gunzip unmarshal data (s : Int) (fs.map some ++ reads)
          (List.replicate fs.length true ++ writes) ((0 : Nat) : Int) 1).outcome⟩ := by
    simp only [processData, List.map_cons, List.cons_append, List.length_cons,
      List.replicate_succ, Bool.not_true, Bool.false_eq_true, if_false, hr0, Nat.cast_zero]
  have hsends : (processData gzip marshal gunzip unmarshal config
      ⟨true, List.replicate (f0 :: fs).length true ++ writes, (f0 :: fs).map some ++ reads⟩
      data (s : Int)).sends = fullClientRequest gzip marshal config 1 ::
        (chunkLoop gzip gunzip unmarshal data (s : Int) (fs.map some ++ reads)
          (List.replicate fs.length true ++ writes) ((0 : Nat) : Int) 1).sends := by
    rw [hstep]; simp [Session.sends]
  have hne : fs ≠ [] := by
    obtain ⟨-, -, -, ⟨m, hm, -, -⟩⟩ :=
      sliceLoop_spec data s hs (data.length + 1) 0 (Nat.zero_le _) (by omega)
    intro he
    rw [he, hm] at hlen
    simp at hlen
  refine ⟨?_, ?_, last, r, ?_, a3, ?_⟩
  · rw [hsends, hstep]
    simp only [List.zip_cons_cons, List.flatMap_cons, List.cons_append, List.nil_append]
    rw [← a1]
  · rw [hsends, chunkLoop_sends_list gzip gunzip unmarshal data s hs _ _ r a4]
  · obtain ⟨f1, fs1, rfl⟩ := List.exists_cons_of_ne_nil hne
    rw [List.getLast?_cons_cons]
    exact a2
  · rw [hstep]; exact a4

/-- C21 fails on the code: with every transport operation succeeding, a received
frame on which `parseResponse` panics ends the session there.  When the first frame
received is `1F 00 00 00` the events are the send of the configuration frame and one
receive, and `processData` panics, whatever the audio; on the 10-byte buffer with
segment size 4 (three chunks) and that frame as the second answer, the events are two
sends and two receives instead of four and four.  When every received frame parses,
the claim holds: for `S > 0`, `N` chunks and `N + 1` frames offered by a peer that
fails no operation, the events are send, receive, send, receive, ... over the
configuration frame followed by the audio-chunk frames in chunk order (counter `k + 2`
for chunk index `k`, `-(N + 1)` for the last), each paired with the frame received
after it, and the response returned is the parse of the last frame received. -/
theorem processData_alternation_stops_at_panic :
    (∀ (J : Type) (gzip : Bytes → Bytes) (marshal : Request → Bytes)
        (gunzip : Bytes → GunzipResult) (unmarshal : Bytes → Option J) (config : AsrConfig)
        (data : Bytes) (S : Int) (writes : List Bool) (reads : List (Option GoSlice))
        (spare : Bytes),
      processData gzip marshal gunzip unmarshal config
          ⟨true, true :: writes, some ⟨[0x1F, 0x00, 0x00, 0x00], spare⟩ :: reads⟩ data S =
        ⟨[.sent (fullClientRequest gzip marshal config 1),
            .received ⟨[0x1F, 0x00, 0x00, 0x00], spare⟩], .panicked⟩) ∧
    ((sliceData sampleAudio 4 (sampleAudio.length + 1)).1.length = 3 ∧
      processData id (fun _ => [123, 125]) (fun _ => .readerFailed)
          (fun _ => (none : Option Unit)) testConfig
          ⟨true, [true, true, true, true],
            [some ⟨[0x11, 0x90, 0x10, 0x00, 0, 0, 0, 0], []⟩,
              some ⟨[0x1F, 0x00, 0x00, 0x00], []⟩,
              some ⟨[0x11, 0x90, 0x10, 0x00, 0, 0, 0, 0], []⟩,
              some ⟨[0x11, 0x92, 0x10, 0x00, 0, 0, 0, 0], []⟩]⟩ sampleAudio 4 =
        ⟨[.sent (fullClientRequest id (fun _ => [123, 125]) testConfig 1),
            .received ⟨[0x11, 0x90, 0x10, 0x00, 0, 0, 0, 0], []⟩,
            .sent (audioOnlyRequest id ⟨[10, 11, 12, 13], false⟩ 2),
            .received ⟨[0x1F, 0x00, 0x00, 0x00], []⟩], .panicked⟩) ∧
    (∀ (J : Type) (gzip : Bytes → Bytes) (marshal : Request → Bytes)
        (gunzip : Bytes → GunzipResult) (unmarshal : Bytes → Option J) (config : AsrConfig)
        (data : Bytes) (S : Int) (frames : List GoSlice) (reads : List (Option GoSlice))
        (writes : List Bool),
      0 < S →
      frames.length = (sliceData data S (data.length + 1)).1.length + 1 →
      (∀ f ∈ frames, ∃ r, parseResponse gunzip unmarshal f = some r) →
      (processData gzip marshal gunzip unmarshal config
          ⟨true, List.replicate frames.length true ++ writes, frames.map some ++ reads⟩
          data S).trace =
        (List.zip (processData gzip marshal gunzip unmarshal config
          ⟨true, List.replicate frames.length true ++ writes, frames.map some ++ reads⟩
          data S).sends frames).flatMap (fun p => [Event.sent p.1, Event.received p.2]) ∧
      (processData gzip marshal gunzip unmarshal config
          ⟨true, List.replicate frames.length true ++ writes, frames.map some ++ reads⟩
          data S).sends =
        fullClientRequest gzip marshal config 1 ::
          (List.range (sliceData data S (data.length + 1)).1.length).map
            (fun k => audioOnlyRequest gzip
              ((sliceData data S (data.length + 1)).1.getD k ⟨[], false⟩)
              (if k + 1 < (sliceData data S (data.length + 1)).1.length then (k : Int) + 2
                else -(((sliceData data S (data.length + 1)).1.length : Int) + 1))) ∧
      ∃ last r, frames.getLast? = some last ∧
        parseResponse gunzip unmarshal last = some r ∧
        (processData gzip marshal gunzip unmarshal config
          ⟨true, List.replicate frames.length true ++ writes, frames.map some ++ reads⟩
          data S).outcome = .returned r) := by
  refine ⟨?_, ⟨by decide, by decide⟩, ?_⟩
  · intro J gzip marshal gunzip unmarshal config data S writes reads spare
    have hd : decodeHeader [0x1F, 0x00, 0x00, 0x00] = ⟨1, 15, 0, 0, 0, 0, 0⟩ := by decide
    have hp : parseResponse gunzip unmarshal ⟨[0x1F, 0x00, 0x00, 0x00], spare⟩ = none := by
      simp [parseResponse, hd, GoSlice.sliceFrom]
    simp only [processData, Bool.not_true, Bool.false_eq_true, if_false, hp]
  · intro J gzip marshal gunzip unmarshal config data S frames reads writes hS hlen hparse
    exact processData_alternation gzip marshal gunzip unmarshal config data S hS frames reads
      writes hlen hparse

/-! ## Synthesis request builder -/

/-- C22. `gzipCompress` fails with the empty-input error, returning no bytes, on a
zero-length input, and succeeds on every non-empty input; `buildRequest` fails on an
empty payload, and every frame it emits is `defaultHeader`, a 4-byte length and the
compression of a non-empty payload: the frame has `8 + |body|` bytes, and its body is
not zero-length as long as the gzip stream of a non-empty input is not empty. -/
theorem gzipCompress_buildRequest (gzip : Bytes → Bytes) (input : Bytes) :
    (input = [] →
      gzipCompress gzip input = .error .emptyInput ∧
      TTSWsClient.buildRequest gzip input = .error (.requestCompressionFailed .emptyInput)) ∧
    (input ≠ [] →
      gzipCompress gzip input = .ok (gzip input) ∧
      TTSWsClient.buildRequest gzip input =
        .ok (defaultHeader ++ putUint32 (uint32 (gzip input).length) ++ gzip input)) ∧
    (∀ frame, TTSWsClient.buildRequest gzip input = .ok frame →
      input ≠ [] ∧ frame.take 4 = defaultHeader ∧ frame.length = 8 + (gzip input).length ∧
      frame.drop 8 = gzip input ∧
      ((∀ b : Bytes, b ≠ [] → gzip b ≠ []) → frame.drop 8 ≠ [])) := by
  have hempty : input = [] → gzipCompress gzip input = .error .emptyInput := by
    intro h; subst h; rfl
  have hok : input ≠ [] → gzipCompress gzip input = .ok (gzip input) := by
    intro h
    have : ¬ input.length = 0 := fun hl => h (List.length_eq_zero.1 hl)
    simp only [gzipCompress, this, if_false]
  refine ⟨?_, ?_, ?_⟩
  · intro h
    refine ⟨hempty h, ?_⟩
    simp only [TTSWsClient.buildRequest, hempty h]
  · intro h
    refine ⟨hok h, ?_⟩
    simp only [TTSWsClient.buildRequest, hok h]
  · intro frame hf
    by_cases h : input = []
    · simp only [TTSWsClient.buildRequest, hempty h] at hf
      cases hf
    · simp only [TTSWsClient.buildRequest, hok h] at hf
      have hfr : frame = defaultHeader ++ putUint32 (uint32 (gzip input).length) ++ gzip input := by
        injection hf with hf
        exact hf.symm
      subst hfr
      refine ⟨h, ?_, ?_, ?_, ?_⟩
      · simp [defaultHeader, putUint32]
      · simp [defaultHeader, putUint32]; omega
      · simp [defaultHeader, putUint32]
      · intro hlib
        have : (defaultHeader ++ putUint32 (uint32 (gzip input).length) ++ gzip input).drop 8
            = gzip input := by
          simp [defaultHeader, putUint32]
        rw [this]
        exact hlib input h

/-! ## `ReadBook` -/

/-- C23 fails on the code: `ReadBook` has two error returns, that of `os.Open` and
that of `io.ReadAll` on the transforming reader, and no check of the encoding of its
own.  With a decoder that reports no error (the GBK decoder of `golang.org/x/text`
substitutes U+FFFD for bytes it cannot decode), `ReadBook` returns decoded content
and no error for every readable file, the `wrong_encoding.txt` of `TestReadBook`
included. -/
theorem ReadBook_no_encoding_error (gbkDecode : Bytes → Option Bytes)
    (hlib : ∀ b, ∃ utf8, gbkDecode b = some utf8) :
    (∃ utf8, gbkDecode wrongEncodingBytes = some utf8 ∧
      ReadBook gbkDecode (some wrongEncodingBytes) = .ok utf8) ∧
    (∀ content, ∃ utf8, gbkDecode content = some utf8 ∧
      ReadBook gbkDecode (some content) = .ok utf8) ∧
    (∀ file e, ReadBook gbkDecode file = .error e → file = none ∧ e = .openFailed) := by
  have h : ∀ content, ∃ utf8, gbkDecode content = some utf8 ∧
      ReadBook gbkDecode (some content) = .ok utf8 := by
    intro content
    obtain ⟨utf8, hu⟩ := hlib content
    exact ⟨utf8, hu, by simp only [ReadBook, hu]⟩
  refine ⟨h wrongEncodingBytes, h, ?_⟩
  intro file e he
  cases file with
  | none =>
    simp only [ReadBook] at he
    injection he with he
    exact ⟨rfl, he.symm⟩
  | some content =>
    obtain ⟨utf8, -, hu⟩ := h content
    rw [hu] at he
    cases he

theorem ReadBook_no_encoding_error_witness :
    (∀ b : Bytes, ∃ utf8, (fun c : Bytes => some (c.map fun x => if x < 0x80 then x else 0x3F)) b
      = some utf8) ∧
    ∃ utf8, (fun c : Bytes => some (c.map fun x => if x < 0x80 then x else 0x3F))
        wrongEncodingBytes = some utf8 ∧
      ReadBook (fun c : Bytes => some (c.map fun x => if x < 0x80 then x else 0x3F))
        (some wrongEncodingBytes) = .ok utf8 :=
  ⟨fun _ => ⟨_, rfl⟩,
    (ReadBook_no_encoding_error
      (fun c : Bytes => some (c.map fun x => if x < 0x80 then x else 0x3F))
      (fun _ => ⟨_, rfl⟩)).1⟩

/-! ## Sequence round trip between builder and recognition parser -/

theorem int32_generateBeforePayload (s : Int) (h1 : -2 ^ 31 ≤ s) (h2 : s < 2 ^ 31) :
    int32 (beUint32 (generateBeforePayload s)) = s := by
  unfold generateBeforePayload
  rw [beUint32_putUint32]
  unfold int32 uint32
  split <;> omega

theorem beUint32_generateBeforePayload (s : Int) :
    (beUint32 (generateBeforePayload s) : Int) = s % 2 ^ 32 := by
  unfold generateBeforePayload
  rw [beUint32_putUint32]
  unfold uint32
  omega

/-- C24 fails on the code: `generateBeforePayload(s)` is the 4-byte big-endian two's
complement encoding of every signed 32-bit `s` (decoding it as `int32` gives `s`
back), but `parseResponse` stores `int(binary.BigEndian.Uint32(...))`, the unsigned
value: on a frame whose flags have bit 0 set and whose sequence field is
`generateBeforePayload(s)` it returns `PayloadSequence = s mod 2 ^ 32`, which is `s`
for `s ≥ 0` and `s + 2 ^ 32` for `s < 0`.  On the frame `11 91 10 00 | FF FF FF FA |
00 00 00 00`, whose sequence field is `generateBeforePayload(-6)`, it returns
`PayloadSequence = 4294967290`. -/
theorem parseResponse_negative_sequence_unsigned :
    generateBeforePayload (-6) = [0xFF, 0xFF, 0xFF, 0xFA] ∧
    parseResponse (fun _ => .readerFailed) (fun _ => (none : Option Unit))
      (GoSlice.mk ([0x11, 0x91, 0x10, 0x00] ++ generateBeforePayload (-6) ++ [0, 0, 0, 0]) []) =
        some { PayloadSequence := 4294967290 } ∧
    ({ PayloadSequence := 4294967290 } : Response Unit).PayloadSequence ≠ -6 ∧
    (∀ s : Int, -2 ^ 31 ≤ s → s < 2 ^ 31 →
      (generateBeforePayload s).length = 4 ∧ WellFormed (generateBeforePayload s) ∧
        int32 (beUint32 (generateBeforePayload s)) = s) ∧
    (∀ (J : Type) (gunzip : Bytes → GunzipResult) (unmarshal : Bytes → Option J)
        (res : GoSlice) (r : Response J) (s : Int),
      4 ≤ res.bytes.length →
      (decodeHeader res.bytes).messageTypeSpecificFlags &&& 0x01 ≠ 0 →
      (res.bytes.drop ((decodeHeader res.bytes).headSize * 4)).take 4
        = generateBeforePayload s →
      parseResponse gunzip unmarshal res = some r →
      r.PayloadSequence = s % 2 ^ 32 ∧
        (0 ≤ s → s < 2 ^ 31 → r.PayloadSequence = s) ∧
        (-2 ^ 31 ≤ s → s < 0 → r.PayloadSequence = s + 2 ^ 32)) := by
  refine ⟨by decide, by decide, by decide, ?_, ?_⟩
  · intro s h1 h2
    refine ⟨rfl, ?_, int32_generateBeforePayload s h1 h2⟩
    intro x hx
    simp only [generateBeforePayload, putUint32, List.mem_cons, List.mem_singleton,
      List.not_mem_nil, or_false] at hx
    rcases hx with rfl | rfl | rfl | rfl <;> exact Nat.mod_lt _ (by decide)
  · intro J gunzip unmarshal res r s hlen hb hseq hp
    obtain ⟨-, base, payload, r1, size, msg, hset, -, hbody, -, e2, -, -, -, -, -⟩ :=
      parseResponse_stages gunzip unmarshal res r hlen hp
    obtain ⟨-, b2, -, -, -, -, -⟩ := parseBody_fields _ _ _ _ _ _ hbody
    obtain ⟨-, hbase, -⟩ := hset hb
    have hps : r.PayloadSequence = s % 2 ^ 32 := by
      rw [e2, b2, hbase, hseq, ← beUint32_generateBeforePayload]
      split <;> rfl
    refine ⟨hps, ?_, ?_⟩
    · intro h1 h2; rw [hps]; omega
    · intro h1 h2; rw [hps]; omega

/-! ## Totality of the synthesis parser -/

theorem TTSWsClient.parseResponse_eq_none_iff (gunzip : Bytes → GunzipResult) (res : Bytes) :
    TTSWsClient.parseResponse gunzip res = none ↔
      4 ≤ res.length ∧ (decodeHeader res).headSize = 0 := by
  constructor
  · intro h
    by_contra hc
    by_cases h4 : res.length < 4
    · unfold TTSWsClient.parseResponse at h
      simp only [h4, if_true] at h
      exact Option.noConfusion h
    have hx : ¬ ((decodeHeader res).headSize ≠ 1 ∧
        res.length ≥ (decodeHeader res).headSize * 4 ∧
        ¬ 4 ≤ (decodeHeader res).headSize * 4) := by
      intro ⟨_, h2, h3⟩
      apply hc
      constructor <;> omega
    unfold TTSWsClient.parseResponse at h
    simp only [h4, hx, if_false] at h
    split_ifs at h
    all_goals first
      | exact Option.noConfusion h
      | (split at h <;> exact Option.noConfusion h)
  · rintro ⟨h4, h0⟩
    have h4' : ¬ res.length < 4 := by omega
    have hx : (decodeHeader res).headSize ≠ 1 ∧
        res.length ≥ (decodeHeader res).headSize * 4 ∧
        ¬ 4 ≤ (decodeHeader res).headSize * 4 := by
      rw [h0]
      exact ⟨by decide, by omega, by decide⟩
    unfold TTSWsClient.parseResponse
    dsimp only
    rw [if_neg h4', if_pos hx]

/-- C25 fails on the code: the synthesis `parseResponse` stops with a slice bounds
panic on the 4-byte frame `10 B0 00 00`, whose header-size nibble is 0: the guard
`headSize != 1 && len(res) >= int(headSize*4)` holds and the header-extension slice
`res[4 : 0]` is inverted.  More precisely the function panics exactly on the frames
of at least 4 bytes whose header-size nibble is 0; on every other byte sequence,
frames with a header-size nibble larger than 1 included, it returns a `synResp` and
an error value. -/
theorem TTSWsClient.parseResponse_panics_on_zero_header_size :
    (decodeHeader [0x10, 0xB0, 0x00, 0x00]).headSize = 0 ∧
    (∀ gunzip : Bytes → GunzipResult,
      TTSWsClient.parseResponse gunzip [0x10, 0xB0, 0x00, 0x00] = none) ∧
    (∀ (gunzip : Bytes → GunzipResult) (res : Bytes),
      TTSWsClient.parseResponse gunzip res = none ↔
        4 ≤ res.length ∧ (decodeHeader res).headSize = 0) ∧
    (∀ (gunzip : Bytes → GunzipResult) (res : Bytes),
      (res.length < 4 ∨ 1 ≤ (decodeHeader res).headSize) →
        ∃ resp err, TTSWsClient.parseResponse gunzip res = some (resp, err)) := by
  refine ⟨by decide, ?_, TTSWsClient.parseResponse_eq_none_iff, ?_⟩
  · intro gunzip
    exact (TTSWsClient.parseResponse_eq_none_iff gunzip _).2 ⟨by decide, by decide⟩
  · intro gunzip res hres
    cases hp : TTSWsClient.parseResponse gunzip res with
    | none =>
      have := (TTSWsClient.parseResponse_eq_none_iff gunzip res).1 hp
      omega
    | some p => exact ⟨p.1, p.2, rfl⟩

end Myapi
